import Mathlib

/-!
# Sensor registry: reading lists, sensors and the registry list

A verification development for the IoT sensor program (`ListaSensor.h`,
`SensorTemperatura.h`, `SensorPresion.h`, `SensorBase.h`, `ListaGestion.h`).

Modelling conventions

* A singly linked chain `cabeza -> ... -> nullptr` is the Lean list of the `dato`
  fields of its nodes, head first; `cabeza == nullptr` is the empty list.  A pointer
  to a node of the chain is the position of that node in the chain.
* The `int tamanio` counter is a separate field that every operation updates exactly
  as the source does; it is a mathematical integer (a chain of `2^31` nodes is out of
  reach of the quadratic `insertar`).
* The element type `T` of `ListaSensor<T>` is a parameter equipped with the three
  arithmetic operations `calcularPromedio` uses and with the `<` that
  `eliminarMinimo` uses.  `int` is instantiated by 32-bit two's complement integers
  (`Int32`), `float` by `Flotante`: NaN, the two infinities and the finite values,
  every operation rounded to the 24 bits of precision of the format.  The rationals
  `ℚ` with exact arithmetic carry those examples whose readings, sums and quotients
  are all finite values of `float`, so that no operation rounds.
* Text written to `std::cout` is not part of the state; what `procesarLectura`
  prints is returned as a report value.
* The sensor objects live in a memory indexed by address; the registry holds
  addresses.  The destructor of the registry is described by the releases it makes,
  in order.
* For questions of sharing between two lists, `ListaSensor<T>` is modelled a second
  time in the namespace `Enlazada`, with the nodes in a free store and the pointers
  as addresses; `new` hands out addresses that were never in use.  The two models
  are tied by `Enlazada.insertar_representa`, `Enlazada.eliminarMinimo_representa`
  and their like.
-/

namespace IoT

/-! ## The element type of a reading list -/

/-- The operations `ListaSensor<T>` needs from `T`: the value `T(0)`, `suma += dato`
and `suma / tamanio` with an `int` divisor. -/
class Lectura (T : Type) where
  /-- The value `T(0)`. -/
  cero : T
  /-- The sum `suma + dato` behind `suma += dato`. -/
  suma : T → T → T
  /-- The quotient `suma / tamanio`, the divisor being the `int` counter. -/
  entre : T → Int → T

/-- Arithmetic facts shared by `int` and `float`: `T(0) + a` is `a` and `a / 1` is
`a`. -/
class LecturaLegal (T : Type) [Lectura T] : Prop where
  cero_suma : ∀ a : T, Lectura.suma Lectura.cero a = a
  entre_uno : ∀ a : T, Lectura.entre a 1 = a

/-- Reduction of an integer to the 32-bit two's complement range. -/
def wrap32 (x : Int) : Int := (x + 2147483648) % 4294967296 - 2147483648

/-- The C++ type `int`: the integers from `-2^31` to `2^31 - 1`. -/
structure Int32 where
  val : Int
  enRango : -2147483648 ≤ val ∧ val ≤ 2147483647

namespace Int32

/-- The `int` nearest to an integer modulo `2^32`. -/
def deEntero (x : Int) : Int32 :=
  ⟨wrap32 x, by unfold wrap32; omega⟩

/-- The order of `int` is the order of the integers. -/
instance : LinearOrder Int32 :=
  LinearOrder.lift' Int32.val (fun a b h => by cases a; cases b; cases h; rfl)

instance : OfNat Int32 n := ⟨deEntero n⟩

/-- The arithmetic of `int`: `+` wraps modulo `2^32`, `/` truncates toward zero. -/
instance : Lectura Int32 where
  cero := deEntero 0
  suma a b := deEntero (a.val + b.val)
  entre a n := deEntero (Int.tdiv a.val n)

end Int32

/-- Exact rational arithmetic.  It is not the arithmetic of `float` (that is
`Flotante`): it serves the examples in which every reading, sum and quotient is a
finite value of `float`, where the two agree. -/
instance : Lectura ℚ where
  cero := 0
  suma a b := a + b
  entre a n := a / (n : ℚ)

/-! ## The type `float` -/

/-- The values of the C++ type `float` (IEEE 754 binary32): NaN, the two infinities
and the finite values, a finite value being given by the rational number it denotes.
The two zeros are one value here (they compare equal, and the program divides by a
count only), and so are the NaNs. -/
inductive Flotante where
  | nan : Flotante
  | infinito (negativo : Bool) : Flotante
  | finito (q : ℚ) : Flotante
  deriving DecidableEq

namespace Flotante

/-- The power `2^e` as a rational number. -/
def dosALa (e : Int) : ℚ :=
  if 0 ≤ e then ((2 ^ e.toNat : Nat) : ℚ) else 1 / ((2 ^ (-e).toNat : Nat) : ℚ)

/-- The search for the binary exponent of the magnitude `ax`: the greatest `e`, going
down from the given one, with `2^e ≤ ax`, or the exponent reached after `pasos`
steps. -/
def buscarExponente (ax : ℚ) : Nat → Int → Int
  | 0, e => e
  | pasos + 1, e => if dosALa e ≤ ax then e else buscarExponente ax pasos (e - 1)

/-- The binary exponent `float` gives to the magnitude `ax`: the `e` with
`2^e ≤ ax < 2^(e+1)`, kept between `-126` (the subnormal numbers) and `127`. -/
def exponente (ax : ℚ) : Int := buscarExponente ax 253 127

/-- The integer nearest to `r`, the even one of the two when `r` is halfway. -/
def enteroMasCercano (r : ℚ) : Int :=
  let f := Rat.floor r
  let d := r - (f : ℚ)
  if d < 1 / 2 then f
  else if 1 / 2 < d then f + 1
  else if f % 2 = 0 then f else f + 1

/-- The `float` an exact result `x` is rounded to: the nearest multiple of
`2^(e-23)`, `e` being the binary exponent of `x` (round to nearest, ties to even, 24
significant bits), and an infinity from magnitude `2^128` on. -/
def redondear (x : ℚ) : Flotante :=
  let ulp := dosALa (exponente (if x < 0 then -x else x) - 23)
  let y := (enteroMasCercano (x / ulp) : ℚ) * ulp
  if dosALa 128 ≤ y then infinito false
  else if y ≤ -dosALa 128 then infinito true
  else finito y

/-- The sum `a + b` of two `float`s. -/
def sumar : Flotante → Flotante → Flotante
  | nan, _ => nan
  | _, nan => nan
  | infinito s, infinito t => if s = t then infinito s else nan
  | infinito s, finito _ => infinito s
  | finito _, infinito t => infinito t
  | finito x, finito y => redondear (x + y)

/-- The quotient `a / b` of two `float`s. -/
def dividir : Flotante → Flotante → Flotante
  | nan, _ => nan
  | _, nan => nan
  | infinito _, infinito _ => nan
  | infinito s, finito y => infinito (xor s (decide (y < 0)))
  | finito _, infinito _ => finito 0
  | finito x, finito y =>
    if y = 0 then (if x = 0 then nan else infinito (decide (x < 0)))
    else redondear (x / y)

/-- The comparison `a < b` of two `float`s: false as soon as one of them is NaN. -/
def menor : Flotante → Flotante → Bool
  | nan, _ => false
  | _, nan => false
  | infinito s, infinito t => s && !t
  | infinito s, finito _ => s
  | finito _, infinito t => !t
  | finito x, finito y => decide (x < y)

/-- The comparison `a <= b` of two `float`s: false as soon as one of them is NaN. -/
def menorIgual : Flotante → Flotante → Bool
  | nan, _ => false
  | _, nan => false
  | infinito s, infinito t => s || !t
  | infinito s, finito _ => s
  | finito _, infinito t => !t
  | finito x, finito y => decide (x ≤ y)

instance : LT Flotante := ⟨fun a b => menor a b = true⟩

instance : LE Flotante := ⟨fun a b => menorIgual a b = true⟩

instance : DecidableRel (fun a b : Flotante => a < b) :=
  fun a b => inferInstanceAs (Decidable (menor a b = true))

instance : DecidableRel (fun a b : Flotante => a ≤ b) :=
  fun a b => inferInstanceAs (Decidable (menorIgual a b = true))

/-- The number `x` is a finite value of `float`: rounding leaves it as it is. -/
def esExacto (x : ℚ) : Prop := redondear x = finito x

instance (x : ℚ) : Decidable (esExacto x) :=
  inferInstanceAs (Decidable (redondear x = finito x))

/-- The conversion of an integer to `float`. -/
def deEntero (n : Int) : Flotante := redondear (n : ℚ)

instance : OfNat Flotante n := ⟨deEntero n⟩

/-- The number a finite `float` denotes (0 for NaN and the infinities, which denote
none). -/
def valor : Flotante → ℚ
  | finito q => q
  | _ => 0

end Flotante

/-- The arithmetic of `float`: `T(0)` is `0.0f`, `+` and `/` round, and the `int`
divisor is converted to `float` first. -/
instance : Lectura Flotante where
  cero := Flotante.finito 0
  suma := Flotante.sumar
  entre a n := Flotante.dividir a (Flotante.deEntero n)

/-! ## `ListaSensor<T>` -/

/-- The state of a `ListaSensor<T>`: the chain hanging from `cabeza` and the counter
`tamanio`. -/
structure ListaSensor (T : Type) where
  nodos : List T
  tamanio : Int
  deriving DecidableEq

namespace ListaSensor

variable {T : Type}

/-- The default constructor: `cabeza(nullptr), tamanio(0)`. -/
def vacia : ListaSensor T := ⟨[], 0⟩

/-- The walk of `insertar` from the node `actual` (with `resto` after it) to the last
node of the chain, where `nuevo` is linked. -/
def enlazarAlFinal : T → List T → T → List T
  | actual, [], valor => [actual, valor]
  | actual, sig :: resto, valor => actual :: enlazarAlFinal sig resto valor

/-- The method `insertar(T valor)`. -/
def insertar (l : ListaSensor T) (valor : T) : ListaSensor T :=
  { nodos :=
      match l.nodos with
      | [] => [valor]
      | c :: resto => enlazarAlFinal c resto valor
    tamanio := l.tamanio + 1 }

/-- The summing loop of `calcularPromedio`, from the node `actual` on. -/
def sumar [Lectura T] : List T → T → T
  | [], suma => suma
  | dato :: resto, suma => sumar resto (Lectura.suma suma dato)

/-- The method `calcularPromedio()`. -/
def calcularPromedio [Lectura T] (l : ListaSensor T) : T :=
  if l.tamanio = 0 then Lectura.cero
  else Lectura.entre (sumar l.nodos Lectura.cero) l.tamanio

/-- The search loop of `eliminarMinimo`.  `actual` is the rest of the chain from the
current node on and `i` its position; `nodoMin` is the position and the `dato` of the
smallest node so far; `prevMin` and `prev` are positions, `none` for `nullptr`.  The
result is the final `nodoMin` and `prevMin`. -/
def buscarMinimo [LT T] [DecidableRel (fun a b : T => a < b)] :
    List T → Nat → Nat × T → Option Nat → Option Nat → (Nat × T) × Option Nat
  | [], _, nodoMin, prevMin, _ => (nodoMin, prevMin)
  | dato :: resto, i, nodoMin, prevMin, prev =>
    if dato < nodoMin.2 then buscarMinimo resto (i + 1) (i, dato) prev (some i)
    else buscarMinimo resto (i + 1) nodoMin prevMin (some i)

/-- The method `eliminarMinimo()`: the returned value and the list afterwards. -/
def eliminarMinimo [Lectura T] [LT T] [DecidableRel (fun a b : T => a < b)]
    (l : ListaSensor T) : T × ListaSensor T :=
  match l.nodos with
  | [] => (Lectura.cero, l)
  | c :: resto =>
    let r := buscarMinimo (c :: resto) 0 (0, c) none none
    let valorMin := r.1.2
    let nodos :=
      match r.2 with
      | none => resto
      | some p => (c :: resto).take (p + 1) ++ (c :: resto).drop (r.1.1 + 1)
    (valorMin, { nodos := nodos, tamanio := l.tamanio - 1 })

/-- The method `getTamanio()`. -/
def getTamanio (l : ListaSensor T) : Int := l.tamanio

/-- The method `estaVacia()`: `cabeza == nullptr`. -/
def estaVacia (l : ListaSensor T) : Bool := l.nodos.isEmpty

/-- The loop of `limpiar` on the chain from `cabeza` with the counter `tamanio`. -/
def limpiarDesde : List T → Int → ListaSensor T
  | [], tamanio => ⟨[], tamanio⟩
  | _ :: resto, tamanio => limpiarDesde resto (tamanio - 1)

/-- The method `limpiar()`. -/
def limpiar (l : ListaSensor T) : ListaSensor T := limpiarDesde l.nodos l.tamanio

/-- The loop of `copiar` over the chain of the other list, from `actual` on. -/
def copiarDesde : ListaSensor T → List T → ListaSensor T
  | l, [] => l
  | l, dato :: resto => copiarDesde (insertar l dato) resto

/-- The method `copiar(otra)`, `otra` being another object than `this`. -/
def copiar (l otra : ListaSensor T) : ListaSensor T := copiarDesde l otra.nodos

/-- The copy constructor. -/
def copia (otra : ListaSensor T) : ListaSensor T := copiar vacia otra

/-- The assignment `operator=`; `none` is the case `this == &otra`. -/
def asignar (l : ListaSensor T) : Option (ListaSensor T) → ListaSensor T
  | none => l
  | some otra => copiar (limpiar l) otra

end ListaSensor

/-! ## Sensors -/

/-- A C string: its characters before the terminating NUL. -/
abbrev Cadena := List Char

/-- The constructor of `SensorBase`: `strncpy(nombre, nom, 49); nombre[49] = 0`. -/
def SensorBase.crear (nom : Cadena) : Cadena := nom.take 49

/-- The state of a `SensorTemperatura`: the inherited `nombre` and the `historial`,
a `ListaSensor<float>`; `F` stands for `float`. -/
structure SensorTemperatura (F : Type) where
  nombre : Cadena
  historial : ListaSensor F
  deriving DecidableEq

/-- What `SensorTemperatura::procesarLectura` prints: nothing to process, the
removed minimum with the mean of the rest, or the mean over a single reading. -/
inductive InformeTemperatura (F : Type) where
  | sinLecturas : InformeTemperatura F
  | minimoEliminado (minimo promedio : F) : InformeTemperatura F
  | unaLectura (promedio : F) : InformeTemperatura F
  deriving DecidableEq

namespace SensorTemperatura

variable {F : Type}

/-- The constructor `SensorTemperatura(nom)`. -/
def crear (nom : Cadena) : SensorTemperatura F :=
  ⟨SensorBase.crear nom, ListaSensor.vacia⟩

/-- The method `getNombre()`. -/
def getNombre (s : SensorTemperatura F) : Cadena := s.nombre

/-- The method `agregarLectura(valor)`; `atof` is the conversion of the C library. -/
def agregarLectura (atof : Cadena → F) (s : SensorTemperatura F) (valor : Cadena) :
    SensorTemperatura F :=
  ⟨s.nombre, s.historial.insertar (atof valor)⟩

/-- The method `procesarLectura()`: the sensor afterwards and what was printed. -/
def procesarLectura [Lectura F] [LT F] [DecidableRel (fun a b : F => a < b)]
    (s : SensorTemperatura F) : SensorTemperatura F × InformeTemperatura F :=
  if s.historial.estaVacia then (s, InformeTemperatura.sinLecturas)
  else if s.historial.getTamanio > 1 then
    let r := s.historial.eliminarMinimo
    let promedio := r.2.calcularPromedio
    (⟨s.nombre, r.2⟩, InformeTemperatura.minimoEliminado r.1 promedio)
  else
    (s, InformeTemperatura.unaLectura s.historial.calcularPromedio)

/-- The states a temperature sensor can be in: constructed, then fed readings and
processed in any order. -/
inductive Alcanzable [Lectura F] [LT F] [DecidableRel (fun a b : F => a < b)] :
    SensorTemperatura F → Prop where
  | crear (nom : Cadena) : Alcanzable (crear nom)
  | agregarLectura (atof : Cadena → F) (s : SensorTemperatura F) (valor : Cadena) :
      Alcanzable s → Alcanzable (agregarLectura atof s valor)
  | procesarLectura (s : SensorTemperatura F) :
      Alcanzable s → Alcanzable (procesarLectura s).1

end SensorTemperatura

/-- The state of a `SensorPresion`: the inherited `nombre` and the `historial`, a
`ListaSensor<int>`. -/
structure SensorPresion where
  nombre : Cadena
  historial : ListaSensor Int32
  deriving DecidableEq

/-- What `SensorPresion::procesarLectura` prints: nothing to process, or the mean
and the count it was computed over. -/
inductive InformePresion where
  | sinLecturas : InformePresion
  | promedio (promedio : Int32) (lecturas : Int) : InformePresion
  deriving DecidableEq

namespace SensorPresion

/-- The constructor `SensorPresion(nom)`. -/
def crear (nom : Cadena) : SensorPresion :=
  ⟨SensorBase.crear nom, ListaSensor.vacia⟩

/-- The method `getNombre()`. -/
def getNombre (s : SensorPresion) : Cadena := s.nombre

/-- The method `agregarLectura(valor)`; `atoi` is the conversion of the C library. -/
def agregarLectura (atoi : Cadena → Int32) (s : SensorPresion) (valor : Cadena) :
    SensorPresion :=
  ⟨s.nombre, s.historial.insertar (atoi valor)⟩

/-- The method `procesarLectura()`: the sensor afterwards and what was printed. -/
def procesarLectura (s : SensorPresion) : SensorPresion × InformePresion :=
  if s.historial.estaVacia then (s, InformePresion.sinLecturas)
  else
    let promedio := s.historial.calcularPromedio
    (s, InformePresion.promedio promedio s.historial.getTamanio)

/-- The states a pressure sensor can be in. -/
inductive Alcanzable : SensorPresion → Prop where
  | crear (nom : Cadena) : Alcanzable (crear nom)
  | agregarLectura (atoi : Cadena → Int32) (s : SensorPresion) (valor : Cadena) :
      Alcanzable s → Alcanzable (agregarLectura atoi s valor)
  | procesarLectura (s : SensorPresion) :
      Alcanzable s → Alcanzable (procesarLectura s).1

end SensorPresion

/-- An object behind a `SensorBase*`: one of the two derived classes. -/
inductive Sensor (F : Type) where
  | temperatura (s : SensorTemperatura F) : Sensor F
  | presion (s : SensorPresion) : Sensor F

/-- The method `getNombre()` through a `SensorBase*`. -/
def Sensor.getNombre {F : Type} : Sensor F → Cadena
  | Sensor.temperatura s => s.getNombre
  | Sensor.presion s => s.getNombre

/-! ## `ListaGestion` -/

/-- The value of a `SensorBase*`: the address of a sensor object. -/
abbrev Dir := Nat

/-- The sensor objects of the program, by address. -/
abbrev Memoria (F : Type) := Dir → Sensor F

/-- The state of a `ListaGestion`: the `sensor` pointers of the chain hanging from
`cabeza` and the counter `tamanio`. -/
structure ListaGestion where
  nodos : List Dir
  tamanio : Int
  deriving DecidableEq

namespace ListaGestion

/-- The default constructor. -/
def vacia : ListaGestion := ⟨[], 0⟩

/-- The method `insertar(sensor)`; the walk to the last node is the one of
`ListaSensor::insertar`. -/
def insertar (g : ListaGestion) (sensor : Dir) : ListaGestion :=
  { nodos :=
      match g.nodos with
      | [] => [sensor]
      | c :: resto => ListaSensor.enlazarAlFinal c resto sensor
    tamanio := g.tamanio + 1 }

/-- The loop of `buscar` from the node `actual` on; `none` is `nullptr`. -/
def buscarDesde {F : Type} (mem : Memoria F) : List Dir → Cadena → Option Dir
  | [], _ => none
  | sensor :: resto, nombre =>
    if (mem sensor).getNombre = nombre then some sensor
    else buscarDesde mem resto nombre

/-- The method `buscar(nombre)`. -/
def buscar {F : Type} (mem : Memoria F) (g : ListaGestion) (nombre : Cadena) :
    Option Dir :=
  buscarDesde mem g.nodos nombre

/-- The method `getTamanio()`. -/
def getTamanio (g : ListaGestion) : Int := g.tamanio

/-- The registry after `insertar` was called with each of `sensores` in turn. -/
def construir (sensores : List Dir) : ListaGestion :=
  sensores.foldl insertar vacia

end ListaGestion

/-! ## Reachable reading lists -/

namespace ListaSensor

variable {T : Type}

/-- The list after `insertar` was called on the empty list with each of `valores` in
turn. -/
def insertarTodos (valores : List T) : ListaSensor T :=
  valores.foldl insertar vacia

/-- The states of a reading list reachable from the empty list through the public
operations, the copy constructor, assignment and the private `limpiar` and
`copiar`. -/
inductive Alcanzable [Lectura T] [LT T] [DecidableRel (fun a b : T => a < b)] :
    ListaSensor T → Prop where
  | vacia : Alcanzable vacia
  | insertar (l : ListaSensor T) (valor : T) : Alcanzable l → Alcanzable (insertar l valor)
  | eliminarMinimo (l : ListaSensor T) : Alcanzable l → Alcanzable (eliminarMinimo l).2
  | copia (otra : ListaSensor T) : Alcanzable otra → Alcanzable (copia otra)
  | asignar (l : ListaSensor T) (otra : Option (ListaSensor T)) :
      Alcanzable l → (∀ o, otra = some o → Alcanzable o) → Alcanzable (asignar l otra)
  | limpiar (l : ListaSensor T) : Alcanzable l → Alcanzable (limpiar l)
  | copiar (l otra : ListaSensor T) :
      Alcanzable l → Alcanzable otra → Alcanzable (copiar l otra)

end ListaSensor

/-! ## Virtual dispatch and the registry loops -/

/-- What `procesarLectura()` prints through a `SensorBase*`. -/
inductive Informe (F : Type) where
  | temperatura (i : InformeTemperatura F) : Informe F
  | presion (i : InformePresion) : Informe F
  deriving DecidableEq

namespace Sensor

variable {F : Type}

/-- The virtual call `sensor->procesarLectura()`. -/
def procesarLectura [Lectura F] [LT F] [DecidableRel (fun a b : F => a < b)] :
    Sensor F → Sensor F × Informe F
  | Sensor.temperatura s =>
    (Sensor.temperatura s.procesarLectura.1, Informe.temperatura s.procesarLectura.2)
  | Sensor.presion s =>
    (Sensor.presion s.procesarLectura.1, Informe.presion s.procesarLectura.2)

/-- The virtual call `sensor->agregarLectura(valor)`. -/
def agregarLectura (atof : Cadena → F) (atoi : Cadena → Int32) :
    Sensor F → Cadena → Sensor F
  | Sensor.temperatura s, valor => Sensor.temperatura (s.agregarLectura atof valor)
  | Sensor.presion s, valor => Sensor.presion (s.agregarLectura atoi valor)

/-- The number of nodes of the `historial` of the sensor. -/
def numLecturas : Sensor F → Nat
  | Sensor.temperatura s => s.historial.nodos.length
  | Sensor.presion s => s.historial.nodos.length

end Sensor

namespace ListaGestion

variable {F : Type}

/-- The loop of `procesarTodos` from the node `actual` on: the memory afterwards and
the calls of `procesarLectura` made, each with the address it was made on and what
it printed, in the order they were made. -/
def procesarDesde [Lectura F] [LT F] [DecidableRel (fun a b : F => a < b)]
    (mem : Memoria F) : List Dir → Memoria F × List (Dir × Informe F)
  | [] => (mem, [])
  | sensor :: resto =>
    let r := (mem sensor).procesarLectura
    let q := procesarDesde (Function.update mem sensor r.1) resto
    (q.1, (sensor, r.2) :: q.2)

/-- The method `procesarTodos()`. -/
def procesarTodos [Lectura F] [LT F] [DecidableRel (fun a b : F => a < b)]
    (mem : Memoria F) (g : ListaGestion) : Memoria F × List (Dir × Informe F) :=
  procesarDesde mem g.nodos

/-- The method `estaVacia()`: `cabeza == nullptr`. -/
def estaVacia (g : ListaGestion) : Bool := g.nodos.isEmpty

end ListaGestion

/-! ## Teardown -/

/-- A release of memory by `delete`: a node of the reading list of the sensor at an
address (the node is named by its position in the chain when the release began), a
sensor object, or a node of the registry list (named by its position). -/
inductive Liberacion where
  | nodoLectura (sensor : Dir) (posicion : Nat) : Liberacion
  | sensor (dir : Dir) : Liberacion
  | nodoGestion (posicion : Nat) : Liberacion
  deriving DecidableEq

/-- The nodes `limpiar` deletes, in order, on the chain from `cabeza`, the head being
at position `i`. -/
def ListaSensor.limpiarTraza {T : Type} : List T → Nat → List Nat
  | [], _ => []
  | _ :: resto, i => i :: ListaSensor.limpiarTraza resto (i + 1)

/-- The releases of `delete temp->sensor` for the sensor at `dir`: the virtual
destructor destroys the member `historial`, whose destructor calls `limpiar`, and
then the object is released. -/
def Sensor.destruir {F : Type} (dir : Dir) : Sensor F → List Liberacion
  | Sensor.temperatura s =>
    (ListaSensor.limpiarTraza s.historial.nodos 0).map (Liberacion.nodoLectura dir)
      ++ [Liberacion.sensor dir]
  | Sensor.presion s =>
    (ListaSensor.limpiarTraza s.historial.nodos 0).map (Liberacion.nodoLectura dir)
      ++ [Liberacion.sensor dir]

/-- The sensor object an event releases, if it releases one. -/
def Liberacion.sensorLiberado : Liberacion → Option Dir
  | Liberacion.sensor dir => some dir
  | _ => none

namespace ListaGestion

variable {F : Type}

/-- The loop of the destructor of `ListaGestion` from the node `cabeza` at position
`i` on: `delete temp->sensor; delete temp;` for each node. -/
def destruirDesde (mem : Memoria F) : List Dir → Nat → List Liberacion
  | [], _ => []
  | sensor :: resto, i =>
    (mem sensor).destruir sensor ++ Liberacion.nodoGestion i :: destruirDesde mem resto (i + 1)

/-- The destructor `~ListaGestion()`: the registry when the loop ends (`cabeza` is
`nullptr`, `tamanio` is not touched) and the releases made, in order. -/
def destruir (mem : Memoria F) (g : ListaGestion) : ListaGestion × List Liberacion :=
  (⟨[], g.tamanio⟩, destruirDesde mem g.nodos 0)

end ListaGestion

/-! ## The controller loop of `main` -/

/-- The function `esFloat(valor)`. -/
def esFloat : Cadena → Bool
  | [] => false
  | c :: resto => if c = '.' then true else esFloat resto

/-- Menu option 4 after the two lines were read: `buscar(nombre)` and, when a sensor
is found, `agregarLectura(valor)` on it.  The result is the memory, the registry and
whether a sensor was found. -/
def registrarLecturaManual {F : Type} (atof : Cadena → F) (atoi : Cadena → Int32)
    (mem : Memoria F) (g : ListaGestion) (nombre valor : Cadena) :
    Memoria F × ListaGestion × Bool :=
  match g.buscar mem nombre with
  | some sensor =>
    (Function.update mem sensor ((mem sensor).agregarLectura atof atoi valor), g, true)
  | none => (mem, g, false)

/-- Menu option 3 for one line received in `buffer`: the line goes to `sensorTemp`
when `esFloat` says so and to `sensorPres` otherwise, each being `none` when still
`nullptr`. -/
def recibirValor {F : Type} (atof : Cadena → F) (atoi : Cadena → Int32)
    (mem : Memoria F) (sensorTemp sensorPres : Option Dir) (buffer : Cadena) : Memoria F :=
  if esFloat buffer then
    match sensorTemp with
    | some p => Function.update mem p ((mem p).agregarLectura atof atoi buffer)
    | none => mem
  else
    match sensorPres with
    | some p => Function.update mem p ((mem p).agregarLectura atof atoi buffer)
    | none => mem

/-! ## The serial port -/

/-- The loop of `SerialPort::leerLinea` over the bytes that `read` delivers, in order
(a `read` that delivers nothing leaves the state as it is and is not represented).
`pos` is the write position and `escrituras` the writes to `buffer` so far, as pairs
of index and byte.  The result is the returned flag, all writes to `buffer` and the
bytes not yet consumed; `none` means that the bytes ran out inside the loop, where
the source keeps calling `read` for ever. -/
def SerialPort.leerDesde (maxLen : Int) :
    List Char → Nat → List (Nat × Char) → Option (Bool × List (Nat × Char) × List Char)
  | [], pos, escrituras =>
    if (pos : Int) < maxLen - 1 then none
    else some (false, escrituras ++ [(pos, '\x00')], [])
  | c :: resto, pos, escrituras =>
    if (pos : Int) < maxLen - 1 then
      if c = '\n' then some (true, escrituras ++ [(pos, '\x00')], resto)
      else if c ≠ '\r' then
        SerialPort.leerDesde maxLen resto (pos + 1) (escrituras ++ [(pos, c)])
      else SerialPort.leerDesde maxLen resto pos escrituras
    else some (false, escrituras ++ [(pos, '\x00')], c :: resto)

/-- The method `SerialPort::leerLinea(buffer, maxLen)`; a port that is not connected
returns `false` and writes nothing. -/
def SerialPort.leerLinea (conectado : Bool) (maxLen : Int) (entrada : List Char) :
    Option (Bool × List (Nat × Char) × List Char) :=
  if conectado then SerialPort.leerDesde maxLen entrada 0 [] else some (false, [], entrada)

/-- The bytes `leerLinea` stores out of the bytes it consumes: all but the carriage
returns. -/
def SerialPort.sinRetornos (bytes : List Char) : List Char :=
  bytes.filter (fun c => c != '\r')

/-! ## The numeric-text collaborator -/

/-- Modelled from the spec: the numeric-text collaborator (`atof` and `atoi` of the C
library, which are not part of the sources).  It converts a text to a value, or
fails; on failure it yields zero and signals no error.  `reconocer` is the
conversion, `none` being its failure. -/
def convertir {V : Type} [Lectura V] (reconocer : Cadena → Option V) (texto : Cadena) : V :=
  (reconocer texto).getD Lectura.cero

/-! ## Repeated processing -/

/-- The temperature sensor after `k` calls of `procesarLectura()`. -/
def SensorTemperatura.procesarVeces {F : Type} [Lectura F] [LT F]
    [DecidableRel (fun a b : F => a < b)] : Nat → SensorTemperatura F → SensorTemperatura F
  | 0, s => s
  | k + 1, s => SensorTemperatura.procesarVeces k s.procesarLectura.1

/-! ## `ListaSensor<T>` at the level of nodes and pointers

The same class once more, now with the nodes in a free store and the pointers as
addresses, to talk about which nodes two lists share.  A loop that follows pointers
takes a bound on its iterations and gives `none` when the bound is used up or a
pointer it follows is `nullptr` or dangling. -/

namespace Enlazada

/-- A `Nodo`: the fields `dato` and `siguiente`, `none` being `nullptr`. -/
structure Nodo (T : Type) where
  dato : T
  siguiente : Option Nat
  deriving DecidableEq

/-- The free store: the node allocated at each address, if any, and the address the
next `new` returns, below which all allocated addresses lie. -/
structure Almacen (T : Type) where
  celda : Nat → Option (Nodo T)
  libre : Nat

/-- The fields of a `ListaSensor<T>` object. -/
structure Lista where
  cabeza : Option Nat
  tamanio : Int
  deriving DecidableEq

variable {T : Type}

/-- The expression `new Nodo(valor)`: the address of the node and the store with
it. -/
def Almacen.nuevo (a : Almacen T) (valor : T) : Nat × Almacen T :=
  (a.libre, ⟨Function.update a.celda a.libre (some ⟨valor, none⟩), a.libre + 1⟩)

/-- The statement `delete p`. -/
def Almacen.liberar (a : Almacen T) (p : Nat) : Almacen T :=
  ⟨Function.update a.celda p none, a.libre⟩

/-- The assignment `p->siguiente = sig`. -/
def Almacen.enlazar (a : Almacen T) (p : Nat) (sig : Option Nat) : Option (Almacen T) :=
  match a.celda p with
  | none => none
  | some n => some ⟨Function.update a.celda p (some ⟨n.dato, sig⟩), a.libre⟩

/-- The default constructor. -/
def vacia : Lista := ⟨none, 0⟩

/-- The walk of `insertar` from `actual` to the node whose `siguiente` is
`nullptr`. -/
def ultimo (a : Almacen T) : Nat → Nat → Option Nat
  | 0, _ => none
  | pasos + 1, actual =>
    match a.celda actual with
    | none => none
    | some n =>
      match n.siguiente with
      | none => some actual
      | some sig => ultimo a pasos sig

/-- The method `insertar(T valor)`. -/
def insertar (pasos : Nat) (a : Almacen T) (l : Lista) (valor : T) :
    Option (Almacen T × Lista) :=
  match l.cabeza with
  | none => some ((a.nuevo valor).2, ⟨some (a.nuevo valor).1, l.tamanio + 1⟩)
  | some c =>
    match ultimo (a.nuevo valor).2 pasos c with
    | none => none
    | some actual =>
      match (a.nuevo valor).2.enlazar actual (some (a.nuevo valor).1) with
      | none => none
      | some a2 => some (a2, ⟨some c, l.tamanio + 1⟩)

/-- The loop of `limpiar`. -/
def limpiar : Nat → Almacen T → Lista → Option (Almacen T × Lista)
  | pasos, a, l =>
    match l.cabeza with
    | none => some (a, l)
    | some temp =>
      match pasos with
      | 0 => none
      | pasos + 1 =>
        match a.celda temp with
        | none => none
        | some n => limpiar pasos (a.liberar temp) ⟨n.siguiente, l.tamanio - 1⟩

/-- The loop of `copiar` from the node `actual` of the other list on; `pasos` bounds
both this loop and the walk of each `insertar`. -/
def copiarDesde (pasos : Nat) : Nat → Almacen T → Lista → Option Nat →
    Option (Almacen T × Lista)
  | _, a, l, none => some (a, l)
  | 0, _, _, some _ => none
  | vueltas + 1, a, l, some actual =>
    match a.celda actual with
    | none => none
    | some n =>
      match insertar pasos a l n.dato with
      | none => none
      | some r =>
        match r.1.celda actual with
        | none => none
        | some n2 => copiarDesde pasos vueltas r.1 r.2 n2.siguiente

/-- The method `copiar(otra)`. -/
def copiar (pasos : Nat) (a : Almacen T) (l otra : Lista) : Option (Almacen T × Lista) :=
  copiarDesde pasos pasos a l otra.cabeza

/-- The copy constructor. -/
def copia (pasos : Nat) (a : Almacen T) (otra : Lista) : Option (Almacen T × Lista) :=
  copiar pasos a vacia otra

/-- The assignment `operator=`; `none` is the case `this == &otra`. -/
def asignar (pasos : Nat) (a : Almacen T) (l : Lista) :
    Option Lista → Option (Almacen T × Lista)
  | none => some (a, l)
  | some otra =>
    match limpiar pasos a l with
    | none => none
    | some r => copiar pasos r.1 r.2 otra

/-- The search loop of `eliminarMinimo`: the final `nodoMin` and `prevMin`. -/
def buscarMinimo [LT T] [DecidableRel (fun a b : T => a < b)] (a : Almacen T) :
    Nat → Option Nat → Nat → Option Nat → Option Nat → Option (Nat × Option Nat)
  | _, none, nodoMin, prevMin, _ => some (nodoMin, prevMin)
  | 0, some _, _, _, _ => none
  | pasos + 1, some actual, nodoMin, prevMin, prev =>
    match a.celda actual, a.celda nodoMin with
    | some n, some m =>
      if n.dato < m.dato then buscarMinimo a pasos n.siguiente actual prev (some actual)
      else buscarMinimo a pasos n.siguiente nodoMin prevMin (some actual)
    | _, _ => none

/-- The method `eliminarMinimo()`: the returned value, the store and the list. -/
def eliminarMinimo [Lectura T] [LT T] [DecidableRel (fun a b : T => a < b)]
    (pasos : Nat) (a : Almacen T) (l : Lista) : Option (T × Almacen T × Lista) :=
  match l.cabeza with
  | none => some (Lectura.cero, a, l)
  | some c =>
    match buscarMinimo a pasos (some c) c none none with
    | none => none
    | some (nodoMin, prevMin) =>
      match a.celda nodoMin with
      | none => none
      | some m =>
        match prevMin with
        | none =>
          match a.celda c with
          | none => none
          | some n => some (m.dato, a.liberar nodoMin, ⟨n.siguiente, l.tamanio - 1⟩)
        | some p =>
          match a.enlazar p m.siguiente with
          | none => none
          | some a2 => some (m.dato, a2.liberar nodoMin, ⟨some c, l.tamanio - 1⟩)

/-- The address of the first node of a chain given as addresses with values. -/
def cabezaDe : List (Nat × T) → Option Nat
  | [] => none
  | p :: _ => some p.1

/-- The address of the first node of a chain, or `fin` when the chain has no node. -/
def sigDe : List (Nat × T) → Option Nat → Option Nat
  | [], fin => fin
  | p :: _, _ => some p.1

/-- The nodes at the addresses of `ps` hold the values of `ps` and are linked in that
order, the last one to `fin`. -/
def EsTramo (a : Almacen T) : List (Nat × T) → Option Nat → Prop
  | [], _ => True
  | p :: resto, fin => a.celda p.1 = some ⟨p.2, sigDe resto fin⟩ ∧ EsTramo a resto fin

/-- The list object `l` is the chain `ps` in the store `a`: `cabeza` points to its
first node, the nodes are linked in order up to `nullptr`, they are distinct and
allocated, and `tamanio` counts them. -/
structure Representa (a : Almacen T) (l : Lista) (ps : List (Nat × T)) : Prop where
  cabeza : l.cabeza = cabezaDe ps
  tramo : EsTramo a ps none
  distintos : (ps.map Prod.fst).Nodup
  reservados : ∀ d ∈ ps.map Prod.fst, d < a.libre
  cuenta : l.tamanio = (ps.length : Int)

/-- The address of the node at a position of the chain `ps`, for a pointer given as a
position (`none` for `nullptr`). -/
def dirDe (ps : List (Nat × T)) (o : Option Nat) : Option Nat :=
  o.bind (fun i => (ps[i]?).map Prod.fst)

/-- The chain read back from the store by following `siguiente` from `actual`. -/
def recorrer (a : Almacen T) : Nat → Option Nat → Option (List (Nat × T))
  | _, none => some []
  | 0, some _ => none
  | pasos + 1, some actual =>
    match a.celda actual with
    | none => none
    | some n => (recorrer a pasos n.siguiente).map (fun r => (actual, n.dato) :: r)

end Enlazada

/-! ## Reports of the sensors -/

/-- The method `SensorTemperatura::imprimirInfo()`, which is `const`: what it prints,
that is the name, `getTamanio()` of the history and the readings in order. -/
def SensorTemperatura.imprimirInfo {F : Type} (s : SensorTemperatura F) :
    Cadena × Int × List F :=
  (s.nombre, s.historial.getTamanio, s.historial.nodos)

/-- The method `SensorPresion::imprimirInfo()`, which is `const`: what it prints. -/
def SensorPresion.imprimirInfo (s : SensorPresion) : Cadena × Int × List Int32 :=
  (s.nombre, s.historial.getTamanio, s.historial.nodos)

/-! ## Example states -/

/-- The values of `atof` on the texts used in the examples. -/
def atofEjemplo (valor : Cadena) : ℚ :=
  if valor = "10.0".toList then 10
  else if valor = "5.0".toList then 5
  else if valor = "20.0".toList then 20
  else if valor = "21.5".toList then 43 / 2
  else 0

/-- The values of `atoi` on the texts used in the examples. -/
def atoiEjemplo (valor : Cadena) : Int32 :=
  if valor = "10".toList then 10
  else if valor = "20".toList then 20
  else if valor = "30".toList then 30
  else 0

/-- The `int` readings `7, 3, 9, 3`, the least value occurring twice. -/
def lecturasConEmpate : ListaSensor Int32 := ListaSensor.insertarTodos [7, 3, 9, 3]

/-- The `int` readings `40, -5, 12`. -/
def lecturasConNegativo : ListaSensor Int32 :=
  ListaSensor.insertarTodos [40, Int32.deEntero (-5), 12]

/-- The `int` readings `1, 2`, whose sum is odd. -/
def lecturasUnoDos : ListaSensor Int32 := ListaSensor.insertarTodos [1, 2]

/-- A temperature sensor `T-001` fed the texts `10.0`, `5.0`, `20.0`. -/
def termometro : SensorTemperatura ℚ :=
  SensorTemperatura.agregarLectura atofEjemplo
    (SensorTemperatura.agregarLectura atofEjemplo
      (SensorTemperatura.agregarLectura atofEjemplo
        (SensorTemperatura.crear "T-001".toList) "10.0".toList)
      "5.0".toList)
    "20.0".toList

/-- A temperature sensor `T-002` fed the single text `21.5`. -/
def termometroUnaLectura : SensorTemperatura ℚ :=
  SensorTemperatura.agregarLectura atofEjemplo
    (SensorTemperatura.crear "T-002".toList) "21.5".toList

/-- A pressure sensor `P-105` fed the texts `10`, `20`, `30`. -/
def barometro : SensorPresion :=
  SensorPresion.agregarLectura atoiEjemplo
    (SensorPresion.agregarLectura atoiEjemplo
      (SensorPresion.agregarLectura atoiEjemplo
        (SensorPresion.crear "P-105".toList) "10".toList)
      "20".toList)
    "30".toList

/-- A memory with a temperature sensor at address 1 and a pressure sensor elsewhere,
both created with the name `A`. -/
def memoriaHomonimos : Memoria ℚ := fun p =>
  if p = 1 then Sensor.temperatura (SensorTemperatura.crear "A".toList)
  else Sensor.presion (SensorPresion.crear "A".toList)

/-- A memory with the temperature sensor `T-001` at address 1 and the pressure sensor
`P-105` elsewhere. -/
def memoriaDistintos : Memoria ℚ := fun p =>
  if p = 1 then Sensor.temperatura termometro else Sensor.presion barometro

/-- An `int` list that was filled, assigned a copy of another list and had its
minimum removed twice. -/
def listaTrasAsignar : ListaSensor Int32 :=
  (ListaSensor.eliminarMinimo (ListaSensor.eliminarMinimo
    (ListaSensor.asignar (ListaSensor.insertar ListaSensor.vacia 1)
      (some (ListaSensor.copia
        (ListaSensor.insertar (ListaSensor.insertar ListaSensor.vacia 4) 2))))).2).2

/-- A conversion that accepts the non-empty texts made of decimal digits only. -/
def reconocerDigitos (texto : Cadena) : Option Int32 :=
  if texto ≠ [] ∧ texto.all Char.isDigit = true then
    some (Int32.deEntero (texto.foldl (fun n c => 10 * n + ((c.toNat : Int) - 48)) 0))
  else none

/-- The `int` readings `-7, 2, 2`, whose mean is not an integer. -/
def lecturasMediaNegativa : ListaSensor Int32 :=
  ListaSensor.insertarTodos [Int32.deEntero (-7), 2, 2]

/-- A store with the two nodes of a list of the `int` readings `4, 2`, at the
addresses 0 and 1. -/
def almacenEjemplo : Enlazada.Almacen Int32 :=
  ⟨fun d =>
    if d = 0 then some ⟨4, some 1⟩ else if d = 1 then some ⟨2, none⟩ else none, 2⟩

/-- The list object whose chain is made of the two nodes of `almacenEjemplo`. -/
def listaEjemplo : Enlazada.Lista := ⟨some 0, 2⟩

/-- A name of 50 characters ending in `b`. -/
def nombreLargoB : Cadena := List.replicate 49 'x' ++ ['b']

/-- A name of 50 characters ending in `c`, equal to `nombreLargoB` up to there. -/
def nombreLargoC : Cadena := List.replicate 49 'x' ++ ['c']

/-- A memory with a temperature sensor created as `nombreLargoB` at address 1 and a
pressure sensor created as `nombreLargoC` elsewhere. -/
def memoriaNombresLargos : Memoria ℚ := fun p =>
  if p = 1 then Sensor.temperatura (SensorTemperatura.crear nombreLargoB)
  else Sensor.presion (SensorPresion.crear nombreLargoC)

/-- The values of `atof`, as `float`s, on the texts used in the examples. -/
def atofFlotante (valor : Cadena) : Flotante :=
  if valor = "nan".toList then Flotante.nan
  else if valor = "1.0".toList then 1
  else if valor = "3.0".toList then 3
  else if valor = "10.0".toList then 10
  else if valor = "5.0".toList then 5
  else if valor = "20.0".toList then 20
  else Flotante.finito 0

/-- The `float` readings `nan, 1.0, 3.0`. -/
def lecturasConNan : ListaSensor Flotante := ListaSensor.insertarTodos [Flotante.nan, 1, 3]

/-- The `float` readings `16777216.0, 1.0`: their sum `16777217` is not a `float`. -/
def lecturasGrandes : ListaSensor Flotante := ListaSensor.insertarTodos [16777216, 1]

/-- The `float` readings `10.0, 20.0`. -/
def lecturasDiezVeinte : ListaSensor Flotante :=
  ListaSensor.insertarTodos [Flotante.finito 10, Flotante.finito 20]

/-- A temperature sensor `T-003` fed the texts `nan`, `1.0`, `3.0`. -/
def termometroConNan : SensorTemperatura Flotante :=
  SensorTemperatura.agregarLectura atofFlotante
    (SensorTemperatura.agregarLectura atofFlotante
      (SensorTemperatura.agregarLectura atofFlotante
        (SensorTemperatura.crear "T-003".toList) "nan".toList)
      "1.0".toList)
    "3.0".toList

/-- A temperature sensor `T-004` fed the texts `3.0`, `nan`, `1.0` and processed
once. -/
def termometroNanEnMedio : SensorTemperatura Flotante :=
  (SensorTemperatura.procesarLectura
    (SensorTemperatura.agregarLectura atofFlotante
      (SensorTemperatura.agregarLectura atofFlotante
        (SensorTemperatura.agregarLectura atofFlotante
          (SensorTemperatura.crear "T-004".toList) "3.0".toList)
        "nan".toList)
      "1.0".toList)).1

/-- A temperature sensor `T-001` fed the texts `10.0`, `5.0`, `20.0`, its readings
being `float`s. -/
def termometroFlotante : SensorTemperatura Flotante :=
  SensorTemperatura.agregarLectura atofFlotante
    (SensorTemperatura.agregarLectura atofFlotante
      (SensorTemperatura.agregarLectura atofFlotante
        (SensorTemperatura.crear "T-001".toList) "10.0".toList)
      "5.0".toList)
    "20.0".toList

/-- The `float` readings `7.0, 3.0, 9.0, 3.0`, the least value occurring twice. -/
def lecturasFlotantesConEmpate : ListaSensor Flotante :=
  ListaSensor.insertarTodos [7, 3, 9, 3]

/-! ## The order of `float` -/

namespace Flotante

/-- The relation `<` of `float` is the comparison `menor`. -/
theorem menor_def (a b : Flotante) : a < b ↔ menor a b = true := Iff.rfl

/-- The relation `<=` of `float` is the comparison `menorIgual`. -/
theorem menorIgual_def (a b : Flotante) : a ≤ b ↔ menorIgual a b = true := Iff.rfl

/-- No `float` is below itself. -/
theorem menor_irrefl (a : Flotante) : ¬ a < a := by
  rw [menor_def]
  cases a with
  | nan => simp [menor]
  | infinito s => cases s <;> simp [menor]
  | finito x => simp [menor]

/-- The relation `<` of `float` is transitive. -/
theorem menor_trans {a b c : Flotante} (h1 : a < b) (h2 : b < c) : a < c := by
  rw [menor_def] at *
  cases a <;> cases b <;> cases c <;> simp_all [menor]
  exact lt_trans h1 h2

/-- A `float` other than NaN is below or equal to itself. -/
theorem menorIgual_refl {a : Flotante} (h : a ≠ nan) : a ≤ a := by
  rw [menorIgual_def]
  cases a with
  | nan => exact absurd rfl h
  | infinito s => cases s <;> simp [menorIgual]
  | finito x => simp [menorIgual]

/-- Below implies below or equal. -/
theorem menorIgual_of_menor {a b : Flotante} (h : a < b) : a ≤ b := by
  rw [menor_def] at h
  rw [menorIgual_def]
  cases a <;> cases b <;> simp_all [menor, menorIgual]
  exact le_of_lt h

/-- Two `float`s other than NaN are comparable. -/
theorem menorIgual_of_not_menor {a b : Flotante} (ha : a ≠ nan) (hb : b ≠ nan)
    (h : ¬ a < b) : b ≤ a := by
  rw [menor_def] at h
  rw [menorIgual_def]
  rcases a with _ | s | x <;> rcases b with _ | t | y <;> simp_all [menor, menorIgual]
  cases s <;> simp_all

/-- Below, then below or equal, gives below. -/
theorem menor_of_menor_of_menorIgual {a b c : Flotante} (h1 : a < b) (h2 : b ≤ c) :
    a < c := by
  rw [menor_def] at *
  rw [menorIgual_def] at h2
  cases a <;> cases b <;> cases c <;> simp_all [menor, menorIgual]
  exact lt_of_lt_of_le h1 h2

end Flotante

/-! ## Properties of `ListaSensor<T>` -/

namespace ListaSensor

variable {T : Type}

theorem enlazarAlFinal_eq (actual : T) (resto : List T) (valor : T) :
    enlazarAlFinal actual resto valor = actual :: resto ++ [valor] := by
  induction resto generalizing actual with
  | nil => rfl
  | cons sig resto ih => simp [enlazarAlFinal, ih]

theorem insertar_nodos (l : ListaSensor T) (valor : T) :
    (insertar l valor).nodos = l.nodos ++ [valor] := by
  unfold insertar
  cases h : l.nodos with
  | nil => rfl
  | cons c resto => simp [enlazarAlFinal_eq]

theorem insertar_tamanio (l : ListaSensor T) (valor : T) :
    (insertar l valor).tamanio = l.tamanio + 1 := rfl

theorem insertarTodos_eq (valores : List T) :
    insertarTodos valores = ⟨valores, (valores.length : Int)⟩ := by
  have h : ∀ (vs : List T) (l : ListaSensor T),
      vs.foldl insertar l = ⟨l.nodos ++ vs, l.tamanio + (vs.length : Int)⟩ := by
    intro vs
    induction vs with
    | nil => intro l; simp
    | cons v vs ih =>
      intro l
      rw [List.foldl_cons, ih, insertar_nodos, insertar_tamanio]
      simp only [List.append_assoc, List.singleton_append, List.length_cons, Nat.cast_add,
        Nat.cast_one, mk.injEq, true_and]
      omega
  simpa [vacia] using h valores vacia

/-- The search loop, whatever `<` is: either no node was selected and the loop ends
in the state it started in, or the node selected last is at some position `j` of the
scanned chain and `prevMin` is the node just before it. -/
theorem buscarMinimo_forma [LT T] [DecidableRel (fun a b : T => a < b)]
    (actual : List T) (k : Nat) (nodoMin : Nat × T) (prevMin prev : Option Nat) :
    buscarMinimo actual k nodoMin prevMin prev = (nodoMin, prevMin) ∨
    ∃ j w, actual[j]? = some w ∧
      buscarMinimo actual k nodoMin prevMin prev
        = ((k + j, w), if j = 0 then prev else some (k + j - 1)) := by
  induction actual generalizing k nodoMin prevMin prev with
  | nil => left; rfl
  | cons d resto ih =>
    unfold buscarMinimo
    split
    · right
      rcases ih (k + 1) (k, d) prev (some k) with h | ⟨j, w, hj, h⟩
      · exact ⟨0, d, by simp, by simp [h]⟩
      · refine ⟨j + 1, w, by simpa using hj, ?_⟩
        rw [h]
        by_cases hj0 : j = 0
        · subst hj0; simp
        · simp [hj0]; omega
    · rcases ih (k + 1) nodoMin prevMin (some k) with h | ⟨j, w, hj, h⟩
      · left; exact h
      · right
        refine ⟨j + 1, w, by simpa using hj, ?_⟩
        rw [h]
        by_cases hj0 : j = 0
        · subst hj0; simp
        · simp [hj0]; omega

/-- The search loop over a total order: either nothing in the scanned chain is below
the starting minimum, or the selected node is the first occurrence of the least
value of the scanned chain, which is below the starting minimum. -/
theorem buscarMinimo_orden [LinearOrder T]
    (actual : List T) (k m : Nat) (v : T) (prevMin prev : Option Nat) :
    ((∀ x ∈ actual, v ≤ x) ∧
      buscarMinimo actual k (m, v) prevMin prev = ((m, v), prevMin)) ∨
    ∃ j w, actual[j]? = some w ∧ w < v ∧ (∀ x ∈ actual, w ≤ x) ∧
      (∀ i x, i < j → actual[i]? = some x → w < x) ∧
      buscarMinimo actual k (m, v) prevMin prev
        = ((k + j, w), if j = 0 then prev else some (k + j - 1)) := by
  induction actual generalizing k m v prevMin prev with
  | nil => left; exact ⟨by simp, rfl⟩
  | cons d resto ih =>
    unfold buscarMinimo
    by_cases hd : d < v
    · simp only [hd, if_true]
      right
      rcases ih (k + 1) k d prev (some k) with ⟨hall, h⟩ | ⟨j, w, hj, hw, hall, hpri, h⟩
      · refine ⟨0, d, by simp, hd, ?_, ?_, by simp [h]⟩
        · intro x hx
          rcases List.mem_cons.mp hx with rfl | hx
          · exact le_refl _
          · exact hall x hx
        · intro i x hi; omega
      · refine ⟨j + 1, w, by simpa using hj, lt_trans hw hd, ?_, ?_, ?_⟩
        · intro x hx
          rcases List.mem_cons.mp hx with rfl | hx
          · exact le_of_lt hw
          · exact hall x hx
        · intro i x hi hx
          cases i with
          | zero =>
            simp at hx
            subst hx
            exact hw
          | succ i => exact hpri i x (by omega) (by simpa using hx)
        · rw [h]
          by_cases hj0 : j = 0
          · subst hj0; simp
          · simp [hj0]; omega
    · simp only [hd, if_false]
      have hvd : v ≤ d := not_lt.mp hd
      rcases ih (k + 1) m v prevMin (some k) with ⟨hall, h⟩ | ⟨j, w, hj, hw, hall, hpri, h⟩
      · left
        refine ⟨?_, h⟩
        intro x hx
        rcases List.mem_cons.mp hx with rfl | hx
        · exact hvd
        · exact hall x hx
      · right
        refine ⟨j + 1, w, by simpa using hj, hw, ?_, ?_, ?_⟩
        · intro x hx
          rcases List.mem_cons.mp hx with rfl | hx
          · exact le_of_lt (lt_of_lt_of_le hw hvd)
          · exact hall x hx
        · intro i x hi hx
          cases i with
          | zero =>
            simp at hx
            subst hx
            exact lt_of_lt_of_le hw hvd
          | succ i => exact hpri i x (by omega) (by simpa using hx)
        · rw [h]
          by_cases hj0 : j = 0
          · subst hj0; simp
          · simp [hj0]; omega

/-- Unlinking, whatever `<` is: on a non-empty chain `eliminarMinimo` returns the
`dato` of one node and unlinks that node and no other. -/
theorem eliminarMinimo_forma [Lectura T] [LT T] [DecidableRel (fun a b : T => a < b)]
    (l : ListaSensor T) (h : l.nodos ≠ []) :
    ∃ i, l.nodos[i]? = some (eliminarMinimo l).1 ∧
      (eliminarMinimo l).2.nodos = l.nodos.eraseIdx i ∧
      (eliminarMinimo l).2.tamanio = l.tamanio - 1 := by
  obtain ⟨nodos, t⟩ := l
  cases nodos with
  | nil => exact absurd rfl h
  | cons c resto =>
    simp only [eliminarMinimo]
    rcases buscarMinimo_forma (c :: resto) 0 (0, c) none none with hb | ⟨j, w, hj, hb⟩
    · exact ⟨0, by simp [hb], by simp [hb], trivial⟩
    · cases j with
      | zero => exact ⟨0, by simpa [hb] using hj, by simp [hb], trivial⟩
      | succ j =>
        refine ⟨j + 1, by simpa [hb] using hj, ?_, trivial⟩
        rw [hb, List.eraseIdx_eq_take_drop_succ]
        simp

/-- Over a total order the unlinked node is the first occurrence of the least
value. -/
theorem eliminarMinimo_orden [Lectura T] [LinearOrder T]
    (l : ListaSensor T) (h : l.nodos ≠ []) :
    ∃ i, l.nodos[i]? = some (eliminarMinimo l).1 ∧
      (∀ x ∈ l.nodos, (eliminarMinimo l).1 ≤ x) ∧
      (∀ j x, j < i → l.nodos[j]? = some x → (eliminarMinimo l).1 < x) ∧
      (eliminarMinimo l).2.nodos = l.nodos.eraseIdx i ∧
      (eliminarMinimo l).2.tamanio = l.tamanio - 1 := by
  obtain ⟨nodos, t⟩ := l
  cases nodos with
  | nil => exact absurd rfl h
  | cons c resto =>
    simp only [eliminarMinimo]
    rcases buscarMinimo_orden (c :: resto) 0 0 c none none with
      ⟨hall, hb⟩ | ⟨j, w, hj, hw, hall, hpri, hb⟩
    · refine ⟨0, by simp [hb], by simpa [hb] using hall, ?_, by simp [hb], trivial⟩
      intro j x hj
      omega
    · cases j with
      | zero =>
        simp at hj
        subst hj
        exact absurd hw (lt_irrefl _)
      | succ j =>
        refine ⟨j + 1, by simpa [hb] using hj, by simpa [hb] using hall,
          by simpa [hb] using hpri, ?_, trivial⟩
        rw [hb, List.eraseIdx_eq_take_drop_succ]
        simp

/-- The search loop over `float`s none of which is NaN: as over a total order. -/
theorem buscarMinimo_sin_nan
    (actual : List Flotante) (k m : Nat) (v : Flotante) (prevMin prev : Option Nat)
    (hv : v ≠ Flotante.nan) (ha : ∀ x ∈ actual, x ≠ Flotante.nan) :
    ((∀ x ∈ actual, v ≤ x) ∧
      buscarMinimo actual k (m, v) prevMin prev = ((m, v), prevMin)) ∨
    ∃ j w, actual[j]? = some w ∧ w < v ∧ (∀ x ∈ actual, w ≤ x) ∧
      (∀ i x, i < j → actual[i]? = some x → w < x) ∧
      buscarMinimo actual k (m, v) prevMin prev
        = ((k + j, w), if j = 0 then prev else some (k + j - 1)) := by
  induction actual generalizing k m v prevMin prev with
  | nil => left; exact ⟨by simp, rfl⟩
  | cons d resto ih =>
    have hdn : d ≠ Flotante.nan := ha d (by simp)
    have hresto : ∀ x ∈ resto, x ≠ Flotante.nan := fun x hx => ha x (by simp [hx])
    unfold buscarMinimo
    by_cases hd : d < v
    · simp only [hd, if_true]
      right
      rcases ih (k + 1) k d prev (some k) hdn hresto with
        ⟨hall, h⟩ | ⟨j, w, hj, hw, hall, hpri, h⟩
      · refine ⟨0, d, by simp, hd, ?_, ?_, by simp [h]⟩
        · intro x hx
          rcases List.mem_cons.mp hx with rfl | hx
          · exact Flotante.menorIgual_refl hdn
          · exact hall x hx
        · intro i x hi; omega
      · refine ⟨j + 1, w, by simpa using hj, Flotante.menor_trans hw hd, ?_, ?_, ?_⟩
        · intro x hx
          rcases List.mem_cons.mp hx with rfl | hx
          · exact Flotante.menorIgual_of_menor hw
          · exact hall x hx
        · intro i x hi hx
          cases i with
          | zero =>
            simp at hx
            subst hx
            exact hw
          | succ i => exact hpri i x (by omega) (by simpa using hx)
        · rw [h]
          by_cases hj0 : j = 0
          · subst hj0; simp
          · simp [hj0]; omega
    · simp only [hd, if_false]
      have hvd : v ≤ d := Flotante.menorIgual_of_not_menor hdn hv hd
      rcases ih (k + 1) m v prevMin (some k) hv hresto with
        ⟨hall, h⟩ | ⟨j, w, hj, hw, hall, hpri, h⟩
      · left
        refine ⟨?_, h⟩
        intro x hx
        rcases List.mem_cons.mp hx with rfl | hx
        · exact hvd
        · exact hall x hx
      · right
        refine ⟨j + 1, w, by simpa using hj, hw, ?_, ?_, ?_⟩
        · intro x hx
          rcases List.mem_cons.mp hx with rfl | hx
          · exact Flotante.menorIgual_of_menor
              (Flotante.menor_of_menor_of_menorIgual hw hvd)
          · exact hall x hx
        · intro i x hi hx
          cases i with
          | zero =>
            simp at hx
            subst hx
            exact Flotante.menor_of_menor_of_menorIgual hw hvd
          | succ i => exact hpri i x (by omega) (by simpa using hx)
        · rw [h]
          by_cases hj0 : j = 0
          · subst hj0; simp
          · simp [hj0]; omega

/-- Over `float`s none of which is NaN the unlinked node is the first occurrence of
the least value. -/
theorem eliminarMinimo_sin_nan (l : ListaSensor Flotante) (h : l.nodos ≠ [])
    (hn : ∀ x ∈ l.nodos, x ≠ Flotante.nan) :
    ∃ i, l.nodos[i]? = some (eliminarMinimo l).1 ∧
      (∀ x ∈ l.nodos, (eliminarMinimo l).1 ≤ x) ∧
      (∀ j x, j < i → l.nodos[j]? = some x → (eliminarMinimo l).1 < x) ∧
      (eliminarMinimo l).2.nodos = l.nodos.eraseIdx i ∧
      (eliminarMinimo l).2.tamanio = l.tamanio - 1 := by
  obtain ⟨nodos, t⟩ := l
  cases nodos with
  | nil => exact absurd rfl h
  | cons c resto =>
    simp only [eliminarMinimo]
    rcases buscarMinimo_sin_nan (c :: resto) 0 0 c none none (hn c (by simp)) hn with
      ⟨hall, hb⟩ | ⟨j, w, hj, hw, hall, hpri, hb⟩
    · refine ⟨0, by simp [hb], by simpa [hb] using hall, ?_, by simp [hb], trivial⟩
      intro j x hj
      omega
    · cases j with
      | zero =>
        simp at hj
        subst hj
        exact absurd hw (Flotante.menor_irrefl _)
      | succ j =>
        refine ⟨j + 1, by simpa [hb] using hj, by simpa [hb] using hall,
          by simpa [hb] using hpri, ?_, trivial⟩
        rw [hb, List.eraseIdx_eq_take_drop_succ]
        simp

/-- C1, as stated, fails for a `ListaSensor<float>` that holds NaN: on the readings
`nan, 1.0, 3.0` the node unlinked is the head, whose value `nan` is not below or equal
to the readings, while `1.0`, below which no reading lies, stays in the list. -/
theorem eliminarMinimo_con_nan_no_quita_el_minimo :
    lecturasConNan.nodos = [Flotante.nan, 1, 3] ∧
    eliminarMinimo lecturasConNan = (Flotante.nan, ⟨[1, 3], 2⟩) ∧
    ¬ (∀ x ∈ lecturasConNan.nodos, (eliminarMinimo lecturasConNan).1 ≤ x) ∧
    (∀ x ∈ lecturasConNan.nodos, ¬ x < 1) ∧
    (1 : Flotante) ∈ (eliminarMinimo lecturasConNan).2.nodos := by
  decide!

/-- C1, amended. On every non-empty reading list `eliminarMinimo` unlinks exactly one
node: some position `i` holds the returned value, the remaining chain is the original
with position `i` erased (so one node shorter, the others in their order), and
`getTamanio()` is smaller by exactly 1.  Over a totally ordered value type, and over
`float` readings none of which is NaN, that node is the first occurrence of the least
value: no element is below the returned value and every element before `i` is
strictly above it. -/
theorem eliminarMinimo_quita_primer_minimo :
    (∀ (V : Type) [Lectura V] [LT V] [DecidableRel (fun a b : V => a < b)]
        (l : ListaSensor V), l.nodos ≠ [] →
      ∃ i, l.nodos[i]? = some (eliminarMinimo l).1 ∧
        (eliminarMinimo l).2.nodos = l.nodos.eraseIdx i ∧
        (eliminarMinimo l).2.nodos.length + 1 = l.nodos.length ∧
        getTamanio (eliminarMinimo l).2 = getTamanio l - 1) ∧
    (∀ (V : Type) [Lectura V] [LinearOrder V] (l : ListaSensor V), l.nodos ≠ [] →
      ∃ i, l.nodos[i]? = some (eliminarMinimo l).1 ∧
        (∀ x ∈ l.nodos, (eliminarMinimo l).1 ≤ x) ∧
        (∀ j x, j < i → l.nodos[j]? = some x → (eliminarMinimo l).1 < x) ∧
        (eliminarMinimo l).2.nodos = l.nodos.eraseIdx i ∧
        (eliminarMinimo l).2.nodos.length + 1 = l.nodos.length ∧
        getTamanio (eliminarMinimo l).2 = getTamanio l - 1) ∧
    (∀ l : ListaSensor Flotante, l.nodos ≠ [] → (∀ x ∈ l.nodos, x ≠ Flotante.nan) →
      ∃ i, l.nodos[i]? = some (eliminarMinimo l).1 ∧
        (∀ x ∈ l.nodos, (eliminarMinimo l).1 ≤ x) ∧
        (∀ j x, j < i → l.nodos[j]? = some x → (eliminarMinimo l).1 < x) ∧
        (eliminarMinimo l).2.nodos = l.nodos.eraseIdx i ∧
        (eliminarMinimo l).2.nodos.length + 1 = l.nodos.length ∧
        getTamanio (eliminarMinimo l).2 = getTamanio l - 1) := by
  have hlargo : ∀ (V : Type) (nodos nodos' : List V) (i : Nat) (w : V),
      nodos[i]? = some w → nodos' = nodos.eraseIdx i →
      nodos'.length + 1 = nodos.length := by
    intro V nodos nodos' i w hi hnodos
    have hlt : i < nodos.length := by
      rcases Nat.lt_or_ge i nodos.length with hlt | hge
      · exact hlt
      · rw [List.getElem?_eq_none hge] at hi
        exact absurd hi (by simp)
    rw [hnodos, List.length_eraseIdx_of_lt hlt]
    omega
  refine ⟨?_, ?_, ?_⟩
  · intro V _ _ _ l h
    obtain ⟨i, hi, hnodos, htam⟩ := eliminarMinimo_forma l h
    exact ⟨i, hi, hnodos, hlargo V _ _ i _ hi hnodos, htam⟩
  · intro V _ _ l h
    obtain ⟨i, hi, hmin, hpri, hnodos, htam⟩ := eliminarMinimo_orden l h
    exact ⟨i, hi, hmin, hpri, hnodos, hlargo V _ _ i _ hi hnodos, htam⟩
  · intro l h hn
    obtain ⟨i, hi, hmin, hpri, hnodos, htam⟩ := eliminarMinimo_sin_nan l h hn
    exact ⟨i, hi, hmin, hpri, hnodos, hlargo _ _ _ i _ hi hnodos, htam⟩

/-- C1, amended, on the `int` readings `7, 3, 9, 3` and on the `float` readings
`7.0, 3.0, 9.0, 3.0`, where the first `3` goes and the second stays, and on the
`float` readings `nan, 1.0, 3.0`, where one node goes. -/
theorem eliminarMinimo_quita_primer_minimo_witness :
    (lecturasConEmpate.nodos ≠ [] ∧
      eliminarMinimo lecturasConEmpate = (3, ⟨[7, 9, 3], 3⟩) ∧
      ∃ i, lecturasConEmpate.nodos[i]? = some (eliminarMinimo lecturasConEmpate).1 ∧
        (∀ x ∈ lecturasConEmpate.nodos, (eliminarMinimo lecturasConEmpate).1 ≤ x) ∧
        (∀ j x, j < i → lecturasConEmpate.nodos[j]? = some x →
          (eliminarMinimo lecturasConEmpate).1 < x) ∧
        (eliminarMinimo lecturasConEmpate).2.nodos = lecturasConEmpate.nodos.eraseIdx i ∧
        (eliminarMinimo lecturasConEmpate).2.nodos.length + 1
          = lecturasConEmpate.nodos.length ∧
        getTamanio (eliminarMinimo lecturasConEmpate).2
          = getTamanio lecturasConEmpate - 1) ∧
    ((lecturasFlotantesConEmpate.nodos ≠ [] ∧
        ∀ x ∈ lecturasFlotantesConEmpate.nodos, x ≠ Flotante.nan) ∧
      eliminarMinimo lecturasFlotantesConEmpate = (3, ⟨[7, 9, 3], 3⟩) ∧
      ∃ i, lecturasFlotantesConEmpate.nodos[i]?
          = some (eliminarMinimo lecturasFlotantesConEmpate).1 ∧
        (∀ x ∈ lecturasFlotantesConEmpate.nodos,
          (eliminarMinimo lecturasFlotantesConEmpate).1 ≤ x) ∧
        (∀ j x, j < i → lecturasFlotantesConEmpate.nodos[j]? = some x →
          (eliminarMinimo lecturasFlotantesConEmpate).1 < x) ∧
        (eliminarMinimo lecturasFlotantesConEmpate).2.nodos
          = lecturasFlotantesConEmpate.nodos.eraseIdx i ∧
        (eliminarMinimo lecturasFlotantesConEmpate).2.nodos.length + 1
          = lecturasFlotantesConEmpate.nodos.length ∧
        getTamanio (eliminarMinimo lecturasFlotantesConEmpate).2
          = getTamanio lecturasFlotantesConEmpate - 1) ∧
    (lecturasConNan.nodos ≠ [] ∧
      ∃ i, lecturasConNan.nodos[i]? = some (eliminarMinimo lecturasConNan).1 ∧
        (eliminarMinimo lecturasConNan).2.nodos = lecturasConNan.nodos.eraseIdx i ∧
        (eliminarMinimo lecturasConNan).2.nodos.length + 1 = lecturasConNan.nodos.length ∧
        getTamanio (eliminarMinimo lecturasConNan).2 = getTamanio lecturasConNan - 1) :=
  ⟨⟨by decide, by decide,
      eliminarMinimo_quita_primer_minimo.2.1 Int32 lecturasConEmpate (by decide)⟩,
    ⟨⟨by decide, by decide!⟩, by decide!,
      eliminarMinimo_quita_primer_minimo.2.2 lecturasFlotantesConEmpate
        (by decide) (by decide!)⟩,
    ⟨by decide,
      eliminarMinimo_quita_primer_minimo.1 Flotante lecturasConNan (by decide)⟩⟩

/-- C2. Over a totally ordered value type, the value `eliminarMinimo` returns on a
non-empty list is an element of the list as it was before the call and is less than
or equal to every element of that list. -/
theorem eliminarMinimo_devuelve_minimo [Lectura T] [LinearOrder T]
    (l : ListaSensor T) (h : l.nodos ≠ []) :
    (eliminarMinimo l).1 ∈ l.nodos ∧ ∀ x ∈ l.nodos, (eliminarMinimo l).1 ≤ x := by
  obtain ⟨i, hi, hmin, _⟩ := eliminarMinimo_orden l h
  exact ⟨List.getElem?_mem hi, hmin⟩

/-- C2 on the readings `40, -5, 12`: the value returned is `-5`. -/
theorem eliminarMinimo_devuelve_minimo_witness :
    lecturasConNegativo.nodos ≠ [] ∧
    (eliminarMinimo lecturasConNegativo).1 = Int32.deEntero (-5) ∧
    (eliminarMinimo lecturasConNegativo).1 ∈ lecturasConNegativo.nodos ∧
    ∀ x ∈ lecturasConNegativo.nodos, (eliminarMinimo lecturasConNegativo).1 ≤ x :=
  ⟨by decide, by decide, eliminarMinimo_devuelve_minimo lecturasConNegativo (by decide)⟩

/-- C3. After `insertar` was called on an empty list with each of `N` values in turn,
`getTamanio()` is `N` and the chain holds exactly those values in insertion order;
each single `insertar` puts the new value after all existing ones, changes none of
them and adds one to the count. -/
theorem insertar_conserva_orden_y_cuenta (valores : List T) :
    getTamanio (insertarTodos valores) = (valores.length : Int) ∧
    (insertarTodos valores).nodos = valores ∧
    ∀ (l : ListaSensor T) (valor : T),
      (insertar l valor).nodos = l.nodos ++ [valor] ∧
      getTamanio (insertar l valor) = getTamanio l + 1 := by
  rw [insertarTodos_eq]
  exact ⟨rfl, rfl, fun l valor => ⟨insertar_nodos l valor, rfl⟩⟩

theorem limpiarDesde_eq (nodos : List T) (t : Int) :
    limpiarDesde nodos t = ⟨[], t - (nodos.length : Int)⟩ := by
  induction nodos generalizing t with
  | nil => simp [limpiarDesde]
  | cons d resto ih =>
    rw [limpiarDesde, ih]
    simp only [List.length_cons, Nat.cast_add, Nat.cast_one, mk.injEq, true_and]
    omega

theorem copiarDesde_eq (l : ListaSensor T) (nodos : List T) :
    copiarDesde l nodos = ⟨l.nodos ++ nodos, l.tamanio + (nodos.length : Int)⟩ := by
  induction nodos generalizing l with
  | nil => simp [copiarDesde]
  | cons d resto ih =>
    rw [copiarDesde, ih, insertar_nodos, insertar_tamanio]
    simp only [List.append_assoc, List.singleton_append, List.length_cons, Nat.cast_add,
      Nat.cast_one, mk.injEq, true_and]
    omega

/-- The counter of a list that satisfies the size invariant still counts the nodes
after `eliminarMinimo`. -/
theorem eliminarMinimo_cuenta [Lectura T] [LT T] [DecidableRel (fun a b : T => a < b)]
    (l : ListaSensor T) (h : l.tamanio = (l.nodos.length : Int)) :
    (eliminarMinimo l).2.tamanio = ((eliminarMinimo l).2.nodos.length : Int) := by
  by_cases hne : l.nodos = []
  · have : eliminarMinimo l = (Lectura.cero, l) := by
      unfold eliminarMinimo
      rw [hne]
    rw [this]
    exact h
  · obtain ⟨i, hi, hnodos, htam⟩ := eliminarMinimo_forma l hne
    have hlt : i < l.nodos.length := by
      rcases Nat.lt_or_ge i l.nodos.length with hlt | hge
      · exact hlt
      · rw [List.getElem?_eq_none hge] at hi
        exact absurd hi (by simp)
    rw [hnodos, htam, List.length_eraseIdx_of_lt hlt, h]
    omega

/-- The size invariant: in every reachable state the counter is the number of
nodes. -/
theorem Alcanzable.cuenta [Lectura T] [LT T] [DecidableRel (fun a b : T => a < b)]
    {l : ListaSensor T} (h : Alcanzable l) : l.tamanio = (l.nodos.length : Int) := by
  induction h with
  | vacia => rfl
  | insertar l valor _ ih =>
    rw [insertar_nodos, insertar_tamanio, ih]
    simp
  | eliminarMinimo l _ ih => exact eliminarMinimo_cuenta l ih
  | copia otra _ _ =>
    simp [ListaSensor.copia, ListaSensor.copiar, copiarDesde_eq, ListaSensor.vacia]
  | asignar l otra _ _ ih _ =>
    cases otra with
    | none => exact ih
    | some o =>
      simp [ListaSensor.asignar, ListaSensor.copiar, ListaSensor.limpiar, copiarDesde_eq,
        limpiarDesde_eq, ih]
  | limpiar l _ ih =>
    simp [ListaSensor.limpiar, limpiarDesde_eq, ih]
  | copiar l otra _ _ ih _ =>
    simp [ListaSensor.copiar, copiarDesde_eq, ih]

end ListaSensor

/-! ## The arithmetic of the two element types -/

theorem wrap32_id {x : Int} (h : -2147483648 ≤ x ∧ x ≤ 2147483647) : wrap32 x = x := by
  unfold wrap32
  omega

theorem wrap32_suma (a b : Int) : wrap32 (wrap32 a + b) = wrap32 (a + b) := by
  unfold wrap32
  omega

theorem Int32.ext_val {a b : Int32} (h : a.val = b.val) : a = b := by
  cases a
  cases b
  cases h
  rfl

/-- The truncated quotient by a positive divisor lies between the dividend and 0. -/
theorem tdiv_entre (a b : Int) (hb : 0 < b) :
    (0 ≤ a → 0 ≤ a.tdiv b ∧ a.tdiv b ≤ a) ∧
    (a ≤ 0 → a ≤ a.tdiv b ∧ a.tdiv b ≤ 0) := by
  have hpos : ∀ c : Int, 0 ≤ c → 0 ≤ c.tdiv b ∧ c.tdiv b ≤ c := by
    intro c hc
    rw [Int.tdiv_eq_ediv hc (le_of_lt hb)]
    exact ⟨Int.ediv_nonneg hc (le_of_lt hb), Int.ediv_le_self b hc⟩
  refine ⟨hpos a, ?_⟩
  intro ha
  have h := hpos (-a) (by omega)
  rw [Int.neg_tdiv] at h
  omega

instance : LecturaLegal Int32 where
  cero_suma a := by
    apply Int32.ext_val
    have h := a.enRango
    show wrap32 (wrap32 0 + a.val) = a.val
    unfold wrap32
    omega
  entre_uno a := by
    apply Int32.ext_val
    show wrap32 (a.val.tdiv 1) = a.val
    rw [Int.tdiv_one]
    exact wrap32_id a.enRango

instance : LecturaLegal ℚ where
  cero_suma a := by
    show (0 : ℚ) + a = a
    simp
  entre_uno a := by
    show a / ((1 : Int) : ℚ) = a
    simp

namespace ListaSensor

variable {T : Type}

/-- The summing loop over `int`: the sum of the values, reduced modulo `2^32`. -/
theorem sumar_int (nodos : List Int32) (suma : Int32) :
    (sumar nodos suma).val = wrap32 (suma.val + (nodos.map Int32.val).sum) := by
  induction nodos generalizing suma with
  | nil => simpa [sumar] using (wrap32_id suma.enRango).symm
  | cons d resto ih =>
    rw [sumar, ih]
    show wrap32 (wrap32 (suma.val + d.val) + _) = _
    rw [wrap32_suma]
    simp only [List.map_cons, List.sum_cons]
    congr 1
    omega

/-- The mean of an `int` list with `n > 0` nodes whose counter is `n`: the sum,
reduced modulo `2^32`, divided by `n` with truncation toward zero. -/
theorem calcularPromedio_int (l : ListaSensor Int32) (h : l.tamanio = (l.nodos.length : Int))
    (hne : l.nodos ≠ []) :
    (calcularPromedio l).val
      = (wrap32 (l.nodos.map Int32.val).sum).tdiv (l.nodos.length : Int) := by
  have hpos : 0 < l.nodos.length := List.length_pos.mpr hne
  have hn : l.tamanio ≠ 0 := by omega
  unfold calcularPromedio
  rw [if_neg hn, h]
  show wrap32 (Int.tdiv (sumar l.nodos (Int32.deEntero 0)).val _) = _
  rw [sumar_int]
  have h0 : (Int32.deEntero 0).val = 0 := rfl
  rw [h0, Int.zero_add]
  have hr : -2147483648 ≤ wrap32 (l.nodos.map Int32.val).sum ∧
      wrap32 (l.nodos.map Int32.val).sum ≤ 2147483647 := by
    unfold wrap32
    omega
  have hd := tdiv_entre (wrap32 (l.nodos.map Int32.val).sum) (l.nodos.length : Int) (by omega)
  apply wrap32_id
  rcases le_total 0 (wrap32 (l.nodos.map Int32.val).sum) with h1 | h1
  · have := hd.1 h1
    omega
  · have := hd.2 h1
    omega

/-- The mean of a list with the single node `a` and counter 1 is `(T(0) + a) / 1`,
that is `a`. -/
theorem calcularPromedio_un_nodo [Lectura T] [LecturaLegal T] (l : ListaSensor T) (a : T)
    (hn : l.nodos = [a]) (ht : l.tamanio = 1) : calcularPromedio l = a := by
  simp [calcularPromedio, ht, hn, sumar, LecturaLegal.cero_suma, LecturaLegal.entre_uno]

/-- C4. `calcularPromedio` returns `T(0)` on an empty list and returns `a` on the
one-element list `[a]`, for every value `a`. -/
theorem calcularPromedio_vacia_y_unitaria [Lectura T] [LecturaLegal T] [LT T]
    [DecidableRel (fun a b : T => a < b)] (l : ListaSensor T) (h : Alcanzable l) :
    (l.nodos = [] → calcularPromedio l = Lectura.cero) ∧
    (∀ a, l.nodos = [a] → calcularPromedio l = a) := by
  have ht := h.cuenta
  constructor
  · intro hn
    rw [hn] at ht
    simp [calcularPromedio, ht]
  · intro a hn
    rw [hn] at ht
    exact calcularPromedio_un_nodo l a hn (by simpa using ht)

/-- C4 on the `int` lists `[]` and `[7]`. -/
theorem calcularPromedio_vacia_y_unitaria_witness :
    calcularPromedio (vacia : ListaSensor Int32) = 0 ∧
    calcularPromedio (insertar (vacia : ListaSensor Int32) 7) = 7 ∧
    ((insertar (vacia : ListaSensor Int32) 7).nodos = [] →
      calcularPromedio (insertar (vacia : ListaSensor Int32) 7) = Lectura.cero) ∧
    (∀ a, (insertar (vacia : ListaSensor Int32) 7).nodos = [a] →
      calcularPromedio (insertar (vacia : ListaSensor Int32) 7) = a) :=
  ⟨by decide, by decide,
    calcularPromedio_vacia_y_unitaria _ (Alcanzable.insertar _ 7 Alcanzable.vacia)⟩

/-- The summing loop as a fold: the values are added one by one, in the order of the
chain, to the running sum. -/
theorem sumar_eq_foldl [Lectura T] (nodos : List T) (suma : T) :
    sumar nodos suma = nodos.foldl Lectura.suma suma := by
  induction nodos generalizing suma with
  | nil => rfl
  | cons d resto ih => exact ih _

/-- The summing loop over `float` when no addition rounds: the exact sum. -/
theorem sumar_flotante_exacto (qs : List ℚ) (suma : ℚ)
    (h : ∀ k, k ≤ qs.length → Flotante.esExacto (suma + (qs.take k).sum)) :
    sumar (qs.map Flotante.finito) (Flotante.finito suma)
      = Flotante.finito (suma + qs.sum) := by
  induction qs generalizing suma with
  | nil => simp [sumar]
  | cons q resto ih =>
    have h1 : Flotante.redondear (suma + q) = Flotante.finito (suma + q) := by
      simpa [Flotante.esExacto] using h 1 (by simp)
    rw [List.map_cons, sumar]
    show sumar _ (Flotante.sumar (Flotante.finito suma) (Flotante.finito q)) = _
    rw [Flotante.sumar, h1, ih]
    · simp [add_assoc]
    · intro k hk
      have := h (k + 1) (by simpa using hk)
      simpa [add_assoc] using this

/-- C5, as stated, fails for both instantiations.  For `ListaSensor<int>`: on the
readings `1, 2` the result is `1`, and `1 * 2` is not the sum `3`.  For
`ListaSensor<float>`: on the readings `16777216.0, 1.0` the result is `8388608.0`, and
`8388608 * 2` is not the sum `16777217`. -/
theorem calcularPromedio_no_es_media_exacta :
    (lecturasUnoDos.nodos ≠ [] ∧
      calcularPromedio lecturasUnoDos = 1 ∧
      (calcularPromedio lecturasUnoDos).val * (lecturasUnoDos.nodos.length : Int)
        ≠ (lecturasUnoDos.nodos.map Int32.val).sum) ∧
    (lecturasGrandes.nodos = [Flotante.finito 16777216, Flotante.finito 1] ∧
      calcularPromedio lecturasGrandes = Flotante.finito 8388608 ∧
      (calcularPromedio lecturasGrandes).valor * (lecturasGrandes.nodos.length : ℚ)
        ≠ (lecturasGrandes.nodos.map Flotante.valor).sum) := by
  decide!

/-- C5, amended. On a non-empty reading list `calcularPromedio` returns the sum of the
values, added one by one to `T(0)` in the order of the chain, divided by their number,
both in the arithmetic of `T`.  For `ListaSensor<int>` whose sum is within the range of
`int` the result is the quotient truncated toward zero: the result times the count is
the sum less the remainder of that division, and it is the sum exactly when the count
divides the sum.  For `ListaSensor<float>` with finite readings the result times the
count is the sum whenever nothing rounds: every partial sum, the count and the exact
quotient are values of `float`. -/
theorem calcularPromedio_es_cociente :
    (∀ (V : Type) [Lectura V] [LT V] [DecidableRel (fun a b : V => a < b)]
        (l : ListaSensor V), Alcanzable l → l.nodos ≠ [] →
      calcularPromedio l
        = Lectura.entre (l.nodos.foldl Lectura.suma Lectura.cero) (l.nodos.length : Int)) ∧
    (∀ l : ListaSensor Int32, Alcanzable l → l.nodos ≠ [] →
      (-2147483648 ≤ (l.nodos.map Int32.val).sum ∧
        (l.nodos.map Int32.val).sum ≤ 2147483647) →
      (calcularPromedio l).val
          = ((l.nodos.map Int32.val).sum).tdiv (l.nodos.length : Int) ∧
      (calcularPromedio l).val * (l.nodos.length : Int)
          = (l.nodos.map Int32.val).sum
            - ((l.nodos.map Int32.val).sum).tmod (l.nodos.length : Int) ∧
      ((calcularPromedio l).val * (l.nodos.length : Int) = (l.nodos.map Int32.val).sum
          ↔ (l.nodos.length : Int) ∣ (l.nodos.map Int32.val).sum)) ∧
    (∀ (l : ListaSensor Flotante) (qs : List ℚ), Alcanzable l →
      l.nodos = qs.map Flotante.finito → qs ≠ [] →
      (∀ k, k ≤ qs.length → Flotante.esExacto (qs.take k).sum) →
      Flotante.esExacto (qs.length : ℚ) →
      Flotante.esExacto (qs.sum / (qs.length : ℚ)) →
      calcularPromedio l = Flotante.finito (qs.sum / (qs.length : ℚ)) ∧
      (calcularPromedio l).valor * (qs.length : ℚ) = qs.sum) := by
  refine ⟨?_, ?_, ?_⟩
  · intro V _ _ _ l hl hne
    have ht := hl.cuenta
    have hpos : 0 < l.nodos.length := List.length_pos.mpr hne
    have hn : l.tamanio ≠ 0 := by omega
    unfold calcularPromedio
    rw [if_neg hn, ht, sumar_eq_foldl]
  · intro l hl hne hr
    have hv := calcularPromedio_int l hl.cuenta hne
    rw [wrap32_id hr] at hv
    have hdm := Int.tmod_add_tdiv' (l.nodos.map Int32.val).sum (l.nodos.length : Int)
    refine ⟨hv, ?_, ?_⟩
    · rw [hv]
      omega
    · rw [hv]
      constructor
      · intro h
        exact Int.dvd_of_tmod_eq_zero (by omega)
      · intro h
        exact Int.tdiv_mul_cancel h
  · intro l qs hl hnodos hne hsumas hcuenta hcociente
    have ht := hl.cuenta
    have hlen : l.nodos.length = qs.length := by simp [hnodos]
    have hpos : 0 < qs.length := List.length_pos.mpr hne
    have hn : l.tamanio ≠ 0 := by omega
    have hq : (qs.length : ℚ) ≠ 0 := by exact_mod_cast hpos.ne'
    have hsuma : sumar l.nodos (Flotante.finito 0) = Flotante.finito qs.sum := by
      rw [hnodos, sumar_flotante_exacto qs 0 (by simpa using hsumas), zero_add]
    have hdiv : Flotante.deEntero ((qs.length : Nat) : Int) = Flotante.finito (qs.length : ℚ) := by
      simpa [Flotante.deEntero, Flotante.esExacto] using hcuenta
    have hprom : calcularPromedio l = Flotante.finito (qs.sum / (qs.length : ℚ)) := by
      unfold calcularPromedio
      rw [if_neg hn, ht, hlen]
      show Flotante.dividir (sumar l.nodos (Flotante.finito 0)) (Flotante.deEntero _) = _
      rw [hsuma, hdiv, Flotante.dividir, if_neg hq]
      exact hcociente
    refine ⟨hprom, ?_⟩
    rw [hprom]
    show qs.sum / (qs.length : ℚ) * (qs.length : ℚ) = qs.sum
    field_simp

/-- C5, amended, on the `int` readings `1, 2`, where the result is `3 / 2` truncated,
that is `1`, and `1 * 2 = 3 - 1`; on the `float` readings `10.0, 20.0`, where nothing
rounds and the result is `15.0`; and on the `float` readings `16777216.0, 1.0`. -/
theorem calcularPromedio_es_cociente_witness :
    ((lecturasUnoDos.nodos ≠ [] ∧
        -2147483648 ≤ (lecturasUnoDos.nodos.map Int32.val).sum ∧
        (lecturasUnoDos.nodos.map Int32.val).sum ≤ 2147483647) ∧
      (calcularPromedio lecturasUnoDos).val
          = ((lecturasUnoDos.nodos.map Int32.val).sum).tdiv
            (lecturasUnoDos.nodos.length : Int) ∧
      (calcularPromedio lecturasUnoDos).val * (lecturasUnoDos.nodos.length : Int)
        = (lecturasUnoDos.nodos.map Int32.val).sum
          - ((lecturasUnoDos.nodos.map Int32.val).sum).tmod
            (lecturasUnoDos.nodos.length : Int) ∧
      ((calcularPromedio lecturasUnoDos).val * (lecturasUnoDos.nodos.length : Int)
          = (lecturasUnoDos.nodos.map Int32.val).sum
        ↔ (lecturasUnoDos.nodos.length : Int)
            ∣ (lecturasUnoDos.nodos.map Int32.val).sum)) ∧
    (lecturasDiezVeinte.nodos = [(10 : ℚ), 20].map Flotante.finito ∧
      calcularPromedio lecturasDiezVeinte = Flotante.finito (([10, 20] : List ℚ).sum / 2) ∧
      (calcularPromedio lecturasDiezVeinte).valor * 2 = ([10, 20] : List ℚ).sum ∧
      calcularPromedio lecturasDiezVeinte = Flotante.finito 15) ∧
    (lecturasGrandes.nodos ≠ [] ∧
      calcularPromedio lecturasGrandes
        = Lectura.entre (lecturasGrandes.nodos.foldl Lectura.suma Lectura.cero)
            (lecturasGrandes.nodos.length : Int)) :=
  ⟨⟨by decide,
      calcularPromedio_es_cociente.2.1 lecturasUnoDos
        (Alcanzable.insertar _ 2 (Alcanzable.insertar _ 1 Alcanzable.vacia))
        (by decide) (by decide)⟩,
    ⟨by decide,
      (calcularPromedio_es_cociente.2.2 lecturasDiezVeinte [10, 20]
        (Alcanzable.insertar _ (Flotante.finito 20)
          (Alcanzable.insertar _ (Flotante.finito 10) Alcanzable.vacia))
        (by decide) (by decide) (by decide!) (by decide!) (by decide!)).1,
      (calcularPromedio_es_cociente.2.2 lecturasDiezVeinte [10, 20]
        (Alcanzable.insertar _ (Flotante.finito 20)
          (Alcanzable.insertar _ (Flotante.finito 10) Alcanzable.vacia))
        (by decide) (by decide) (by decide!) (by decide!) (by decide!)).2,
      by decide!⟩,
    ⟨by decide,
      calcularPromedio_es_cociente.1 Flotante lecturasGrandes
        (Alcanzable.insertar _ 1 (Alcanzable.insertar _ 16777216 Alcanzable.vacia))
        (by decide)⟩⟩

end ListaSensor

/-! ## Properties of the sensors -/

namespace SensorTemperatura

variable {F : Type}

/-- The history of a reachable temperature sensor is a reachable reading list. -/
theorem historial_alcanzable [Lectura F] [LT F] [DecidableRel (fun a b : F => a < b)]
    {s : SensorTemperatura F} (h : Alcanzable s) : ListaSensor.Alcanzable s.historial := by
  induction h with
  | crear nom => exact ListaSensor.Alcanzable.vacia
  | agregarLectura atof s valor _ ih => exact ListaSensor.Alcanzable.insertar _ _ ih
  | procesarLectura s _ ih =>
    unfold SensorTemperatura.procesarLectura
    split
    · exact ih
    · split
      · exact ListaSensor.Alcanzable.eliminarMinimo _ ih
      · exact ih

/-- C6, as stated, fails for a sensor whose readings include NaN.  Fed `nan`, `1.0`,
`3.0`, `procesarLectura` removes and reports `nan`, which is not below or equal to the
readings, while `1.0`, below which no reading lies, stays.  Fed `3.0`, `nan`, `1.0` and
processed once, the sensor holds `3.0, nan`; processing it again removes and reports
`3.0`, which is not below or equal to the reading `nan` that stays. -/
theorem procesarLectura_temperatura_con_nan_no_quita_minimo :
    (Alcanzable termometroConNan ∧
      termometroConNan.historial.nodos = [Flotante.nan, 1, 3] ∧
      procesarLectura termometroConNan
        = (⟨"T-003".toList, ⟨[1, 3], 2⟩⟩,
            InformeTemperatura.minimoEliminado Flotante.nan 2) ∧
      ¬ (∀ x ∈ termometroConNan.historial.nodos, Flotante.nan ≤ x) ∧
      (∀ x ∈ termometroConNan.historial.nodos, ¬ x < 1) ∧
      (1 : Flotante) ∈ (procesarLectura termometroConNan).1.historial.nodos) ∧
    (Alcanzable termometroNanEnMedio ∧
      termometroNanEnMedio.historial.nodos = [3, Flotante.nan] ∧
      procesarLectura termometroNanEnMedio
        = (⟨"T-004".toList, ⟨[Flotante.nan], 1⟩⟩,
            InformeTemperatura.minimoEliminado 3 Flotante.nan) ∧
      ¬ (∀ x ∈ termometroNanEnMedio.historial.nodos, (3 : Flotante) ≤ x)) :=
  ⟨⟨Alcanzable.agregarLectura _ _ _
      (Alcanzable.agregarLectura _ _ _
        (Alcanzable.agregarLectura _ _ _ (Alcanzable.crear _))),
    by decide!, by decide!, by decide!, by decide!, by decide!⟩,
   ⟨Alcanzable.procesarLectura _
      (Alcanzable.agregarLectura _ _ _
        (Alcanzable.agregarLectura _ _ _
          (Alcanzable.agregarLectura _ _ _ (Alcanzable.crear _)))),
    by decide!, by decide!, by decide!⟩⟩

/-- The branch of `procesarLectura` taken with more than one reading: the minimum
search result is removed and reported with the mean of the rest. -/
theorem procesarLectura_con_varias [Lectura F] [LT F] [DecidableRel (fun a b : F => a < b)]
    (s : SensorTemperatura F) (hs : Alcanzable s) (h : 1 < s.historial.nodos.length) :
    procesarLectura s
      = (⟨s.nombre, (ListaSensor.eliminarMinimo s.historial).2⟩,
          InformeTemperatura.minimoEliminado (ListaSensor.eliminarMinimo s.historial).1
            (ListaSensor.eliminarMinimo s.historial).2.calcularPromedio) := by
  have ht := (historial_alcanzable hs).cuenta
  have hne : s.historial.nodos ≠ [] := by
    intro h0
    rw [h0] at h
    simp at h
  have hvacia : s.historial.estaVacia = false := by
    simpa [ListaSensor.estaVacia] using hne
  have hmas : s.historial.getTamanio > 1 := by
    unfold ListaSensor.getTamanio
    omega
  unfold SensorTemperatura.procesarLectura
  simp only [hvacia, Bool.false_eq_true, if_false, hmas, if_true]

/-- C6, amended. A temperature sensor holding more than one reading: `procesarLectura`
removes the reading at one position `i`, reports its value `w` together with
`calcularPromedio` of the remaining readings, and leaves as history the original with
position `i` erased (the name is untouched).  Over a totally ordered value domain, and
over `float` readings none of which is NaN, `w` is the least reading and `i` its
first occurrence. -/
theorem procesarLectura_temperatura_quita_minimo :
    (∀ (V : Type) [Lectura V] [LT V] [DecidableRel (fun a b : V => a < b)]
        (s : SensorTemperatura V), Alcanzable s → 1 < s.historial.nodos.length →
      ∃ i w, s.historial.nodos[i]? = some w ∧
        (procesarLectura s).1.historial.nodos = s.historial.nodos.eraseIdx i ∧
        (procesarLectura s).1.historial.getTamanio = s.historial.getTamanio - 1 ∧
        (procesarLectura s).1.nombre = s.nombre ∧
        (procesarLectura s).2
          = InformeTemperatura.minimoEliminado w
              (procesarLectura s).1.historial.calcularPromedio) ∧
    (∀ (V : Type) [Lectura V] [LinearOrder V] (s : SensorTemperatura V),
      Alcanzable s → 1 < s.historial.nodos.length →
      ∃ i w, s.historial.nodos[i]? = some w ∧
        (∀ x ∈ s.historial.nodos, w ≤ x) ∧
        (∀ j x, j < i → s.historial.nodos[j]? = some x → w < x) ∧
        (procesarLectura s).1.historial.nodos = s.historial.nodos.eraseIdx i ∧
        (procesarLectura s).1.historial.getTamanio = s.historial.getTamanio - 1 ∧
        (procesarLectura s).1.nombre = s.nombre ∧
        (procesarLectura s).2
          = InformeTemperatura.minimoEliminado w
              (procesarLectura s).1.historial.calcularPromedio) ∧
    (∀ s : SensorTemperatura Flotante, Alcanzable s → 1 < s.historial.nodos.length →
      (∀ x ∈ s.historial.nodos, x ≠ Flotante.nan) →
      ∃ i w, s.historial.nodos[i]? = some w ∧
        (∀ x ∈ s.historial.nodos, w ≤ x) ∧
        (∀ j x, j < i → s.historial.nodos[j]? = some x → w < x) ∧
        (procesarLectura s).1.historial.nodos = s.historial.nodos.eraseIdx i ∧
        (procesarLectura s).1.historial.getTamanio = s.historial.getTamanio - 1 ∧
        (procesarLectura s).1.nombre = s.nombre ∧
        (procesarLectura s).2
          = InformeTemperatura.minimoEliminado w
              (procesarLectura s).1.historial.calcularPromedio) := by
  have hne : ∀ (V : Type) (s : SensorTemperatura V), 1 < s.historial.nodos.length →
      s.historial.nodos ≠ [] := by
    intro V s h h0
    rw [h0] at h
    simp at h
  refine ⟨?_, ?_, ?_⟩
  · intro V _ _ _ s hs h
    obtain ⟨i, hi, hnodos, htam⟩ :=
      ListaSensor.eliminarMinimo_forma s.historial (hne V s h)
    refine ⟨i, (ListaSensor.eliminarMinimo s.historial).1, hi, ?_⟩
    rw [procesarLectura_con_varias s hs h]
    exact ⟨hnodos, htam, rfl, rfl⟩
  · intro V _ _ s hs h
    obtain ⟨i, hi, hmin, hpri, hnodos, htam⟩ :=
      ListaSensor.eliminarMinimo_orden s.historial (hne V s h)
    refine ⟨i, (ListaSensor.eliminarMinimo s.historial).1, hi, hmin, hpri, ?_⟩
    rw [procesarLectura_con_varias s hs h]
    exact ⟨hnodos, htam, rfl, rfl⟩
  · intro s hs h hn
    obtain ⟨i, hi, hmin, hpri, hnodos, htam⟩ :=
      ListaSensor.eliminarMinimo_sin_nan s.historial (hne _ s h) hn
    refine ⟨i, (ListaSensor.eliminarMinimo s.historial).1, hi, hmin, hpri, ?_⟩
    rw [procesarLectura_con_varias s hs h]
    exact ⟨hnodos, htam, rfl, rfl⟩

/-- C6, amended, on the readings `10.0, 5.0, 20.0`: the report is "minimum `5.0`
removed, mean of the rest `15.0`" and the history left is `10.0, 20.0`, in the
arithmetic of `float` and in exact arithmetic alike; and on the `float` readings
`nan, 1.0, 3.0`, where one reading goes. -/
theorem procesarLectura_temperatura_quita_minimo_witness :
    ((1 < termometroFlotante.historial.nodos.length ∧
        ∀ x ∈ termometroFlotante.historial.nodos, x ≠ Flotante.nan) ∧
      termometroFlotante.historial.nodos = [10, 5, 20] ∧
      procesarLectura termometroFlotante
        = (⟨"T-001".toList, ⟨[10, 20], 2⟩⟩, InformeTemperatura.minimoEliminado 5 15) ∧
      ∃ i w, termometroFlotante.historial.nodos[i]? = some w ∧
        (∀ x ∈ termometroFlotante.historial.nodos, w ≤ x) ∧
        (∀ j x, j < i → termometroFlotante.historial.nodos[j]? = some x → w < x) ∧
        (procesarLectura termometroFlotante).1.historial.nodos
          = termometroFlotante.historial.nodos.eraseIdx i ∧
        (procesarLectura termometroFlotante).1.historial.getTamanio
          = termometroFlotante.historial.getTamanio - 1 ∧
        (procesarLectura termometroFlotante).1.nombre = termometroFlotante.nombre ∧
        (procesarLectura termometroFlotante).2
          = InformeTemperatura.minimoEliminado w
              (procesarLectura termometroFlotante).1.historial.calcularPromedio) ∧
    (termometro.historial.nodos = [10, 5, 20] ∧
      procesarLectura termometro
        = (⟨"T-001".toList, ⟨[10, 20], 2⟩⟩, InformeTemperatura.minimoEliminado 5 15) ∧
      ∃ i w, termometro.historial.nodos[i]? = some w ∧
        (∀ x ∈ termometro.historial.nodos, w ≤ x) ∧
        (∀ j x, j < i → termometro.historial.nodos[j]? = some x → w < x) ∧
        (procesarLectura termometro).1.historial.nodos
          = termometro.historial.nodos.eraseIdx i ∧
        (procesarLectura termometro).1.historial.getTamanio
          = termometro.historial.getTamanio - 1 ∧
        (procesarLectura termometro).1.nombre = termometro.nombre ∧
        (procesarLectura termometro).2
          = InformeTemperatura.minimoEliminado w
              (procesarLectura termometro).1.historial.calcularPromedio) ∧
    (1 < termometroConNan.historial.nodos.length ∧
      ∃ i w, termometroConNan.historial.nodos[i]? = some w ∧
        (procesarLectura termometroConNan).1.historial.nodos
          = termometroConNan.historial.nodos.eraseIdx i ∧
        (procesarLectura termometroConNan).1.historial.getTamanio
          = termometroConNan.historial.getTamanio - 1 ∧
        (procesarLectura termometroConNan).1.nombre = termometroConNan.nombre ∧
        (procesarLectura termometroConNan).2
          = InformeTemperatura.minimoEliminado w
              (procesarLectura termometroConNan).1.historial.calcularPromedio) :=
  ⟨⟨⟨by decide, by decide!⟩, by decide!, by decide!,
      procesarLectura_temperatura_quita_minimo.2.2 termometroFlotante
        (Alcanzable.agregarLectura _ _ _
          (Alcanzable.agregarLectura _ _ _
            (Alcanzable.agregarLectura _ _ _ (Alcanzable.crear _))))
        (by decide) (by decide!)⟩,
    ⟨by decide, by decide!,
      procesarLectura_temperatura_quita_minimo.2.1 ℚ termometro
        (Alcanzable.agregarLectura _ _ _
          (Alcanzable.agregarLectura _ _ _
            (Alcanzable.agregarLectura _ _ _ (Alcanzable.crear _))))
        (by decide)⟩,
    ⟨by decide,
      procesarLectura_temperatura_quita_minimo.1 Flotante termometroConNan
        (Alcanzable.agregarLectura _ _ _
          (Alcanzable.agregarLectura _ _ _
            (Alcanzable.agregarLectura _ _ _ (Alcanzable.crear _))))
        (by decide)⟩⟩

/-- C7. A temperature sensor holding exactly one reading `a`: `procesarLectura`
reports `a` as the mean over one reading and changes nothing, so the history is
still `[a]`. -/
theorem procesarLectura_temperatura_una_lectura [Lectura F] [LecturaLegal F] [LT F]
    [DecidableRel (fun a b : F => a < b)]
    (s : SensorTemperatura F) (hs : Alcanzable s) (a : F) (h : s.historial.nodos = [a]) :
    procesarLectura s = (s, InformeTemperatura.unaLectura a) ∧
    (procesarLectura s).1.historial.nodos = [a] := by
  have hl := historial_alcanzable hs
  have ht := hl.cuenta
  rw [h] at ht
  simp only [List.length_singleton, Nat.cast_one] at ht
  have hprom := ListaSensor.calcularPromedio_un_nodo s.historial a h ht
  have hp : procesarLectura s = (s, InformeTemperatura.unaLectura a) := by
    unfold SensorTemperatura.procesarLectura
    simp [ListaSensor.estaVacia, ListaSensor.getTamanio, h, ht, hprom]
  rw [hp]
  exact ⟨rfl, h⟩

/-- C7 on a sensor whose only reading is `21.5`. -/
theorem procesarLectura_temperatura_una_lectura_witness :
    termometroUnaLectura.historial.nodos = [43 / 2] ∧
    procesarLectura termometroUnaLectura
      = (termometroUnaLectura, InformeTemperatura.unaLectura (43 / 2)) ∧
    (procesarLectura termometroUnaLectura).1.historial.nodos = [43 / 2] :=
  ⟨by decide!,
    procesarLectura_temperatura_una_lectura termometroUnaLectura
      (Alcanzable.agregarLectura _ _ _ (Alcanzable.crear _)) (43 / 2) (by decide!)⟩

end SensorTemperatura

namespace SensorPresion

/-- The history of a reachable pressure sensor is a reachable reading list. -/
theorem historial_presion_alcanzable {s : SensorPresion} (h : Alcanzable s) :
    ListaSensor.Alcanzable s.historial := by
  induction h with
  | crear nom => exact ListaSensor.Alcanzable.vacia
  | agregarLectura atoi s valor _ ih => exact ListaSensor.Alcanzable.insertar _ _ ih
  | procesarLectura s _ ih =>
    unfold SensorPresion.procesarLectura
    split
    · exact ih
    · exact ih

/-- C8. A pressure sensor with a non-empty history: `procesarLectura` changes nothing
(the history keeps its values, their order and its size) and reports
`calcularPromedio` of the whole history over the count `getTamanio()`, which is the
number of readings held; that mean is the `int` sum of all readings divided by their
number, truncated toward zero. -/
theorem procesarLectura_presion_no_quita (s : SensorPresion) (hs : Alcanzable s)
    (h : s.historial.nodos ≠ []) :
    procesarLectura s
      = (s, InformePresion.promedio s.historial.calcularPromedio s.historial.getTamanio) ∧
    s.historial.getTamanio = (s.historial.nodos.length : Int) ∧
    s.historial.calcularPromedio.val
      = (wrap32 (s.historial.nodos.map Int32.val).sum).tdiv
          (s.historial.nodos.length : Int) := by
  have ht := (historial_presion_alcanzable hs).cuenta
  refine ⟨?_, ht, ListaSensor.calcularPromedio_int s.historial ht h⟩
  have hvacia : s.historial.estaVacia = false := by
    simpa [ListaSensor.estaVacia] using h
  unfold SensorPresion.procesarLectura
  simp [hvacia]

/-- C8 on the readings `10, 20, 30`: the report is "mean `20` over `3` readings" and
the sensor, history included, is as before. -/
theorem procesarLectura_presion_no_quita_witness :
    barometro = ⟨"P-105".toList, ⟨[10, 20, 30], 3⟩⟩ ∧
    procesarLectura barometro
      = (⟨"P-105".toList, ⟨[10, 20, 30], 3⟩⟩, InformePresion.promedio 20 3) ∧
    procesarLectura barometro
      = (barometro,
          InformePresion.promedio barometro.historial.calcularPromedio
            barometro.historial.getTamanio) ∧
    barometro.historial.getTamanio = (barometro.historial.nodos.length : Int) ∧
    barometro.historial.calcularPromedio.val
      = (wrap32 (barometro.historial.nodos.map Int32.val).sum).tdiv
          (barometro.historial.nodos.length : Int) :=
  ⟨by decide, by decide,
    procesarLectura_presion_no_quita barometro
      (Alcanzable.agregarLectura _ _ _
        (Alcanzable.agregarLectura _ _ _
          (Alcanzable.agregarLectura _ _ _ (Alcanzable.crear _))))
      (by decide)⟩

end SensorPresion

/-! ## Properties of `ListaGestion` -/

namespace ListaGestion

theorem insertar_gestion_nodos (g : ListaGestion) (sensor : Dir) :
    (insertar g sensor).nodos = g.nodos ++ [sensor] := by
  unfold insertar
  cases h : g.nodos with
  | nil => rfl
  | cons c resto => simp [ListaSensor.enlazarAlFinal_eq]

theorem construir_eq (sensores : List Dir) :
    construir sensores = ⟨sensores, (sensores.length : Int)⟩ := by
  have h : ∀ (ps : List Dir) (g : ListaGestion),
      ps.foldl insertar g = ⟨g.nodos ++ ps, g.tamanio + (ps.length : Int)⟩ := by
    intro ps
    induction ps with
    | nil => intro g; simp
    | cons p ps ih =>
      intro g
      rw [List.foldl_cons, ih, insertar_gestion_nodos]
      have ht : (insertar g p).tamanio = g.tamanio + 1 := rfl
      rw [ht]
      simp only [List.append_assoc, List.singleton_append, List.length_cons, Nat.cast_add,
        Nat.cast_one, mk.injEq, true_and]
      omega
  simpa [vacia] using h sensores vacia

variable {F : Type}

/-- The search loop skips a stretch of sensors none of which has the name. -/
theorem buscarDesde_salta (mem : Memoria F) (antes resto : List Dir) (nombre : Cadena)
    (h : ∀ p ∈ antes, (mem p).getNombre ≠ nombre) :
    buscarDesde mem (antes ++ resto) nombre = buscarDesde mem resto nombre := by
  induction antes with
  | nil => rfl
  | cons p antes ih =>
    have hp : (mem p).getNombre ≠ nombre := h p (List.mem_cons_self _ _)
    rw [List.cons_append, buscarDesde, if_neg hp]
    exact ih (fun q hq => h q (List.mem_cons_of_mem _ hq))

/-- C9, as stated, fails when two inserted sensors have the same name: with the
sensors at addresses 1 and 2 both named `A` and inserted in that order, `buscar` on
the name of sensor 2 returns sensor 1 and not sensor 2. -/
theorem buscar_no_devuelve_homonimo_posterior :
    (2 : Dir) ∈ (construir [1, 2]).nodos ∧
    buscar memoriaHomonimos (construir [1, 2]) (memoriaHomonimos 2).getNombre = some 1 ∧
    buscar memoriaHomonimos (construir [1, 2]) (memoriaHomonimos 2).getNombre ≠ some 2 := by
  decide

/-- C9, amended. In a registry built by `insertar` calls, `buscar` on the name of an
inserted sensor `s` returns exactly `s` whenever no sensor inserted before `s` has
that name, hence for every inserted sensor when the names of the inserted sensors
are pairwise distinct; and `buscar` on a name that no inserted sensor has returns
`nullptr`. -/
theorem buscar_devuelve_insertado (mem : Memoria F) (sensores : List Dir) :
    (∀ antes s despues, sensores = antes ++ s :: despues →
      (∀ p ∈ antes, (mem p).getNombre ≠ (mem s).getNombre) →
      buscar mem (construir sensores) (mem s).getNombre = some s) ∧
    (sensores.Pairwise (fun p q => (mem p).getNombre ≠ (mem q).getNombre) →
      ∀ s ∈ sensores, buscar mem (construir sensores) (mem s).getNombre = some s) ∧
    (∀ nombre, (∀ p ∈ sensores, (mem p).getNombre ≠ nombre) →
      buscar mem (construir sensores) nombre = none) := by
  rw [construir_eq]
  have primero : ∀ antes s despues, sensores = antes ++ s :: despues →
      (∀ p ∈ antes, (mem p).getNombre ≠ (mem s).getNombre) →
      buscar mem ⟨sensores, (sensores.length : Int)⟩ (mem s).getNombre = some s := by
    intro antes s despues hs hantes
    unfold buscar
    simp only [hs]
    rw [buscarDesde_salta mem antes _ _ hantes, buscarDesde, if_pos rfl]
  refine ⟨primero, ?_, ?_⟩
  · intro hdist s hs
    obtain ⟨antes, despues, hsplit⟩ := List.append_of_mem hs
    rw [hsplit] at hdist
    have hcruz := (List.pairwise_append.mp hdist).2.2
    exact primero antes s despues hsplit
      (fun p hp => hcruz p hp s (List.mem_cons_self _ _))
  · intro nombre hn
    unfold buscar
    have h := buscarDesde_salta mem sensores [] nombre hn
    rw [List.append_nil] at h
    rw [h]
    rfl

/-- C9, amended, on the registry of `T-001` at address 1 and `P-105` at address 2:
`buscar` on the name of the sensor at address 2 returns it. -/
theorem buscar_devuelve_insertado_witness :
    (∀ p ∈ [(1 : Dir)], (memoriaDistintos p).getNombre ≠ (memoriaDistintos 2).getNombre) ∧
    buscar memoriaDistintos (construir [1, 2]) (memoriaDistintos 2).getNombre = some 2 :=
  ⟨by decide,
    (buscar_devuelve_insertado memoriaDistintos [1, 2]).1 [1] 2 [] rfl (by decide)⟩

end ListaGestion

/-! ## The size invariant of the reading list -/

namespace ListaSensor

variable {T : Type}

/-- C10. In every state reachable from the empty list through `insertar`,
`eliminarMinimo`, copy construction, assignment, `limpiar` and `copiar`, the counter
`tamanio` is the number of nodes of the chain; hence `estaVacia()` is true exactly
when `getTamanio()` is 0, the counter is never negative, and `eliminarMinimo` on an
empty list leaves the counter at 0 (and never makes it negative on any list). -/
theorem tamanio_cuenta_los_nodos [Lectura T] [LT T] [DecidableRel (fun a b : T => a < b)]
    (l : ListaSensor T) (h : Alcanzable l) :
    l.tamanio = (l.nodos.length : Int) ∧
    (estaVacia l = true ↔ getTamanio l = 0) ∧
    0 ≤ getTamanio l ∧
    (estaVacia l = true → getTamanio (eliminarMinimo l).2 = 0) ∧
    0 ≤ getTamanio (eliminarMinimo l).2 := by
  have ht := h.cuenta
  have ht2 := eliminarMinimo_cuenta l ht
  refine ⟨ht, ?_, ?_, ?_, ?_⟩
  · unfold estaVacia getTamanio
    rw [ht, List.isEmpty_iff]
    constructor
    · intro h0
      simp [h0]
    · intro h0
      exact List.length_eq_zero.mp (by exact_mod_cast h0)
  · unfold getTamanio
    omega
  · intro hv
    have hn : l.nodos = [] := by
      simpa [estaVacia] using hv
    have he : eliminarMinimo l = (Lectura.cero, l) := by
      unfold eliminarMinimo
      rw [hn]
    unfold getTamanio
    rw [he, ht, hn]
    rfl
  · unfold getTamanio
    omega

/-- C10 on an `int` list that went through insertion, copy, assignment and two
removals, and is empty: a third removal leaves the counter at 0. -/
theorem tamanio_cuenta_los_nodos_witness :
    listaTrasAsignar = ⟨[], 0⟩ ∧
    (eliminarMinimo listaTrasAsignar).2 = ⟨[], 0⟩ ∧
    listaTrasAsignar.tamanio = (listaTrasAsignar.nodos.length : Int) ∧
    (estaVacia listaTrasAsignar = true ↔ getTamanio listaTrasAsignar = 0) ∧
    0 ≤ getTamanio listaTrasAsignar ∧
    (estaVacia listaTrasAsignar = true →
      getTamanio (eliminarMinimo listaTrasAsignar).2 = 0) ∧
    0 ≤ getTamanio (eliminarMinimo listaTrasAsignar).2 :=
  ⟨by decide, by decide,
    tamanio_cuenta_los_nodos listaTrasAsignar
      (Alcanzable.eliminarMinimo _ (Alcanzable.eliminarMinimo _
        (Alcanzable.asignar _ _ (Alcanzable.insertar _ 1 Alcanzable.vacia)
          (fun o ho => by
            cases ho
            exact Alcanzable.copia _
              (Alcanzable.insertar _ 2 (Alcanzable.insertar _ 4 Alcanzable.vacia))))))⟩

end ListaSensor

/-! ## Processing every sensor of the registry -/

namespace ListaGestion

variable {F : Type}

theorem procesarDesde_orden [Lectura F] [LT F] [DecidableRel (fun a b : F => a < b)]
    (mem : Memoria F) (sensores : List Dir) :
    (procesarDesde mem sensores).2.map Prod.fst = sensores := by
  induction sensores generalizing mem with
  | nil => rfl
  | cons p resto ih => simp [procesarDesde, ih]

theorem procesarDesde_ajenos [Lectura F] [LT F] [DecidableRel (fun a b : F => a < b)]
    (mem : Memoria F) (sensores : List Dir) (p : Dir) (hp : p ∉ sensores) :
    (procesarDesde mem sensores).1 p = mem p := by
  induction sensores generalizing mem with
  | nil => rfl
  | cons q resto ih =>
    have hq : p ≠ q := fun h => hp (h ▸ List.mem_cons_self _ _)
    have hr : p ∉ resto := fun h => hp (List.mem_cons_of_mem _ h)
    simp only [procesarDesde]
    rw [ih _ hr, Function.update_noteq hq]

theorem procesarDesde_propios [Lectura F] [LT F] [DecidableRel (fun a b : F => a < b)]
    (mem : Memoria F) (sensores : List Dir) (hn : sensores.Nodup) (p : Dir)
    (hp : p ∈ sensores) :
    (procesarDesde mem sensores).1 p = (mem p).procesarLectura.1 ∧
    (p, (mem p).procesarLectura.2) ∈ (procesarDesde mem sensores).2 := by
  induction sensores generalizing mem with
  | nil => exact absurd hp (List.not_mem_nil _)
  | cons q resto ih =>
    have hq : q ∉ resto := (List.nodup_cons.mp hn).1
    have hr : resto.Nodup := (List.nodup_cons.mp hn).2
    simp only [procesarDesde]
    rcases List.mem_cons.mp hp with rfl | hpr
    · constructor
      · rw [procesarDesde_ajenos _ _ _ hq, Function.update_same]
      · exact List.mem_cons_self _ _
    · have hne : p ≠ q := fun h => hq (h ▸ hpr)
      have h := ih (Function.update mem q (mem q).procesarLectura.1) hr hpr
      rw [Function.update_noteq hne] at h
      exact ⟨h.1, List.mem_cons_of_mem _ h.2⟩

/-- C11. A registry built by inserting `s1 .. sN` holds them in that order with
`getTamanio()` equal to `N`, and `procesarTodos` calls `procesarLectura` on `s1`, then
`s2`, ..., then `sN`: the calls made, in order, are exactly the inserted handles, a
sensor not in the registry is left as it was, and when each handle was inserted once
each sensor ends in the state its own single `procesarLectura` gives, with its
report among the calls. -/
theorem procesarTodos_en_orden_de_insercion [Lectura F] [LT F]
    [DecidableRel (fun a b : F => a < b)] (mem : Memoria F) (sensores : List Dir) :
    (construir sensores).nodos = sensores ∧
    getTamanio (construir sensores) = (sensores.length : Int) ∧
    (procesarTodos mem (construir sensores)).2.map Prod.fst = sensores ∧
    (∀ p, p ∉ sensores → (procesarTodos mem (construir sensores)).1 p = mem p) ∧
    (sensores.Nodup → ∀ p ∈ sensores,
      (procesarTodos mem (construir sensores)).1 p = (mem p).procesarLectura.1 ∧
      (p, (mem p).procesarLectura.2) ∈ (procesarTodos mem (construir sensores)).2) := by
  rw [construir_eq]
  refine ⟨rfl, rfl, ?_, ?_, ?_⟩
  · exact procesarDesde_orden mem sensores
  · intro p hp
    exact procesarDesde_ajenos mem sensores p hp
  · intro hn p hp
    exact procesarDesde_propios mem sensores hn p hp

end ListaGestion

/-! ## Teardown of the registry -/

theorem ListaSensor.limpiarTraza_eq {T : Type} (nodos : List T) (i : Nat) :
    ListaSensor.limpiarTraza nodos i = List.range' i nodos.length := by
  induction nodos generalizing i with
  | nil => rfl
  | cons d resto ih => simp [ListaSensor.limpiarTraza, ih, List.range'_succ]

theorem Sensor.destruir_eq {F : Type} (dir : Dir) (s : Sensor F) :
    s.destruir dir
      = (List.range' 0 s.numLecturas).map (Liberacion.nodoLectura dir)
        ++ [Liberacion.sensor dir] := by
  cases s <;> simp [Sensor.destruir, Sensor.numLecturas, ListaSensor.limpiarTraza_eq]

theorem Sensor.mem_destruir {F : Type} (dir : Dir) (s : Sensor F) (e : Liberacion) :
    e ∈ s.destruir dir ↔
      e = Liberacion.sensor dir ∨
        ∃ k, k < s.numLecturas ∧ e = Liberacion.nodoLectura dir k := by
  rw [Sensor.destruir_eq]
  simp only [List.mem_append, List.mem_map, List.mem_range', List.mem_singleton]
  constructor
  · rintro (⟨k, ⟨i, hi, rfl⟩, rfl⟩ | h)
    · exact Or.inr ⟨0 + 1 * i, by omega, rfl⟩
    · exact Or.inl h
  · rintro (h | ⟨k, hk, rfl⟩)
    · exact Or.inr h
    · exact Or.inl ⟨k, ⟨k, hk, by omega⟩, rfl⟩

theorem Sensor.nodup_destruir {F : Type} (dir : Dir) (s : Sensor F) :
    (s.destruir dir).Nodup := by
  rw [Sensor.destruir_eq]
  refine List.nodup_append.mpr ⟨?_, List.nodup_singleton _, ?_⟩
  · refine (List.nodup_range' 0 s.numLecturas).map ?_
    intro a b h
    cases h
    rfl
  · intro e he he2
    simp only [List.mem_map, List.mem_singleton] at he he2
    obtain ⟨k, _, rfl⟩ := he
    cases he2

namespace ListaGestion

variable {F : Type}

theorem mem_destruirDesde (mem : Memoria F) (sensores : List Dir) (i : Nat)
    (e : Liberacion) :
    e ∈ destruirDesde mem sensores i ↔
      (∃ p ∈ sensores, e = Liberacion.sensor p ∨
        ∃ k, k < (mem p).numLecturas ∧ e = Liberacion.nodoLectura p k) ∨
      ∃ j, i ≤ j ∧ j < i + sensores.length ∧ e = Liberacion.nodoGestion j := by
  induction sensores generalizing i with
  | nil =>
    simp only [destruirDesde, List.not_mem_nil, false_and, exists_false, List.length_nil,
      false_or, false_iff, not_exists, not_and]
    intro j h1 h2
    omega
  | cons p resto ih =>
    simp only [destruirDesde, List.mem_append, List.mem_cons, Sensor.mem_destruir, ih,
      List.length_cons]
    constructor
    · rintro (h | rfl | ⟨q, hq, h⟩ | ⟨j, h1, h2, rfl⟩)
      · exact Or.inl ⟨p, Or.inl rfl, h⟩
      · exact Or.inr ⟨i, le_refl _, by omega, rfl⟩
      · exact Or.inl ⟨q, Or.inr hq, h⟩
      · exact Or.inr ⟨j, by omega, by omega, rfl⟩
    · rintro (⟨q, rfl | hq, h⟩ | ⟨j, h1, h2, rfl⟩)
      · exact Or.inl h
      · exact Or.inr (Or.inr (Or.inl ⟨q, hq, h⟩))
      · rcases Nat.eq_or_lt_of_le h1 with rfl | hlt
        · exact Or.inr (Or.inl rfl)
        · exact Or.inr (Or.inr (Or.inr ⟨j, by omega, by omega, rfl⟩))

theorem nodup_destruirDesde (mem : Memoria F) (sensores : List Dir) (i : Nat)
    (hn : sensores.Nodup) : (destruirDesde mem sensores i).Nodup := by
  induction sensores generalizing i with
  | nil => simp [destruirDesde]
  | cons p resto ih =>
    have hp : p ∉ resto := (List.nodup_cons.mp hn).1
    have hr : resto.Nodup := (List.nodup_cons.mp hn).2
    simp only [destruirDesde]
    refine List.nodup_append.mpr ⟨Sensor.nodup_destruir p (mem p), ?_, ?_⟩
    · refine List.nodup_cons.mpr ⟨?_, ih (i + 1) hr⟩
      rw [mem_destruirDesde]
      rintro (⟨q, _, h | ⟨k, _, h⟩⟩ | ⟨j, h1, _, h⟩)
      · cases h
      · cases h
      · cases h
        omega
    · intro e he he2
      rw [Sensor.mem_destruir] at he
      rcases List.mem_cons.mp he2 with rfl | he2
      · rcases he with h | ⟨k, _, h⟩ <;> cases h
      · rw [mem_destruirDesde] at he2
        rcases he with rfl | ⟨k, _, rfl⟩
        · rcases he2 with ⟨q, hq, h | ⟨k, _, h⟩⟩ | ⟨j, _, _, h⟩
          · cases h
            exact hp hq
          · cases h
          · cases h
        · rcases he2 with ⟨q, hq, h | ⟨k2, _, h⟩⟩ | ⟨j, _, _, h⟩
          · cases h
          · cases h
            exact hp hq
          · cases h

theorem sensores_destruirDesde (mem : Memoria F) (sensores : List Dir) (i : Nat) :
    (destruirDesde mem sensores i).filterMap Liberacion.sensorLiberado = sensores := by
  induction sensores generalizing i with
  | nil => rfl
  | cons p resto ih =>
    have h : (Sensor.destruir p (mem p)).filterMap Liberacion.sensorLiberado = [p] := by
      rw [Sensor.destruir_eq, List.filterMap_append, List.filterMap_map]
      have h0 : ∀ l : List Nat,
          l.filterMap (Liberacion.sensorLiberado ∘ Liberacion.nodoLectura p) = [] := by
        intro l
        induction l with
        | nil => rfl
        | cons a l ihl => simp [List.filterMap_cons, Liberacion.sensorLiberado]
      rw [h0]
      rfl
    simp only [destruirDesde, List.filterMap_append, h, List.filterMap_cons,
      Liberacion.sensorLiberado, ih]
    rfl

end ListaGestion

namespace ListaGestion

variable {F : Type}

/-- C11 on the registry of `T-001` (readings `10, 5, 20`) and `P-105` (readings
`10, 20, 30`): the calls are made on address 1 and then on address 2. -/
theorem procesarTodos_en_orden_de_insercion_witness :
    [(1 : Dir), 2].Nodup ∧
    (procesarTodos memoriaDistintos (construir [1, 2])).2
      = [(1, Informe.temperatura (InformeTemperatura.minimoEliminado 5 15)),
         (2, Informe.presion (InformePresion.promedio 20 3))] ∧
    (procesarTodos memoriaDistintos (construir [1, 2])).2.map Prod.fst = [1, 2] ∧
    (procesarTodos memoriaDistintos (construir [1, 2])).1 2
      = (memoriaDistintos 2).procesarLectura.1 ∧
    (2, (memoriaDistintos 2).procesarLectura.2)
      ∈ (procesarTodos memoriaDistintos (construir [1, 2])).2 :=
  ⟨by decide, by decide!,
    (procesarTodos_en_orden_de_insercion memoriaDistintos [1, 2]).2.2.1,
    (procesarTodos_en_orden_de_insercion memoriaDistintos [1, 2]).2.2.2.2
      (by decide) 2 (by decide)⟩

/-- C12. Tearing down a registry into which each handle was inserted once: the loop
ends with `cabeza == nullptr`; the sensor objects released are exactly the inserted
ones, in insertion order; nothing is released twice; every node of the reading list
of every held sensor and every node of the registry list is released; and no reading
node other than those of the held sensors is released. -/
theorem destruir_libera_todo_una_vez (mem : Memoria F) (sensores : List Dir)
    (hn : sensores.Nodup) :
    estaVacia (destruir mem (construir sensores)).1 = true ∧
    (destruir mem (construir sensores)).2.filterMap Liberacion.sensorLiberado = sensores ∧
    (destruir mem (construir sensores)).2.Nodup ∧
    (∀ p ∈ sensores, ∀ k, k < (mem p).numLecturas →
      Liberacion.nodoLectura p k ∈ (destruir mem (construir sensores)).2) ∧
    (∀ j, j < sensores.length →
      Liberacion.nodoGestion j ∈ (destruir mem (construir sensores)).2) ∧
    (∀ p k, Liberacion.nodoLectura p k ∈ (destruir mem (construir sensores)).2 →
      p ∈ sensores ∧ k < (mem p).numLecturas) := by
  rw [construir_eq]
  simp only [destruir]
  refine ⟨rfl, sensores_destruirDesde mem sensores 0, nodup_destruirDesde mem sensores 0 hn,
    ?_, ?_, ?_⟩
  · intro p hp k hk
    rw [mem_destruirDesde]
    exact Or.inl ⟨p, hp, Or.inr ⟨k, hk, rfl⟩⟩
  · intro j hj
    rw [mem_destruirDesde]
    exact Or.inr ⟨j, Nat.zero_le _, by omega, rfl⟩
  · intro p k h
    rw [mem_destruirDesde] at h
    rcases h with ⟨q, hq, h | ⟨k2, hk2, h⟩⟩ | ⟨j, _, _, h⟩
    · cases h
    · cases h
      exact ⟨hq, hk2⟩
    · cases h

/-- C12 on the registry of `T-001` (3 readings) and `P-105` (3 readings): the
releases, in order. -/
theorem destruir_libera_todo_una_vez_witness :
    [(1 : Dir), 2].Nodup ∧
    (destruir memoriaDistintos (construir [1, 2])).2
      = [Liberacion.nodoLectura 1 0, Liberacion.nodoLectura 1 1, Liberacion.nodoLectura 1 2,
         Liberacion.sensor 1, Liberacion.nodoGestion 0,
         Liberacion.nodoLectura 2 0, Liberacion.nodoLectura 2 1, Liberacion.nodoLectura 2 2,
         Liberacion.sensor 2, Liberacion.nodoGestion 1] ∧
    estaVacia (destruir memoriaDistintos (construir [1, 2])).1 = true ∧
    (destruir memoriaDistintos (construir [1, 2])).2.filterMap Liberacion.sensorLiberado
      = [1, 2] ∧
    (destruir memoriaDistintos (construir [1, 2])).2.Nodup :=
  ⟨by decide, by decide,
    (destruir_libera_todo_una_vez memoriaDistintos [1, 2] (by decide)).1,
    (destruir_libera_todo_una_vez memoriaDistintos [1, 2] (by decide)).2.1,
    (destruir_libera_todo_una_vez memoriaDistintos [1, 2] (by decide)).2.2.1⟩

end ListaGestion

/-! ## The controller loop -/

theorem ListaGestion.buscarDesde_encuentra {F : Type} (mem : Memoria F) (sensores : List Dir)
    (nombre : Cadena) (h : ∃ p ∈ sensores, (mem p).getNombre = nombre) :
    ∃ s ∈ sensores, ListaGestion.buscarDesde mem sensores nombre = some s ∧
      (mem s).getNombre = nombre := by
  induction sensores with
  | nil =>
    obtain ⟨p, hp, _⟩ := h
    exact absurd hp (List.not_mem_nil _)
  | cons q resto ih =>
    by_cases hq : (mem q).getNombre = nombre
    · exact ⟨q, List.mem_cons_self _ _, by simp [ListaGestion.buscarDesde, hq], hq⟩
    · have hr : ∃ p ∈ resto, (mem p).getNombre = nombre := by
        obtain ⟨p, hp, hpn⟩ := h
        rcases List.mem_cons.mp hp with rfl | hp
        · exact absurd hpn hq
        · exact ⟨p, hp, hpn⟩
      obtain ⟨s, hs, hb, hsn⟩ := ih hr
      exact ⟨s, List.mem_cons_of_mem _ hs, by simp [ListaGestion.buscarDesde, hq, hb], hsn⟩

theorem Sensor.numLecturas_agregarLectura {F : Type} (atof : Cadena → F)
    (atoi : Cadena → Int32) (s : Sensor F) (valor : Cadena) :
    (s.agregarLectura atof atoi valor).numLecturas = s.numLecturas + 1 := by
  cases s <;>
    simp [Sensor.agregarLectura, Sensor.numLecturas, SensorTemperatura.agregarLectura,
      SensorPresion.agregarLectura, ListaSensor.insertar_nodos]

/-- C14. Menu option 4.  With a name that no sensor of the registry has, nothing is
changed: the memory and the registry are as before.  With a name that some sensor of
the registry has, `buscar` returns a sensor `s` of the registry with that name,
`agregarLectura(valor)` is applied to `s`, whose history grows by exactly one
reading, every other sensor is as before, and the registry is as before. -/
theorem registrarLecturaManual_solo_cambia_el_encontrado {F : Type}
    (atof : Cadena → F) (atoi : Cadena → Int32) (mem : Memoria F) (g : ListaGestion)
    (nombre valor : Cadena) :
    ((∀ p ∈ g.nodos, (mem p).getNombre ≠ nombre) →
      registrarLecturaManual atof atoi mem g nombre valor = (mem, g, false)) ∧
    ((∃ p ∈ g.nodos, (mem p).getNombre = nombre) →
      ∃ s ∈ g.nodos, g.buscar mem nombre = some s ∧ (mem s).getNombre = nombre ∧
        (registrarLecturaManual atof atoi mem g nombre valor).2 = (g, true) ∧
        (registrarLecturaManual atof atoi mem g nombre valor).1 s
          = (mem s).agregarLectura atof atoi valor ∧
        ((registrarLecturaManual atof atoi mem g nombre valor).1 s).numLecturas
          = (mem s).numLecturas + 1 ∧
        ∀ q, q ≠ s → (registrarLecturaManual atof atoi mem g nombre valor).1 q = mem q) := by
  constructor
  · intro h
    have hb : g.buscar mem nombre = none := by
      have := ListaGestion.buscarDesde_salta mem g.nodos [] nombre h
      rw [List.append_nil] at this
      exact this
    simp [registrarLecturaManual, hb]
  · intro h
    obtain ⟨s, hs, hb, hsn⟩ := ListaGestion.buscarDesde_encuentra mem g.nodos nombre h
    have hb2 : g.buscar mem nombre = some s := hb
    refine ⟨s, hs, hb2, hsn, ?_⟩
    simp only [registrarLecturaManual, hb2, Function.update_same, true_and]
    refine ⟨Sensor.numLecturas_agregarLectura atof atoi (mem s) valor, ?_⟩
    intro q hq
    exact Function.update_noteq hq _ _

/-- C14 on the registry of `T-001` and `P-105`: the name `X-9` changes nothing; the
name `P-105` with the text `30` gives the pressure sensor a fourth reading and leaves
the temperature sensor alone. -/
theorem registrarLecturaManual_solo_cambia_el_encontrado_witness :
    (∀ p ∈ (ListaGestion.construir [1, 2]).nodos,
      (memoriaDistintos p).getNombre ≠ "X-9".toList) ∧
    registrarLecturaManual atofEjemplo atoiEjemplo memoriaDistintos
        (ListaGestion.construir [1, 2]) "X-9".toList "30".toList
      = (memoriaDistintos, ListaGestion.construir [1, 2], false) ∧
    (∃ p ∈ (ListaGestion.construir [1, 2]).nodos,
      (memoriaDistintos p).getNombre = "P-105".toList) ∧
    ∃ s ∈ (ListaGestion.construir [1, 2]).nodos,
      (ListaGestion.construir [1, 2]).buscar memoriaDistintos "P-105".toList = some s ∧
      (memoriaDistintos s).getNombre = "P-105".toList ∧
      (registrarLecturaManual atofEjemplo atoiEjemplo memoriaDistintos
        (ListaGestion.construir [1, 2]) "P-105".toList "30".toList).2
        = (ListaGestion.construir [1, 2], true) ∧
      (registrarLecturaManual atofEjemplo atoiEjemplo memoriaDistintos
        (ListaGestion.construir [1, 2]) "P-105".toList "30".toList).1 s
        = (memoriaDistintos s).agregarLectura atofEjemplo atoiEjemplo "30".toList ∧
      ((registrarLecturaManual atofEjemplo atoiEjemplo memoriaDistintos
        (ListaGestion.construir [1, 2]) "P-105".toList "30".toList).1 s).numLecturas
        = (memoriaDistintos s).numLecturas + 1 ∧
      ∀ q, q ≠ s →
        (registrarLecturaManual atofEjemplo atoiEjemplo memoriaDistintos
          (ListaGestion.construir [1, 2]) "P-105".toList "30".toList).1 q
          = memoriaDistintos q :=
  ⟨by decide,
    (registrarLecturaManual_solo_cambia_el_encontrado atofEjemplo atoiEjemplo
      memoriaDistintos (ListaGestion.construir [1, 2]) "X-9".toList "30".toList).1
      (by decide),
    by decide,
    (registrarLecturaManual_solo_cambia_el_encontrado atofEjemplo atoiEjemplo
      memoriaDistintos (ListaGestion.construir [1, 2]) "P-105".toList "30".toList).2
      (by decide)⟩

/-- C15. `agregarLectura` rejects no text.  Whatever the conversion returns for the
text, both sensor kinds append exactly that one value after the readings they hold,
which stay as they are; the count grows by 1 and the name is kept.  With the
conversion of the specification, a text whose conversion fails appends zero. -/
theorem agregarLectura_acepta_todo_texto {F : Type} [Lectura F] :
    (∀ (atof : Cadena → F) (s : SensorTemperatura F) (valor : Cadena),
      (s.agregarLectura atof valor).historial.nodos = s.historial.nodos ++ [atof valor] ∧
      (s.agregarLectura atof valor).historial.getTamanio = s.historial.getTamanio + 1 ∧
      (s.agregarLectura atof valor).getNombre = s.getNombre) ∧
    (∀ (atoi : Cadena → Int32) (s : SensorPresion) (valor : Cadena),
      (s.agregarLectura atoi valor).historial.nodos = s.historial.nodos ++ [atoi valor] ∧
      (s.agregarLectura atoi valor).historial.getTamanio = s.historial.getTamanio + 1 ∧
      (s.agregarLectura atoi valor).getNombre = s.getNombre) ∧
    (∀ (reconocer : Cadena → Option F) (s : SensorTemperatura F) (valor : Cadena),
      reconocer valor = none →
      (s.agregarLectura (convertir reconocer) valor).historial.nodos
        = s.historial.nodos ++ [Lectura.cero]) ∧
    (∀ (reconocer : Cadena → Option Int32) (s : SensorPresion) (valor : Cadena),
      reconocer valor = none →
      (s.agregarLectura (convertir reconocer) valor).historial.nodos
        = s.historial.nodos ++ [0]) := by
  refine ⟨?_, ?_, ?_, ?_⟩
  · intro atof s valor
    exact ⟨ListaSensor.insertar_nodos _ _, rfl, rfl⟩
  · intro atoi s valor
    exact ⟨ListaSensor.insertar_nodos _ _, rfl, rfl⟩
  · intro reconocer s valor h
    simp [SensorTemperatura.agregarLectura, ListaSensor.insertar_nodos, convertir, h]
  · intro reconocer s valor h
    simp only [SensorPresion.agregarLectura, ListaSensor.insertar_nodos, convertir, h,
      Option.getD_none]
    rfl

/-- C15 on the pressure sensor `P-105` and the text `abc`, which a conversion of
digit strings does not accept: the reading `0` is appended. -/
theorem agregarLectura_acepta_todo_texto_witness :
    reconocerDigitos "abc".toList = none ∧
    (barometro.agregarLectura (convertir reconocerDigitos) "abc".toList).historial
      = ⟨[10, 20, 30, 0], 4⟩ ∧
    (barometro.agregarLectura (convertir reconocerDigitos) "abc".toList).historial.nodos
      = barometro.historial.nodos ++ [0] :=
  ⟨by decide, by decide,
    (@agregarLectura_acepta_todo_texto ℚ _).2.2.2 reconocerDigitos barometro
      "abc".toList (by decide)⟩

theorem esFloat_iff (valor : Cadena) : esFloat valor = true ↔ '.' ∈ valor := by
  induction valor with
  | nil => simp [esFloat]
  | cons c resto ih =>
    unfold esFloat
    by_cases hc : c = '.'
    · simp [hc]
    · have hc2 : ¬ '.' = c := fun h => hc h.symm
      simp [hc, hc2, ih]

/-- C17. `esFloat(valor)` is true exactly when the text contains a `.`; and this
decides where a received line goes: with a `.` it is added to the sensor `sensorTemp`
points to, without one to the sensor `sensorPres` points to, no other sensor being
touched. -/
theorem esFloat_decide_por_el_punto {F : Type} (atof : Cadena → F) (atoi : Cadena → Int32)
    (mem : Memoria F) (valor : Cadena) :
    (esFloat valor = true ↔ '.' ∈ valor) ∧
    ('.' ∈ valor → ∀ t sensorPres,
      recibirValor atof atoi mem (some t) sensorPres valor
        = Function.update mem t ((mem t).agregarLectura atof atoi valor)) ∧
    ('.' ∉ valor → ∀ sensorTemp p,
      recibirValor atof atoi mem sensorTemp (some p) valor
        = Function.update mem p ((mem p).agregarLectura atof atoi valor)) := by
  refine ⟨esFloat_iff valor, ?_, ?_⟩
  · intro h t sensorPres
    simp [recibirValor, (esFloat_iff valor).mpr h]
  · intro h sensorTemp p
    have hf : esFloat valor = false := by
      cases hv : esFloat valor with
      | false => rfl
      | true => exact absurd ((esFloat_iff valor).mp hv) h
    simp [recibirValor, hf]

/-- C17 on the texts `21.5` and `30`. -/
theorem esFloat_decide_por_el_punto_witness :
    esFloat "21.5".toList = true ∧ esFloat "30".toList = false ∧
    recibirValor atofEjemplo atoiEjemplo memoriaDistintos (some 1) (some 2) "21.5".toList
      = Function.update memoriaDistintos 1
          ((memoriaDistintos 1).agregarLectura atofEjemplo atoiEjemplo "21.5".toList) ∧
    recibirValor atofEjemplo atoiEjemplo memoriaDistintos (some 1) (some 2) "30".toList
      = Function.update memoriaDistintos 2
          ((memoriaDistintos 2).agregarLectura atofEjemplo atoiEjemplo "30".toList) :=
  ⟨by decide, by decide,
    (esFloat_decide_por_el_punto atofEjemplo atoiEjemplo memoriaDistintos
      "21.5".toList).2.1 (by decide) 1 (some 2),
    (esFloat_decide_por_el_punto atofEjemplo atoiEjemplo memoriaDistintos
      "30".toList).2.2 (by decide) (some 1) 2⟩

/-! ## Reading a line from the serial port -/

namespace SerialPort

theorem leerDesde_almacena (maxLen : Int) (c : Char) (resto : List Char) (pos : Nat)
    (escrituras : List (Nat × Char)) (h : (pos : Int) < maxLen - 1) (hc : c ≠ '\n')
    (hcr : c ≠ '\r') :
    leerDesde maxLen (c :: resto) pos escrituras
      = leerDesde maxLen resto (pos + 1) (escrituras ++ [(pos, c)]) := by
  simp [leerDesde, h, hc, hcr]

theorem leerDesde_retorno (maxLen : Int) (resto : List Char) (pos : Nat)
    (escrituras : List (Nat × Char)) (h : (pos : Int) < maxLen - 1) :
    leerDesde maxLen ('\r' :: resto) pos escrituras
      = leerDesde maxLen resto pos escrituras := by
  simp [leerDesde, h]

/-- A newline met while fewer than `cap = maxLen - 1` bytes are stored ends the
loop with `true`. -/
theorem leerDesde_salto (cap : Nat) (pre post : List Char) (pos : Nat)
    (escrituras : List (Nat × Char)) (hpre : '\n' ∉ pre)
    (hcap : pos + (sinRetornos pre).length < cap) :
    leerDesde ((cap : Int) + 1) (pre ++ '\n' :: post) pos escrituras
      = some (true,
          escrituras ++ (sinRetornos pre).enumFrom pos
            ++ [(pos + (sinRetornos pre).length, '\x00')],
          post) := by
  induction pre generalizing pos escrituras with
  | nil =>
    have hlt : pos < cap := by
      simpa [sinRetornos] using hcap
    simp [leerDesde, hlt, sinRetornos]
  | cons c resto ih =>
    have hc : c ≠ '\n' := fun h => hpre (h ▸ List.mem_cons_self _ _)
    have hr : '\n' ∉ resto := fun h => hpre (List.mem_cons_of_mem _ h)
    by_cases hcr : c = '\r'
    · subst hcr
      have hs : sinRetornos ('\r' :: resto) = sinRetornos resto := by
        simp [sinRetornos]
      rw [hs] at hcap ⊢
      have h : (pos : Int) < (cap : Int) + 1 - 1 := by omega
      rw [List.cons_append, leerDesde_retorno _ _ _ _ h]
      exact ih pos escrituras hr hcap
    · have hs : sinRetornos (c :: resto) = c :: sinRetornos resto := by
        simp [sinRetornos, hcr]
      rw [hs] at hcap ⊢
      simp only [List.length_cons] at hcap
      have h : (pos : Int) < (cap : Int) + 1 - 1 := by omega
      rw [List.cons_append, leerDesde_almacena _ _ _ _ _ h hc hcr,
        ih (pos + 1) (escrituras ++ [(pos, c)]) hr (by omega)]
      have e : pos + 1 + (sinRetornos resto).length
          = pos + ((sinRetornos resto).length + 1) := by omega
      simp [List.enumFrom_cons, e]

/-- Once `cap = maxLen - 1` bytes are stored with no newline met, the loop ends with
`false`. -/
theorem leerDesde_agotado (cap : Nat) (pre post : List Char) (pos : Nat)
    (escrituras : List (Nat × Char)) (hpre : '\n' ∉ pre) (hpos : pos ≤ cap)
    (hcap : cap ≤ pos + (sinRetornos pre).length) :
    ∃ resto, leerDesde ((cap : Int) + 1) (pre ++ post) pos escrituras
      = some (false,
          escrituras ++ ((sinRetornos pre).take (cap - pos)).enumFrom pos
            ++ [(cap, '\x00')],
          resto) := by
  induction pre generalizing pos escrituras with
  | nil =>
    have hp : pos = cap := by
      simp only [sinRetornos, List.filter_nil, List.length_nil] at hcap
      omega
    subst hp
    have h : ¬ ((pos : Int) < (pos : Int) + 1 - 1) := by omega
    cases post with
    | nil => exact ⟨[], by simp [leerDesde, h, sinRetornos]⟩
    | cons d post => exact ⟨d :: post, by simp [leerDesde, h, sinRetornos]⟩
  | cons c resto ih =>
    have hc : c ≠ '\n' := fun h => hpre (h ▸ List.mem_cons_self _ _)
    have hr : '\n' ∉ resto := fun h => hpre (List.mem_cons_of_mem _ h)
    by_cases hlt : pos < cap
    · have h : (pos : Int) < (cap : Int) + 1 - 1 := by omega
      by_cases hcr : c = '\r'
      · subst hcr
        have hs : sinRetornos ('\r' :: resto) = sinRetornos resto := by
          simp [sinRetornos]
        rw [hs] at hcap ⊢
        obtain ⟨r, hr2⟩ := ih pos escrituras hr hpos hcap
        refine ⟨r, ?_⟩
        rw [List.cons_append, leerDesde_retorno _ _ _ _ h]
        exact hr2
      · have hs : sinRetornos (c :: resto) = c :: sinRetornos resto := by
          simp [sinRetornos, hcr]
        rw [hs] at hcap ⊢
        simp only [List.length_cons] at hcap
        obtain ⟨r, hr2⟩ := ih (pos + 1) (escrituras ++ [(pos, c)]) hr (by omega) (by omega)
        refine ⟨r, ?_⟩
        rw [List.cons_append, leerDesde_almacena _ _ _ _ _ h hc hcr, hr2]
        have hk : cap - pos = (cap - (pos + 1)) + 1 := by omega
        rw [hk]
        simp only [List.take_succ_cons, List.enumFrom_cons, List.append_assoc,
          List.singleton_append]
    · have hp : pos = cap := by omega
      subst hp
      have h : ¬ ((pos : Int) < (pos : Int) + 1 - 1) := by omega
      exact ⟨c :: (resto ++ post), by simp [leerDesde, h]⟩

/-- No write of the loop goes past index `cap = maxLen - 1`. -/
theorem leerDesde_indices (cap : Nat) (entrada : List Char) (pos : Nat)
    (escrituras : List (Nat × Char)) (hpos : pos ≤ cap)
    (hesc : ∀ w ∈ escrituras, w.1 ≤ cap)
    (r : Bool × List (Nat × Char) × List Char)
    (hr : leerDesde ((cap : Int) + 1) entrada pos escrituras = some r) :
    ∀ w ∈ r.2.1, w.1 ≤ cap := by
  have hfin : ∀ w ∈ escrituras ++ [(pos, '\x00')], w.1 ≤ cap := by
    intro w hw
    rcases List.mem_append.mp hw with hw | hw
    · exact hesc w hw
    · rw [List.mem_singleton.mp hw]
      exact hpos
  induction entrada generalizing pos escrituras with
  | nil =>
    unfold leerDesde at hr
    split at hr
    · cases hr
    · cases hr
      exact hfin
  | cons c resto ih =>
    unfold leerDesde at hr
    split at hr
    · rename_i hlt
      split at hr
      · cases hr
        exact hfin
      · split at hr
        · refine ih (pos + 1) (escrituras ++ [(pos, c)]) (by omega) ?_ hr ?_
          · intro w hw
            rcases List.mem_append.mp hw with hw | hw
            · exact hesc w hw
            · rw [List.mem_singleton.mp hw]
              exact hpos
          · intro w hw
            rcases List.mem_append.mp hw with hw | hw
            · rcases List.mem_append.mp hw with hw | hw
              · exact hesc w hw
              · rw [List.mem_singleton.mp hw]
                exact hpos
            · rw [List.mem_singleton.mp hw]
              show pos + 1 ≤ cap
              omega
        · exact ih pos escrituras hpos hesc hr hfin
    · cases hr
      exact hfin

end SerialPort

namespace SerialPort

/-- C16. `leerLinea` on a connected port with `maxLen >= 1`, over the bytes that
arrive.  If a newline arrives after bytes `pre` of which fewer than `maxLen - 1` are
not carriage returns, the result is `true` and the writes to the buffer are exactly
the bytes of `pre` without the carriage returns at the indices `0, 1, ...`, then a
NUL.  If `maxLen - 1` bytes other than carriage returns arrive with no newline
before them, the result is `false` and the writes are the first `maxLen - 1` of
those bytes at the indices `0, 1, ...`, then a NUL at index `maxLen - 1`.  Whatever
arrives, no write has an index above `maxLen - 1`. -/
theorem leerLinea_hasta_salto_o_agotamiento (maxLen : Int) (h : 1 ≤ maxLen)
    (pre post : List Char) (hpre : '\n' ∉ pre) :
    (((sinRetornos pre).length : Int) < maxLen - 1 →
      leerLinea true maxLen (pre ++ '\n' :: post)
        = some (true,
            (sinRetornos pre).enum ++ [((sinRetornos pre).length, '\x00')], post)) ∧
    (maxLen - 1 ≤ ((sinRetornos pre).length : Int) →
      ∃ resto, leerLinea true maxLen (pre ++ post)
        = some (false,
            ((sinRetornos pre).take (maxLen - 1).toNat).enum
              ++ [((maxLen - 1).toNat, '\x00')], resto)) ∧
    (∀ entrada r, leerLinea true maxLen entrada = some r →
      ∀ w ∈ r.2.1, (w.1 : Int) ≤ maxLen - 1) := by
  obtain ⟨cap, hcap⟩ : ∃ cap : Nat, maxLen = (cap : Int) + 1 :=
    ⟨(maxLen - 1).toNat, by omega⟩
  subst hcap
  have hc : ((cap : Int) + 1 - 1).toNat = cap := by omega
  rw [hc]
  refine ⟨?_, ?_, ?_⟩
  · intro hlt
    have h2 := leerDesde_salto cap pre post 0 [] hpre (by omega)
    simpa [leerLinea, List.enum] using h2
  · intro hge
    obtain ⟨resto, h2⟩ := leerDesde_agotado cap pre post 0 [] hpre (Nat.zero_le _) (by omega)
    exact ⟨resto, by simpa [leerLinea, List.enum] using h2⟩
  · intro entrada r hr w hw
    have h2 := leerDesde_indices cap entrada 0 [] (Nat.zero_le _)
      (fun w hw => absurd hw (List.not_mem_nil _)) r (by simpa [leerLinea] using hr) w hw
    omega

/-- C16 with `maxLen = 8` on the bytes `21.5\r\n30\r\n`: the line `21.5` is stored
and terminated at index 4, and `30\r\n` is left for the next call.  With
`maxLen = 4` on the bytes `12345\n` the buffer is used up after `123`. -/
theorem leerLinea_hasta_salto_o_agotamiento_witness :
    ((1 : Int) ≤ 8 ∧ '\n' ∉ "21.5\r".toList ∧
      ((sinRetornos "21.5\r".toList).length : Int) < 8 - 1) ∧
    leerLinea true 4 "12345\n".toList
      = some (false, [(0, '1'), (1, '2'), (2, '3'), (3, '\x00')], "45\n".toList) ∧
    leerLinea true 8 ("21.5\r".toList ++ '\n' :: "30\r\n".toList)
      = some (true, [(0, '2'), (1, '1'), (2, '.'), (3, '5'), (4, '\x00')],
          "30\r\n".toList) ∧
    leerLinea true 8 ("21.5\r".toList ++ '\n' :: "30\r\n".toList)
      = some (true,
          (sinRetornos "21.5\r".toList).enum
            ++ [((sinRetornos "21.5\r".toList).length, '\x00')],
          "30\r\n".toList) :=
  ⟨by decide, by decide, by decide,
    (leerLinea_hasta_salto_o_agotamiento 8 (by decide) "21.5\r".toList "30\r\n".toList
      (by decide)).1 (by decide)⟩

end SerialPort

/-! ## The integer mean lies between the extreme readings -/

/-- A non-empty list over a total order has a least and a greatest element. -/
theorem existe_minimo_y_maximo {T : Type} [LinearOrder T] (xs : List T) (h : xs ≠ []) :
    ∃ mn ∈ xs, ∃ mx ∈ xs, ∀ x ∈ xs, mn ≤ x ∧ x ≤ mx := by
  induction xs with
  | nil => exact absurd rfl h
  | cons a resto ih =>
    by_cases hr : resto = []
    · subst hr
      refine ⟨a, List.mem_singleton_self a, a, List.mem_singleton_self a, ?_⟩
      intro x hx
      rw [List.mem_singleton.mp hx]
      exact ⟨le_refl _, le_refl _⟩
    · obtain ⟨mn, hmn, mx, hmx, hall⟩ := ih hr
      have hmin : ∃ m ∈ a :: resto, ∀ x ∈ a :: resto, m ≤ x := by
        rcases le_total a mn with h1 | h1
        · refine ⟨a, List.mem_cons_self _ _, ?_⟩
          intro x hx
          rcases List.mem_cons.mp hx with rfl | hx
          · exact le_refl _
          · exact le_trans h1 (hall x hx).1
        · refine ⟨mn, List.mem_cons_of_mem _ hmn, ?_⟩
          intro x hx
          rcases List.mem_cons.mp hx with rfl | hx
          · exact h1
          · exact (hall x hx).1
      have hmax : ∃ m ∈ a :: resto, ∀ x ∈ a :: resto, x ≤ m := by
        rcases le_total mx a with h1 | h1
        · refine ⟨a, List.mem_cons_self _ _, ?_⟩
          intro x hx
          rcases List.mem_cons.mp hx with rfl | hx
          · exact le_refl _
          · exact le_trans (hall x hx).2 h1
        · refine ⟨mx, List.mem_cons_of_mem _ hmx, ?_⟩
          intro x hx
          rcases List.mem_cons.mp hx with rfl | hx
          · exact h1
          · exact (hall x hx).2
      obtain ⟨m1, hm1, h1⟩ := hmin
      obtain ⟨m2, hm2, h2⟩ := hmax
      exact ⟨m1, hm1, m2, hm2, fun x hx => ⟨h1 x hx, h2 x hx⟩⟩

/-- The sum of a list of integers between `lo` and `hi` lies between `lo` and `hi`
times the length. -/
theorem suma_acotada (xs : List Int32) (lo hi : Int)
    (h : ∀ x ∈ xs, lo ≤ x.val ∧ x.val ≤ hi) :
    lo * (xs.length : Int) ≤ (xs.map Int32.val).sum ∧
    (xs.map Int32.val).sum ≤ hi * (xs.length : Int) := by
  induction xs with
  | nil => simp
  | cons a resto ih =>
    have ha := h a (List.mem_cons_self _ _)
    have hr := ih (fun x hx => h x (List.mem_cons_of_mem _ hx))
    simp only [List.map_cons, List.sum_cons, List.length_cons, Nat.cast_add, Nat.cast_one]
    constructor
    · nlinarith [ha.1, hr.1]
    · nlinarith [ha.2, hr.2]

/-- The truncated quotient of a sum between `lo * n` and `hi * n` by `n > 0` lies
between `lo` and `hi`. -/
theorem tdiv_acotada (s n lo hi : Int) (hn : 0 < n) (hlo : lo * n ≤ s) (hhi : s ≤ hi * n) :
    lo ≤ s.tdiv n ∧ s.tdiv n ≤ hi := by
  rcases le_total 0 s with hs | hs
  · rw [Int.tdiv_eq_ediv hs (le_of_lt hn)]
    exact ⟨Int.le_ediv_of_mul_le hn hlo, Int.ediv_le_of_le_mul hn hhi⟩
  · have e : s.tdiv n = -((-s) / n) := by
      have h1 : (-s).tdiv n = -(s.tdiv n) := Int.neg_tdiv s n
      have h2 : (-s).tdiv n = (-s) / n := Int.tdiv_eq_ediv (by omega) (le_of_lt hn)
      omega
    rw [e]
    have h1 : (-s) / n ≤ -lo := Int.ediv_le_of_le_mul hn (by linarith)
    have h2 : -hi ≤ (-s) / n := Int.le_ediv_of_mul_le hn (by linarith)
    constructor <;> omega

namespace ListaSensor

/-- C18. For a non-empty `ListaSensor<int>` whose sum of readings is within the range
of `int`, `calcularPromedio` returns the sum divided by the count, truncated toward
zero, and that result lies between the smallest and the largest reading. -/
theorem calcularPromedio_int_entre_extremos (l : ListaSensor Int32) (hl : Alcanzable l)
    (hne : l.nodos ≠ [])
    (hr : -2147483648 ≤ (l.nodos.map Int32.val).sum ∧
      (l.nodos.map Int32.val).sum ≤ 2147483647) :
    (calcularPromedio l).val = ((l.nodos.map Int32.val).sum).tdiv (l.nodos.length : Int) ∧
    ∃ mn ∈ l.nodos, ∃ mx ∈ l.nodos, (∀ x ∈ l.nodos, mn ≤ x ∧ x ≤ mx) ∧
      mn ≤ calcularPromedio l ∧ calcularPromedio l ≤ mx := by
  have hv := calcularPromedio_int l hl.cuenta hne
  rw [wrap32_id hr] at hv
  refine ⟨hv, ?_⟩
  obtain ⟨mn, hmn, mx, hmx, hall⟩ := existe_minimo_y_maximo l.nodos hne
  refine ⟨mn, hmn, mx, hmx, hall, ?_⟩
  have hpos : (0 : Int) < (l.nodos.length : Int) := by
    have := List.length_pos.mpr hne
    omega
  have hs := suma_acotada l.nodos mn.val mx.val (fun x hx => hall x hx)
  have hd := tdiv_acotada _ _ mn.val mx.val hpos hs.1 hs.2
  rw [← hv] at hd
  exact hd

/-- C18 on the readings `-7, 2, 2`: the sum is `-3` and the result is `-1`, where
rounding down would give `-2`; it lies between `-7` and `2`. -/
theorem calcularPromedio_int_entre_extremos_witness :
    calcularPromedio lecturasMediaNegativa = Int32.deEntero (-1) ∧
    (calcularPromedio lecturasMediaNegativa).val
      = ((lecturasMediaNegativa.nodos.map Int32.val).sum).tdiv
          (lecturasMediaNegativa.nodos.length : Int) ∧
    ∃ mn ∈ lecturasMediaNegativa.nodos, ∃ mx ∈ lecturasMediaNegativa.nodos,
      (∀ x ∈ lecturasMediaNegativa.nodos, mn ≤ x ∧ x ≤ mx) ∧
      mn ≤ calcularPromedio lecturasMediaNegativa ∧
      calcularPromedio lecturasMediaNegativa ≤ mx :=
  ⟨by decide,
    calcularPromedio_int_entre_extremos lecturasMediaNegativa
      (Alcanzable.insertar _ 2 (Alcanzable.insertar _ 2
        (Alcanzable.insertar _ (Int32.deEntero (-7)) Alcanzable.vacia)))
      (by decide) (by decide)⟩

end ListaSensor

/-! ## Repeated temperature processing -/

namespace SensorTemperatura

variable {F : Type}

theorem procesarVeces_alcanzable [Lectura F] [LT F] [DecidableRel (fun a b : F => a < b)]
    (k : Nat) (s : SensorTemperatura F) (hs : Alcanzable s) :
    Alcanzable (procesarVeces k s) := by
  induction k generalizing s with
  | zero => exact hs
  | succ k ih => exact ih _ (Alcanzable.procesarLectura s hs)

/-- One call of `procesarLectura` on a reachable sensor: with two readings or more
one node is unlinked, with fewer the history is as before. -/
theorem procesarLectura_longitud [Lectura F] [LT F] [DecidableRel (fun a b : F => a < b)]
    (s : SensorTemperatura F) (hs : Alcanzable s) :
    (procesarLectura s).1.historial.nodos.length
      = if 2 ≤ s.historial.nodos.length then s.historial.nodos.length - 1
        else s.historial.nodos.length := by
  have ht := (historial_alcanzable hs).cuenta
  unfold SensorTemperatura.procesarLectura
  by_cases hv : s.historial.estaVacia = true
  · have hn : s.historial.nodos = [] := by simpa [ListaSensor.estaVacia] using hv
    simp [hv, hn]
  · have hne : s.historial.nodos ≠ [] := by simpa [ListaSensor.estaVacia] using hv
    simp only [hv, Bool.false_eq_true, if_false]
    by_cases h2 : 2 ≤ s.historial.nodos.length
    · have hmas : s.historial.getTamanio > 1 := by
        unfold ListaSensor.getTamanio
        omega
      simp only [hmas, if_true, h2]
      obtain ⟨i, hi, hnodos, _⟩ := ListaSensor.eliminarMinimo_forma s.historial hne
      have hlt : i < s.historial.nodos.length := by
        rcases Nat.lt_or_ge i s.historial.nodos.length with hlt | hge
        · exact hlt
        · rw [List.getElem?_eq_none hge] at hi
          exact absurd hi (by simp)
      rw [hnodos, List.length_eraseIdx_of_lt hlt]
    · have hmas : ¬ s.historial.getTamanio > 1 := by
        unfold ListaSensor.getTamanio
        omega
      simp only [hmas, if_false, h2]

/-- One call of `procesarLectura` on a reachable sensor keeps the greatest reading
in the history and adds no reading. -/
theorem procesarLectura_conserva_maximo [Lectura F] [LinearOrder F]
    (s : SensorTemperatura F) (hs : Alcanzable s) (M : F) (hM : M ∈ s.historial.nodos)
    (hmax : ∀ x ∈ s.historial.nodos, x ≤ M) :
    M ∈ (procesarLectura s).1.historial.nodos ∧
    ∀ x ∈ (procesarLectura s).1.historial.nodos, x ≤ M := by
  have ht := (historial_alcanzable hs).cuenta
  have hne : s.historial.nodos ≠ [] := List.ne_nil_of_mem hM
  have hv : s.historial.estaVacia = false := by simpa [ListaSensor.estaVacia] using hne
  unfold SensorTemperatura.procesarLectura
  simp only [hv, Bool.false_eq_true, if_false]
  by_cases h2 : 2 ≤ s.historial.nodos.length
  · have hmas : s.historial.getTamanio > 1 := by
      unfold ListaSensor.getTamanio
      omega
    simp only [hmas, if_true]
    obtain ⟨i, hi, hmin, _, hnodos, _⟩ := ListaSensor.eliminarMinimo_orden s.historial hne
    rw [hnodos]
    constructor
    · rw [List.mem_eraseIdx_iff_getElem?]
      obtain ⟨j, hj⟩ := List.getElem?_of_mem hM
      by_cases hji : j = i
      · subst hji
        have hw : (ListaSensor.eliminarMinimo s.historial).1 = M := by
          rw [hi] at hj
          exact Option.some.inj hj
        have hotro : ∃ j2, j2 ≠ j ∧ j2 < s.historial.nodos.length := by
          by_cases h0 : j = 0
          · exact ⟨1, by omega, by omega⟩
          · exact ⟨0, by omega, by omega⟩
        obtain ⟨j2, hne2, hlt2⟩ := hotro
        refine ⟨j2, hne2, ?_⟩
        rw [List.getElem?_eq_getElem hlt2]
        have hmem : s.historial.nodos[j2] ∈ s.historial.nodos := List.getElem_mem _
        have h1 := hmin _ hmem
        have h3 := hmax _ hmem
        rw [hw] at h1
        rw [le_antisymm h3 h1]
      · exact ⟨j, hji, hj⟩
    · intro x hx
      exact hmax x (List.mem_of_mem_eraseIdx hx)
  · have hmas : ¬ s.historial.getTamanio > 1 := by
      unfold ListaSensor.getTamanio
      omega
    simp only [hmas, if_false]
    exact ⟨hM, hmax⟩

/-- A reachable sensor with the single reading `a`: `procesarLectura` reports `a`
over one reading and returns the sensor as it is. -/
theorem procesarLectura_unica [Lectura F] [LecturaLegal F] [LT F]
    [DecidableRel (fun a b : F => a < b)] (s : SensorTemperatura F) (hs : Alcanzable s)
    (a : F) (h : s.historial.nodos = [a]) :
    procesarLectura s = (s, InformeTemperatura.unaLectura a) := by
  have ht := (historial_alcanzable hs).cuenta
  rw [h] at ht
  simp only [List.length_singleton, Nat.cast_one] at ht
  have hprom := ListaSensor.calcularPromedio_un_nodo s.historial a h ht
  unfold SensorTemperatura.procesarLectura
  simp [ListaSensor.estaVacia, ListaSensor.getTamanio, h, ht, hprom]

/-- C19. A temperature sensor holding `n >= 1` readings holds exactly
`max(1, n - k)` readings after `k` calls of `procesarLectura`; a sensor with an empty
history still has an empty history after any number of calls. -/
theorem procesarLectura_nunca_vacia [Lectura F] [LT F] [DecidableRel (fun a b : F => a < b)]
    (s : SensorTemperatura F) (hs : Alcanzable s) (k : Nat) :
    (1 ≤ s.historial.nodos.length →
      (procesarVeces k s).historial.nodos.length = max 1 (s.historial.nodos.length - k)) ∧
    (s.historial.nodos = [] → (procesarVeces k s).historial.nodos = []) := by
  induction k generalizing s with
  | zero =>
    constructor
    · intro h
      simp only [procesarVeces, Nat.sub_zero]
      omega
    · intro h
      exact h
  | succ k ih =>
    have hstep := procesarLectura_longitud s hs
    have hnext := ih _ (Alcanzable.procesarLectura s hs)
    simp only [procesarVeces]
    constructor
    · intro h
      by_cases h2 : 2 ≤ s.historial.nodos.length
      · rw [if_pos h2] at hstep
        rw [hnext.1 (by omega), hstep]
        omega
      · rw [if_neg h2] at hstep
        rw [hnext.1 (by omega), hstep]
        omega
    · intro h
      apply hnext.2
      have h0 : ¬ 2 ≤ s.historial.nodos.length := by simp [h]
      rw [if_neg h0, h] at hstep
      exact List.length_eq_zero.mp hstep

/-- C19 on the sensor `T-001` with the readings `10, 5, 20`: 2 readings after one
call, 1 after two calls and still 1 after five calls. -/
theorem procesarLectura_nunca_vacia_witness :
    (1 ≤ termometro.historial.nodos.length ∧ termometro.historial.nodos.length = 3) ∧
    (procesarVeces 1 termometro).historial.nodos = [10, 20] ∧
    (procesarVeces 2 termometro).historial.nodos = [20] ∧
    (procesarVeces 5 termometro).historial.nodos = [20] ∧
    (procesarVeces 5 termometro).historial.nodos.length
      = max 1 (termometro.historial.nodos.length - 5) :=
  ⟨by decide, by decide, by decide, by decide,
    (procesarLectura_nunca_vacia termometro
      (Alcanzable.agregarLectura _ _ _
        (Alcanzable.agregarLectura _ _ _
          (Alcanzable.agregarLectura _ _ _ (Alcanzable.crear _)))) 5).1 (by decide)⟩

end SensorTemperatura

namespace SensorTemperatura

variable {F : Type}

/-- C20. A temperature sensor holding `n >= 1` readings of which `M` is the
greatest: after `n - 1` calls of `procesarLectura` the history is the single reading
`M`, and every further call leaves it so and reports `M` as the mean over one
reading. -/
theorem procesarLectura_deja_el_maximo [Lectura F] [LecturaLegal F] [LinearOrder F]
    (s : SensorTemperatura F) (hs : Alcanzable s) (M : F) (hM : M ∈ s.historial.nodos)
    (hmax : ∀ x ∈ s.historial.nodos, x ≤ M) :
    (procesarVeces (s.historial.nodos.length - 1) s).historial.nodos = [M] ∧
    ∀ k, s.historial.nodos.length - 1 ≤ k →
      procesarLectura (procesarVeces k s)
        = (procesarVeces k s, InformeTemperatura.unaLectura M) := by
  have inv : ∀ (k : Nat) (t : SensorTemperatura F), Alcanzable t →
      M ∈ t.historial.nodos → (∀ x ∈ t.historial.nodos, x ≤ M) →
      M ∈ (procesarVeces k t).historial.nodos ∧
      (procesarVeces k t).historial.nodos.length = max 1 (t.historial.nodos.length - k) := by
    intro k
    induction k with
    | zero =>
      intro t _ htM _
      have hpos := List.length_pos_of_mem htM
      simp only [procesarVeces, Nat.sub_zero]
      exact ⟨htM, by omega⟩
    | succ k ih =>
      intro t ht htM htmax
      have hpos := List.length_pos_of_mem htM
      have hstep := procesarLectura_longitud t ht
      have hkeep := procesarLectura_conserva_maximo t ht M htM htmax
      have hnext := ih _ (Alcanzable.procesarLectura t ht) hkeep.1 hkeep.2
      simp only [procesarVeces]
      refine ⟨hnext.1, ?_⟩
      rw [hnext.2, hstep]
      split <;> omega
  have uno : ∀ k, s.historial.nodos.length - 1 ≤ k →
      (procesarVeces k s).historial.nodos = [M] := by
    intro k hk
    obtain ⟨hmem, hlen⟩ := inv k s hs hM hmax
    have h1 : (procesarVeces k s).historial.nodos.length = 1 := by
      rw [hlen]
      omega
    obtain ⟨a, ha⟩ := List.length_eq_one.mp h1
    rw [ha] at hmem ⊢
    rw [List.mem_singleton.mp hmem]
  refine ⟨uno _ (le_refl _), ?_⟩
  intro k hk
  exact procesarLectura_unica _ (procesarVeces_alcanzable k s hs) M (uno k hk)

/-- C20 on the sensor `T-001` with the readings `10, 5, 20`: after two calls only
`20` is left, and the third call reports the mean `20`. -/
theorem procesarLectura_deja_el_maximo_witness :
    ((20 : ℚ) ∈ termometro.historial.nodos ∧
      ∀ x ∈ termometro.historial.nodos, x ≤ 20) ∧
    (procesarVeces (termometro.historial.nodos.length - 1) termometro).historial.nodos
      = [20] ∧
    ∀ k, termometro.historial.nodos.length - 1 ≤ k →
      procesarLectura (procesarVeces k termometro)
        = (procesarVeces k termometro, InformeTemperatura.unaLectura 20) :=
  ⟨by decide,
    procesarLectura_deja_el_maximo termometro
      (Alcanzable.agregarLectura _ _ _
        (Alcanzable.agregarLectura _ _ _
          (Alcanzable.agregarLectura _ _ _ (Alcanzable.crear _))))
      20 (by decide) (by decide)⟩

end SensorTemperatura

/-! ## Nodes and pointers: chains in the store -/

namespace Enlazada

variable {T : Type}

/-- A chain is untouched by a change of the store outside its nodes. -/
theorem EsTramo.marco {a b : Almacen T} {ps : List (Nat × T)} {fin : Option Nat}
    (h : EsTramo a ps fin) (hab : ∀ d ∈ ps.map Prod.fst, b.celda d = a.celda d) :
    EsTramo b ps fin := by
  induction ps with
  | nil => trivial
  | cons p resto ih =>
    refine ⟨?_, ih h.2 (fun d hd => hab d (List.mem_cons_of_mem _ hd))⟩
    rw [hab p.1 (List.mem_cons_self _ _)]
    exact h.1

theorem esTramo_append (a : Almacen T) (xs ys : List (Nat × T)) (fin : Option Nat) :
    EsTramo a (xs ++ ys) fin ↔ EsTramo a xs (sigDe ys fin) ∧ EsTramo a ys fin := by
  induction xs with
  | nil => simp [EsTramo]
  | cons p resto ih =>
    have hc : sigDe (resto ++ ys) fin = sigDe resto (sigDe ys fin) := by
      cases resto with
      | nil => rfl
      | cons q r => rfl
    rw [List.cons_append]
    simp only [EsTramo, ih, hc]
    tauto

/-- The node at each position of a chain holds the value of that position and
points to the node of the next position. -/
theorem EsTramo.celda_en {a : Almacen T} {ps : List (Nat × T)} (h : EsTramo a ps none)
    (i : Nat) (p : Nat × T) (hp : ps[i]? = some p) :
    a.celda p.1 = some ⟨p.2, (ps[i + 1]?).map Prod.fst⟩ := by
  induction ps generalizing i with
  | nil => simp at hp
  | cons q resto ih =>
    cases i with
    | zero =>
      simp only [List.getElem?_cons_zero, Option.some.injEq] at hp
      subst hp
      rw [h.1]
      cases resto with
      | nil => rfl
      | cons r resto2 => simp [sigDe]
    | succ i =>
      simp only [List.getElem?_cons_succ] at hp ⊢
      exact ih h.2 i hp

theorem ultimo_de_tramo (a : Almacen T) (ps : List (Nat × T)) (d : Nat) (x : T)
    (h : EsTramo a (ps ++ [(d, x)]) none) (pasos : Nat) (hp : ps.length + 1 ≤ pasos) :
    ultimo a pasos (sigDe ps (some d)).get! = some d := by
  induction ps generalizing pasos with
  | nil =>
    cases pasos with
    | zero => omega
    | succ pasos =>
      have h1 : a.celda d = some ⟨x, none⟩ := h.1
      simp [ultimo, sigDe, h1]
  | cons p resto ih =>
    cases pasos with
    | zero => simp at hp
    | succ pasos =>
      have h1 : a.celda p.1 = some ⟨p.2, sigDe (resto ++ [(d, x)]) none⟩ := h.1
      have hs : sigDe (resto ++ [(d, x)]) none = some (sigDe resto (some d)).get! := by
        cases resto with
        | nil => rfl
        | cons q r => rfl
      have h2 := ih h.2 pasos (by simpa using hp)
      rw [hs] at h1
      show ultimo a (pasos + 1) p.1 = some d
      unfold ultimo
      simp only [h1]
      exact h2

end Enlazada

namespace Enlazada

variable {T : Type}

theorem cabezaDe_concat (ps : List (Nat × T)) (q : Nat × T) :
    cabezaDe (ps ++ [q]) = some (sigDe ps (some q.1)).get! := by
  cases ps with
  | nil => rfl
  | cons p r => rfl

theorem cabezaDe_append_cons (ps qs : List (Nat × T)) (q : Nat × T) :
    cabezaDe (ps ++ q :: qs) = cabezaDe (ps ++ [q]) := by
  cases ps with
  | nil => rfl
  | cons p r => rfl

/-- The method `insertar` on a list that is the chain `ps`: it returns, the list is
then the chain `ps` followed by the new node, which is at the address `new` gave, and
no node outside `ps` is touched. -/
theorem insertar_representa (a : Almacen T) (l : Lista) (ps : List (Nat × T)) (valor : T)
    (pasos : Nat) (h : Representa a l ps) (hp : ps.length ≤ pasos) :
    ∃ a2 l2, insertar pasos a l valor = some (a2, l2) ∧
      Representa a2 l2 (ps ++ [(a.libre, valor)]) ∧
      a2.libre = a.libre + 1 ∧
      ∀ e, e ∉ ps.map Prod.fst → e ≠ a.libre → a2.celda e = a.celda e := by
  obtain ⟨cab, tam⟩ := l
  have hcab : cab = cabezaDe ps := h.cabeza
  have htam : tam = (ps.length : Int) := h.cuenta
  rcases List.eq_nil_or_concat ps with hnil | ⟨ini, ult, hcat⟩
  · subst hnil
    have hc : cab = none := hcab
    subst hc
    refine ⟨(a.nuevo valor).2, ⟨some a.libre, tam + 1⟩, rfl, ?_, rfl, ?_⟩
    · refine ⟨rfl, ⟨?_, trivial⟩, by simp, ?_, ?_⟩
      · simp [Almacen.nuevo, sigDe]
      · intro d hd
        simp only [List.nil_append, List.map_cons, List.map_nil, List.mem_singleton] at hd
        subst hd
        simp [Almacen.nuevo]
      · simp only [List.nil_append, List.length_singleton, Nat.cast_one]
        simp only [List.length_nil, Nat.cast_zero] at htam
        show tam + 1 = 1
        omega
    · intro e _ he
      simp [Almacen.nuevo, Function.update_noteq he]
  · obtain ⟨d, x⟩ := ult
    rw [List.concat_eq_append] at hcat
    subst hcat
    have hnod := h.distintos
    have hres := h.reservados
    have hd_lt : d < a.libre := hres d (by simp)
    have hd_ne : d ≠ a.libre := by omega
    have hini : ∀ e ∈ ini.map Prod.fst, e ≠ d ∧ e ≠ a.libre := by
      intro e he
      constructor
      · intro hed
        subst hed
        rw [List.map_append, List.nodup_append] at hnod
        exact hnod.2.2 he (by simp)
      · have := hres e (by simp only [List.map_append, List.mem_append]; exact Or.inl he)
        omega
    have htr := (esTramo_append a ini [(d, x)] none).mp h.tramo
    have hcd : a.celda d = some ⟨x, none⟩ := htr.2.1
    have hc : cab = some (sigDe ini (some d)).get! := by
      rw [hcab, cabezaDe_concat]
    subst hc
    have htramo1 : EsTramo (a.nuevo valor).2 (ini ++ [(d, x)]) none := by
      refine h.tramo.marco ?_
      intro e he
      have : e ≠ a.libre := by
        have := hres e he
        omega
      simp [Almacen.nuevo, Function.update_noteq this]
    have hult := ultimo_de_tramo (a.nuevo valor).2 ini d x htramo1 pasos
      (by simpa using hp)
    have hcd1 : (a.nuevo valor).2.celda d = some ⟨x, none⟩ := by
      simp [Almacen.nuevo, Function.update_noteq hd_ne, hcd]
    refine ⟨⟨Function.update (a.nuevo valor).2.celda d (some ⟨x, some a.libre⟩),
      (a.nuevo valor).2.libre⟩, ⟨some (sigDe ini (some d)).get!, tam + 1⟩, ?_, ?_, rfl, ?_⟩
    · simp only [insertar, hult, Almacen.enlazar, hcd1]
      rfl
    · refine ⟨?_, ?_, ?_, ?_, ?_⟩
      · show some (sigDe ini (some d)).get! = cabezaDe (ini ++ [(d, x)] ++ [(a.libre, valor)])
        rw [List.append_assoc, List.singleton_append, cabezaDe_append_cons, cabezaDe_concat]
      · rw [List.append_assoc, esTramo_append]
        constructor
        · refine htr.1.marco ?_
          intro e he
          have := hini e he
          simp [Almacen.nuevo, Function.update_noteq this.1, Function.update_noteq this.2]
        · refine ⟨?_, ?_, trivial⟩
          · simp [sigDe]
          · have : a.libre ≠ d := fun h => hd_ne h.symm
            simp [Almacen.nuevo, Function.update_noteq this, sigDe]
      · rw [List.map_append, List.nodup_append]
        refine ⟨hnod, by simp, ?_⟩
        intro e he he2
        simp only [List.map_cons, List.map_nil, List.mem_singleton] at he2
        have := hres e he
        omega
      · intro e he
        simp only [List.map_append, List.mem_append, List.map_cons, List.map_nil,
          List.mem_singleton] at he
        show e < a.libre + 1
        rcases he with (he | he) | he
        · have := hres e (by simp only [List.map_append, List.mem_append]; exact Or.inl he)
          omega
        · omega
        · omega
      · simp only [List.length_append, List.length_singleton, Nat.cast_add, Nat.cast_one]
        simp only [List.length_append, List.length_singleton, Nat.cast_add,
          Nat.cast_one] at htam
        show tam + 1 = _
        omega
    · intro e he hel
      have hed : e ≠ d := by
        intro hed
        subst hed
        exact he (by simp)
      simp [Almacen.nuevo, Function.update_noteq hed, Function.update_noteq hel]

end Enlazada

namespace Enlazada

variable {T : Type}

theorem cabezaDe_eq_sigDe (ps : List (Nat × T)) : cabezaDe ps = sigDe ps none := by
  cases ps with
  | nil => rfl
  | cons p r => rfl

/-- The method `limpiar` on a list that is the chain `ps`: it returns, the list is
then empty with count 0, the nodes of `ps` are released and no other node is
touched. -/
theorem limpiar_representa (a : Almacen T) (l : Lista) (ps : List (Nat × T)) (pasos : Nat)
    (h : Representa a l ps) (hp : ps.length ≤ pasos) :
    ∃ a2, limpiar pasos a l = some (a2, ⟨none, 0⟩) ∧ a2.libre = a.libre ∧
      (∀ d ∈ ps.map Prod.fst, a2.celda d = none) ∧
      (∀ e, e ∉ ps.map Prod.fst → a2.celda e = a.celda e) := by
  induction ps generalizing a l pasos with
  | nil =>
    obtain ⟨cab, tam⟩ := l
    have hc : cab = none := h.cabeza
    have ht : tam = 0 := by simpa using h.cuenta
    subst hc ht
    refine ⟨a, ?_, rfl, ?_, fun e _ => rfl⟩
    · unfold limpiar
      rfl
    · intro d hd
      simp at hd
  | cons p resto ih =>
    obtain ⟨cab, tam⟩ := l
    have hc : cab = some p.1 := h.cabeza
    have ht : tam = ((p :: resto).length : Int) := h.cuenta
    subst hc
    cases pasos with
    | zero => simp at hp
    | succ pasos =>
      have hcel : a.celda p.1 = some ⟨p.2, sigDe resto none⟩ := h.tramo.1
      have hnod := List.nodup_cons.mp h.distintos
      have hrep : Representa (a.liberar p.1) ⟨sigDe resto none, tam - 1⟩ resto := by
        refine ⟨(cabezaDe_eq_sigDe resto).symm, ?_, hnod.2, ?_, ?_⟩
        · refine h.tramo.2.marco ?_
          intro d hd
          have hne : d ≠ p.1 := fun hh => hnod.1 (hh ▸ hd)
          simp [Almacen.liberar, Function.update_noteq hne]
        · intro d hd
          exact h.reservados d (List.mem_cons_of_mem _ hd)
        · simp only [List.length_cons, Nat.cast_add, Nat.cast_one] at ht
          show tam - 1 = _
          omega
      obtain ⟨a2, h1, h2, h3, h4⟩ := ih (a.liberar p.1) _ pasos hrep (by simpa using hp)
      refine ⟨a2, ?_, h2, ?_, ?_⟩
      · unfold limpiar
        simp only [hcel]
        exact h1
      · intro d hd
        rcases List.mem_cons.mp hd with hd | hd
        · rw [hd, h4 p.1 hnod.1]
          simp [Almacen.liberar]
        · exact h3 d hd
      · intro e he
        have he1 : e ≠ p.1 := fun hh => he (hh ▸ List.mem_cons_self _ _)
        have he2 : e ∉ resto.map Prod.fst := fun hh => he (List.mem_cons_of_mem _ hh)
        rw [h4 e he2]
        simp [Almacen.liberar, Function.update_noteq he1]

/-- The loop of `copiar` from a node of another chain `resto` on: it returns, the
list is then its chain `ps` followed by new nodes with the values of `resto` in
order, all at addresses `new` gave during the loop, and no node outside `ps` that
existed before is touched. -/
theorem copiarDesde_representa (pasos : Nat) (resto : List (Nat × T)) (vueltas : Nat)
    (a : Almacen T) (l : Lista) (ps : List (Nat × T))
    (h : Representa a l ps) (hr : EsTramo a resto none)
    (hres : ∀ d ∈ resto.map Prod.fst, d < a.libre ∧ d ∉ ps.map Prod.fst)
    (hv : resto.length ≤ vueltas) (hp : ps.length + resto.length ≤ pasos) :
    ∃ a2 l2 nuevos, copiarDesde pasos vueltas a l (cabezaDe resto) = some (a2, l2) ∧
      Representa a2 l2 (ps ++ nuevos) ∧
      nuevos.map Prod.snd = resto.map Prod.snd ∧
      (∀ d ∈ nuevos.map Prod.fst, a.libre ≤ d) ∧
      a.libre ≤ a2.libre ∧
      (∀ e, e ∉ ps.map Prod.fst → e < a.libre → a2.celda e = a.celda e) := by
  induction resto generalizing vueltas a l ps with
  | nil =>
    refine ⟨a, l, [], ?_, by simpa using h, rfl, by simp, le_refl _, fun e _ _ => rfl⟩
    cases vueltas <;> rfl
  | cons q resto ih =>
    cases vueltas with
    | zero => simp at hv
    | succ vueltas =>
      have hq := hres q.1 (List.mem_cons_self _ _)
      have hcel : a.celda q.1 = some ⟨q.2, sigDe resto none⟩ := hr.1
      obtain ⟨a1, l1, hins, hrep1, hlib1, hmarco1⟩ :=
        insertar_representa a l ps q.2 pasos h (by simp only [List.length_cons] at hp; omega)
      have hcel1 : a1.celda q.1 = some ⟨q.2, sigDe resto none⟩ := by
        rw [hmarco1 q.1 hq.2 (by omega), hcel]
      have hr1 : EsTramo a1 resto none := by
        refine hr.2.marco ?_
        intro d hd
        have := hres d (List.mem_cons_of_mem _ hd)
        exact hmarco1 d this.2 (by omega)
      have hres1 : ∀ d ∈ resto.map Prod.fst,
          d < a1.libre ∧ d ∉ (ps ++ [(a.libre, q.2)]).map Prod.fst := by
        intro d hd
        have := hres d (List.mem_cons_of_mem _ hd)
        refine ⟨by omega, ?_⟩
        simp only [List.map_append, List.mem_append, List.map_cons, List.map_nil,
          List.mem_singleton, not_or]
        exact ⟨this.2, by omega⟩
      obtain ⟨a2, l2, nuevos, hcop, hrep2, hval, hdir, hlib2, hmarco2⟩ :=
        ih vueltas a1 l1 (ps ++ [(a.libre, q.2)]) hrep1 hr1 hres1
          (by simpa using hv)
          (by simp only [List.length_cons, List.length_append, List.length_nil] at hp ⊢
              omega)
      refine ⟨a2, l2, (a.libre, q.2) :: nuevos, ?_, ?_, ?_, ?_, by omega, ?_⟩
      · show copiarDesde pasos (vueltas + 1) a l (some q.1) = some (a2, l2)
        unfold copiarDesde
        simp only [hcel, hins, hcel1]
        rw [← cabezaDe_eq_sigDe]
        exact hcop
      · simpa using hrep2
      · simp [hval]
      · intro d hd
        rcases List.mem_cons.mp hd with hd | hd
        · rw [hd]
        · have := hdir d hd
          omega
      · intro e he hel
        have he1 : e ∉ (ps ++ [(a.libre, q.2)]).map Prod.fst := by
          simp only [List.map_append, List.mem_append, List.map_cons, List.map_nil,
            List.mem_singleton, not_or]
          exact ⟨he, by omega⟩
        rw [hmarco2 e he1 (by omega), hmarco1 e he (by omega)]

end Enlazada

namespace Enlazada

variable {T : Type}

theorem getElem?_tras_prefijo {α : Type} (pre : List α) (q : α) (resto : List α) :
    (pre ++ q :: resto)[pre.length]? = some q := by
  induction pre with
  | nil => simp
  | cons p pre ih => simpa using ih

theorem getElem?_tras_prefijo_succ {α : Type} (pre : List α) (q : α) (resto : List α) :
    (pre ++ q :: resto)[pre.length + 1]? = resto[0]? := by
  induction pre with
  | nil => simp
  | cons p pre ih => simpa using ih

/-- The search loop on the nodes of a chain does what the search loop on the values
of the chain does: it ends on the nodes at the positions the latter ends on. -/
theorem buscarMinimo_refina [LT T] [DecidableRel (fun a b : T => a < b)]
    (a : Almacen T) (ps : List (Nat × T)) (h : EsTramo a ps none)
    (resto pre : List (Nat × T)) (hps : ps = pre ++ resto)
    (m dm : Nat) (v : T) (hm : ps[m]? = some (dm, v))
    (prevMin prev : Option Nat) (pasos : Nat) (hp : resto.length ≤ pasos) :
    ∃ d, ps[(ListaSensor.buscarMinimo (resto.map Prod.snd) pre.length (m, v)
          prevMin prev).1.1]?
        = some (d, (ListaSensor.buscarMinimo (resto.map Prod.snd) pre.length (m, v)
            prevMin prev).1.2) ∧
      buscarMinimo a pasos (cabezaDe resto) dm (dirDe ps prevMin) (dirDe ps prev)
        = some (d, dirDe ps (ListaSensor.buscarMinimo (resto.map Prod.snd) pre.length
            (m, v) prevMin prev).2) := by
  induction resto generalizing pre m dm v prevMin prev pasos with
  | nil =>
    refine ⟨dm, hm, ?_⟩
    cases pasos <;> rfl
  | cons q resto ih =>
    cases pasos with
    | zero => simp at hp
    | succ pasos =>
      have hq : ps[pre.length]? = some q := by
        rw [hps]
        exact getElem?_tras_prefijo pre q resto
      have hsig : (ps[pre.length + 1]?).map Prod.fst = cabezaDe resto := by
        rw [hps, getElem?_tras_prefijo_succ]
        cases resto with
        | nil => rfl
        | cons r resto2 => simp [cabezaDe]
      have hcq := h.celda_en pre.length q hq
      rw [hsig] at hcq
      have hcm := h.celda_en m (dm, v) hm
      have hps2 : ps = (pre ++ [q]) ++ resto := by
        rw [hps]
        simp
      have hlen : (pre ++ [q]).length = pre.length + 1 := by simp
      have hprev : dirDe ps (some pre.length) = some q.1 := by
        simp [dirDe, hq]
      have hpasos : resto.length ≤ pasos := by simpa using hp
      simp only [List.map_cons, ListaSensor.buscarMinimo]
      show ∃ d, _ ∧ buscarMinimo a (pasos + 1) (some q.1) dm _ _ = _
      unfold buscarMinimo
      simp only [hcq, hcm]
      by_cases hlt : q.2 < v
      · simp only [hlt, if_true]
        have := ih (pre ++ [q]) hps2 pre.length q.1 q.2 hq prev (some pre.length) pasos hpasos
        rw [hlen, hprev] at this
        exact this
      · simp only [hlt, if_false]
        have := ih (pre ++ [q]) hps2 m dm v hm prevMin (some pre.length) pasos hpasos
        rw [hlen, hprev] at this
        exact this

end Enlazada

namespace Enlazada

variable {T : Type}

theorem map_eraseIdx {α β : Type} (f : α → β) (xs : List α) (i : Nat) :
    (xs.eraseIdx i).map f = (xs.map f).eraseIdx i := by
  induction xs generalizing i with
  | nil => rfl
  | cons x xs ih =>
    cases i with
    | zero => rfl
    | succ i => simp [ih]

theorem eraseIdx_tras_prefijo {α : Type} (pre : List α) (p q : α) (post : List α) :
    (pre ++ p :: q :: post).eraseIdx (pre.length + 1) = pre ++ p :: post := by
  induction pre with
  | nil => rfl
  | cons x pre ih => simpa using ih

/-- A chain with two nodes in a row at the positions `j` and `j + 1` splits around
them. -/
theorem partir_en {α : Type} (ps : List α) (j : Nat) (p q : α) (h1 : ps[j]? = some p)
    (h2 : ps[j + 1]? = some q) :
    ps = ps.take j ++ p :: q :: ps.drop (j + 2) ∧ (ps.take j).length = j := by
  induction ps generalizing j with
  | nil => simp at h1
  | cons x ps ih =>
    cases j with
    | zero =>
      simp only [List.getElem?_cons_zero, Option.some.injEq] at h1
      subst h1
      cases ps with
      | nil => simp at h2
      | cons y ps =>
        simp only [zero_add, List.getElem?_cons_succ, List.getElem?_cons_zero,
          Option.some.injEq] at h2
        subst h2
        simp
    | succ j =>
      simp only [List.getElem?_cons_succ] at h1 h2
      obtain ⟨e1, e2⟩ := ih j h1 h2
      constructor
      · simp only [List.take_succ_cons, List.cons_append, List.drop_succ_cons]
        rw [← e1]
      · simp [e2]

/-- Releasing the first node of a chain leaves the rest as the chain. -/
theorem quitar_cabeza (a : Almacen T) (l : Lista) (p : Nat × T) (resto : List (Nat × T))
    (h : Representa a l (p :: resto)) :
    Representa (a.liberar p.1) ⟨sigDe resto none, l.tamanio - 1⟩ resto := by
  have hnod := List.nodup_cons.mp h.distintos
  refine ⟨(cabezaDe_eq_sigDe resto).symm, ?_, hnod.2, ?_, ?_⟩
  · refine h.tramo.2.marco ?_
    intro d hd
    have hne : d ≠ p.1 := fun hh => hnod.1 (hh ▸ hd)
    simp [Almacen.liberar, Function.update_noteq hne]
  · intro d hd
    exact h.reservados d (List.mem_cons_of_mem _ hd)
  · have := h.cuenta
    simp only [List.length_cons, Nat.cast_add, Nat.cast_one] at this
    show l.tamanio - 1 = _
    omega

/-- Linking the node before `q` to the node after `q` and releasing `q` leaves the
chain without `q`. -/
theorem desenlazar (a : Almacen T) (l : Lista) (pre : List (Nat × T)) (p q : Nat × T)
    (post : List (Nat × T)) (h : Representa a l (pre ++ p :: q :: post)) :
    Representa
      ⟨Function.update (Function.update a.celda p.1 (some ⟨p.2, sigDe post none⟩)) q.1 none,
        a.libre⟩
      ⟨l.cabeza, l.tamanio - 1⟩ (pre ++ p :: post) := by
  have hnod := h.distintos
  simp only [List.map_append, List.map_cons] at hnod
  rw [List.nodup_append] at hnod
  obtain ⟨hn1, hn2, hn3⟩ := hnod
  have hn2' := List.nodup_cons.mp hn2
  have hn2'' := List.nodup_cons.mp hn2'.2
  have hpq : p.1 ≠ q.1 := fun hh => hn2'.1 (hh ▸ List.mem_cons_self _ _)
  have htr := (esTramo_append a pre (p :: q :: post) none).mp h.tramo
  refine ⟨?_, ?_, ?_, ?_, ?_⟩
  · show l.cabeza = _
    rw [h.cabeza, cabezaDe_append_cons, cabezaDe_append_cons pre post p]
  · rw [esTramo_append]
    refine ⟨?_, ⟨?_, ?_⟩⟩
    · refine htr.1.marco ?_
      intro d hd
      have h1 : d ≠ p.1 := fun hh => hn3 hd (hh ▸ List.mem_cons_self _ _)
      have h2 : d ≠ q.1 := fun hh =>
        hn3 hd (hh ▸ List.mem_cons_of_mem _ (List.mem_cons_self _ _))
      simp [Function.update_noteq h1, Function.update_noteq h2]
    · simp [Function.update_noteq hpq]
    · refine htr.2.2.2.marco ?_
      intro d hd
      have h1 : d ≠ p.1 := fun hh => hn2'.1 (hh ▸ List.mem_cons_of_mem _ hd)
      have h2 : d ≠ q.1 := fun hh => hn2''.1 (hh ▸ hd)
      simp [Function.update_noteq h1, Function.update_noteq h2]
  · simp only [List.map_append, List.map_cons]
    rw [List.nodup_append]
    refine ⟨hn1, List.nodup_cons.mpr ⟨?_, hn2''.2⟩, ?_⟩
    · intro hh
      exact hn2'.1 (List.mem_cons_of_mem _ hh)
    · intro d hd hd2
      refine hn3 hd ?_
      rcases List.mem_cons.mp hd2 with hd2 | hd2
      · exact hd2 ▸ List.mem_cons_self _ _
      · exact List.mem_cons_of_mem _ (List.mem_cons_of_mem _ hd2)
  · intro d hd
    refine h.reservados d ?_
    simp only [List.map_append, List.map_cons, List.mem_append, List.mem_cons] at hd ⊢
    tauto
  · have := h.cuenta
    simp only [List.length_append, List.length_cons, Nat.cast_add, Nat.cast_one] at this ⊢
    show l.tamanio - 1 = _
    omega

end Enlazada

namespace Enlazada

variable {T : Type}

/-- The removal step of `eliminarMinimo` once the search has ended on the node at
position `m` with `prevMin` at position `pm`: either `m` is the first position and
`prevMin` is `nullptr`, or `prevMin` is the position before `m`. -/
theorem eliminar_tras_busqueda [Lectura T] [LT T] [DecidableRel (fun a b : T => a < b)]
    (a : Almacen T) (l : Lista) (c : Nat × T) (resto : List (Nat × T)) (pasos : Nat)
    (h : Representa a l (c :: resto)) (m : Nat) (w : T) (pm : Option Nat) (d : Nat)
    (hd : (c :: resto)[m]? = some (d, w))
    (hbusca : buscarMinimo a pasos (some c.1) c.1 none none
      = some (d, dirDe (c :: resto) pm))
    (hforma : (pm = none ∧ m = 0) ∨ ∃ k, m = k + 1 ∧ pm = some k) :
    ∃ a2 l2, eliminarMinimo pasos a l = some (w, a2, l2) ∧
      Representa a2 l2 ((c :: resto).eraseIdx m) ∧
      l2.tamanio = l.tamanio - 1 ∧ a2.libre = a.libre ∧
      ∀ e, e ∉ (c :: resto).map Prod.fst → a2.celda e = a.celda e := by
  have hc : l.cabeza = some c.1 := h.cabeza
  have hcc : a.celda c.1 = some ⟨c.2, sigDe resto none⟩ := h.tramo.1
  rcases hforma with ⟨hpm, hm0⟩ | ⟨k, hmk, hpm⟩
  · subst hpm hm0
    have hcd : c = (d, w) := by simpa using hd
    subst hcd
    have hb : buscarMinimo a pasos (some d) d none none = some (d, none) := hbusca
    have hcc2 : a.celda d = some ⟨w, sigDe resto none⟩ := hcc
    have hc2 : l.cabeza = some d := hc
    refine ⟨a.liberar d, ⟨sigDe resto none, l.tamanio - 1⟩, ?_,
      quitar_cabeza a l (d, w) resto h, rfl, rfl, ?_⟩
    · simp only [eliminarMinimo, hc2, hb, hcc2]
    · intro e he
      have hne : e ≠ d := fun hh => he (hh ▸ List.mem_cons_self _ _)
      simp [Almacen.liberar, Function.update_noteq hne]
  · subst hmk hpm
    have hlt : k < (c :: resto).length := by
      have := (List.getElem?_eq_some.mp hd).1
      omega
    obtain ⟨p, hpp⟩ : ∃ p, (c :: resto)[k]? = some p :=
      ⟨(c :: resto)[k], List.getElem?_eq_getElem hlt⟩
    obtain ⟨hsplit, hlen⟩ := partir_en (c :: resto) k p (d, w) hpp hd
    have hcp : a.celda p.1 = some ⟨p.2, some d⟩ := by
      have := h.tramo.celda_en k p hpp
      rw [hd] at this
      exact this
    have hsig : ((c :: resto)[k + 1 + 1]?).map Prod.fst
        = sigDe ((c :: resto).drop (k + 2)) none := by
      rw [← List.head?_drop]
      cases ((c :: resto).drop (k + 2)) with
      | nil => rfl
      | cons x xs => rfl
    have hcd : a.celda d = some ⟨w, sigDe ((c :: resto).drop (k + 2)) none⟩ := by
      have := h.tramo.celda_en (k + 1) (d, w) hd
      rw [hsig] at this
      exact this
    have hb : buscarMinimo a pasos (some c.1) c.1 none none = some (d, some p.1) := by
      rw [hbusca]
      simp [dirDe, hpp]
    have hrep := desenlazar a l ((c :: resto).take k) p (d, w) ((c :: resto).drop (k + 2))
      (hsplit ▸ h)
    have herase : (c :: resto).eraseIdx (k + 1)
        = (c :: resto).take k ++ p :: (c :: resto).drop (k + 2) := by
      have := eraseIdx_tras_prefijo ((c :: resto).take k) p (d, w) ((c :: resto).drop (k + 2))
      rw [hlen, ← hsplit] at this
      exact this
    rw [herase]
    refine ⟨_, ⟨l.cabeza, l.tamanio - 1⟩, ?_, hrep, rfl, rfl, ?_⟩
    · simp only [eliminarMinimo, hc, hb, hcd, Almacen.enlazar, hcp, Almacen.liberar]
    · intro e he
      have h1 : e ≠ p.1 := by
        intro hh
        exact he (List.mem_map.mpr ⟨p, List.getElem?_mem hpp, hh.symm⟩)
      have h2 : e ≠ d := by
        intro hh
        exact he (List.mem_map.mpr ⟨(d, w), List.getElem?_mem hd, hh.symm⟩)
      simp [Function.update_noteq h1, Function.update_noteq h2]

/-- The method `eliminarMinimo` on a list that is the chain `ps`: it returns what
`eliminarMinimo` on the values of `ps` returns, the list is then `ps` without the
node at one position, its values and count being those the latter leaves, and no
node outside `ps` is touched. -/
theorem eliminarMinimo_representa [Lectura T] [LT T] [DecidableRel (fun a b : T => a < b)]
    (a : Almacen T) (l : Lista) (ps : List (Nat × T)) (pasos : Nat)
    (h : Representa a l ps) (hp : ps.length ≤ pasos) :
    ∃ a2 l2 i, eliminarMinimo pasos a l
        = some ((ListaSensor.eliminarMinimo ⟨ps.map Prod.snd, l.tamanio⟩).1, a2, l2) ∧
      Representa a2 l2 (ps.eraseIdx i) ∧
      (ps.eraseIdx i).map Prod.snd
        = (ListaSensor.eliminarMinimo ⟨ps.map Prod.snd, l.tamanio⟩).2.nodos ∧
      a2.libre = a.libre ∧
      ∀ e, e ∉ ps.map Prod.fst → a2.celda e = a.celda e := by
  cases ps with
  | nil =>
    have hc : l.cabeza = none := h.cabeza
    refine ⟨a, l, 0, ?_, h, rfl, rfl, fun e _ => rfl⟩
    simp [eliminarMinimo, hc, ListaSensor.eliminarMinimo]
  | cons c resto =>
    have hm : (c :: resto)[0]? = some (c.1, c.2) := by simp
    obtain ⟨d, hd, hbusca⟩ := buscarMinimo_refina a (c :: resto) h.tramo (c :: resto) []
      rfl 0 c.1 c.2 hm none none pasos hp
    have hforma := ListaSensor.buscarMinimo_forma (c.2 :: resto.map Prod.snd) 0 (0, c.2)
      none none
    have hval : ListaSensor.eliminarMinimo ⟨(c :: resto).map Prod.snd, l.tamanio⟩
        = ((ListaSensor.buscarMinimo (c.2 :: resto.map Prod.snd) 0 (0, c.2) none none).1.2,
            ⟨match (ListaSensor.buscarMinimo (c.2 :: resto.map Prod.snd) 0 (0, c.2)
                none none).2 with
              | none => resto.map Prod.snd
              | some p => (c.2 :: resto.map Prod.snd).take (p + 1)
                  ++ (c.2 :: resto.map Prod.snd).drop
                    ((ListaSensor.buscarMinimo (c.2 :: resto.map Prod.snd) 0 (0, c.2)
                      none none).1.1 + 1),
              l.tamanio - 1⟩) := rfl
    rw [hval]
    simp only [List.length_nil, List.map_cons] at hd hbusca
    have hnone : dirDe (c :: resto) none = none := rfl
    rw [hnone] at hbusca
    generalize ListaSensor.buscarMinimo (c.2 :: resto.map Prod.snd) 0 (0, c.2) none none
      = r at hd hbusca hforma ⊢
    obtain ⟨⟨m, w⟩, pm⟩ := r
    have hforma2 : (pm = none ∧ m = 0) ∨ ∃ k, m = k + 1 ∧ pm = some k := by
      rcases hforma with hf | ⟨j, w2, _, hf⟩
      · left
        simp only [Prod.mk.injEq] at hf
        exact ⟨hf.2, hf.1.1⟩
      · simp only [Prod.mk.injEq] at hf
        by_cases hj : j = 0
        · left
          subst hj
          exact ⟨by simpa using hf.2, by simpa using hf.1.1⟩
        · right
          refine ⟨j - 1, by omega, ?_⟩
          rw [hf.2, if_neg hj]
          congr 1
          omega
    obtain ⟨a2, l2, he, hrep, _, hlib, hmarco⟩ :=
      eliminar_tras_busqueda a l c resto pasos h m w pm d hd hbusca hforma2
    refine ⟨a2, l2, m, he, hrep, ?_, hlib, hmarco⟩
    rw [map_eraseIdx]
    rcases hforma2 with ⟨hpm, hm0⟩ | ⟨k, hmk, hpm⟩
    · subst hpm hm0
      rfl
    · subst hmk hpm
      rw [List.eraseIdx_eq_take_drop_succ]
      rfl

/-- A list stays the chain it is when the store changes outside its nodes and no
address is given back to `new`. -/
theorem Representa.se_conserva {a b : Almacen T} {l : Lista} {ps : List (Nat × T)}
    (h : Representa a l ps) (hab : ∀ d ∈ ps.map Prod.fst, b.celda d = a.celda d)
    (hlib : a.libre ≤ b.libre) : Representa b l ps :=
  ⟨h.cabeza, h.tramo.marco hab, h.distintos,
    fun d hd => lt_of_lt_of_le (h.reservados d hd) hlib, h.cuenta⟩

theorem representa_vacia (a : Almacen T) : Representa a vacia ([] : List (Nat × T)) :=
  ⟨rfl, trivial, List.nodup_nil, fun _ hd => absurd hd (List.not_mem_nil _), rfl⟩

/-- The copy loop started on an empty list, the other list being the chain `qs`: it
returns a list made of new nodes only, with the values and the count of the other
list, and touches no node that existed. -/
theorem copiar_en_vacia (a : Almacen T) (otra : Lista) (qs : List (Nat × T)) (pasos : Nat)
    (hq : Representa a otra qs) (hp : qs.length ≤ pasos) :
    ∃ a2 l2 ps, copiar pasos a vacia otra = some (a2, l2) ∧ Representa a2 l2 ps ∧
      ps.map Prod.snd = qs.map Prod.snd ∧ l2.tamanio = otra.tamanio ∧
      (∀ d ∈ ps.map Prod.fst, a.libre ≤ d) ∧ a.libre ≤ a2.libre ∧
      ∀ e, e < a.libre → a2.celda e = a.celda e := by
  obtain ⟨a2, l2, nuevos, hcop, hrep, hval, hdir, hlib, hmarco⟩ :=
    copiarDesde_representa pasos qs pasos a vacia [] (representa_vacia a) hq.tramo
      (fun d hd => ⟨hq.reservados d hd, List.not_mem_nil _⟩) hp (by simpa using hp)
  rw [List.nil_append] at hrep
  refine ⟨a2, l2, nuevos, ?_, hrep, hval, ?_, hdir, hlib, ?_⟩
  · unfold copiar
    rw [hq.cabeza]
    exact hcop
  · rw [hrep.cuenta, hq.cuenta]
    have := congrArg List.length hval
    simp only [List.length_map] at this
    rw [this]
  · intro e he
    exact hmarco e (List.not_mem_nil _) he

/-- C13. Copy construction and assignment of a reading list, with the nodes in a store.
From a source that is the chain `qs`: the copy constructor returns a list made of
nodes none of which is a node of the source, with the values of the source in the
same order and the same count, and the source is still the chain `qs`; assignment
to a target that shares no node with the source does the same and releases the
nodes the target had; self-assignment changes nothing.  And for a list that shares
no node with the source, as the copy, `insertar` and `eliminarMinimo` on it return
and leave the source the chain `qs`, still sharing no node with it; the copy and the
source may change places here. -/
theorem copia_y_asignacion_duplican [Lectura T] [LT T] [DecidableRel (fun a b : T => a < b)]
    (a : Almacen T) (otra : Lista) (qs : List (Nat × T)) (hq : Representa a otra qs) :
    (∀ pasos, qs.length ≤ pasos →
      ∃ a2 l2 ps, copia pasos a otra = some (a2, l2) ∧ Representa a2 l2 ps ∧
        ps.map Prod.snd = qs.map Prod.snd ∧ l2.tamanio = otra.tamanio ∧
        Representa a2 otra qs ∧ ∀ d ∈ ps.map Prod.fst, d ∉ qs.map Prod.fst) ∧
    (∀ esta ps0 pasos, Representa a esta ps0 →
      (∀ d ∈ ps0.map Prod.fst, d ∉ qs.map Prod.fst) →
      ps0.length ≤ pasos → qs.length ≤ pasos →
      ∃ a2 l2 ps, asignar pasos a esta (some otra) = some (a2, l2) ∧ Representa a2 l2 ps ∧
        ps.map Prod.snd = qs.map Prod.snd ∧ l2.tamanio = otra.tamanio ∧
        Representa a2 otra qs ∧ (∀ d ∈ ps.map Prod.fst, d ∉ qs.map Prod.fst) ∧
        ∀ d ∈ ps0.map Prod.fst, a2.celda d = none) ∧
    (∀ pasos, asignar pasos a otra none = some (a, otra)) ∧
    (∀ l ps pasos, Representa a l ps → (∀ d ∈ ps.map Prod.fst, d ∉ qs.map Prod.fst) →
      ps.length ≤ pasos →
      (∀ valor, ∃ a2 l2, insertar pasos a l valor = some (a2, l2) ∧
        Representa a2 l2 (ps ++ [(a.libre, valor)]) ∧ Representa a2 otra qs ∧
        ∀ d ∈ (ps ++ [(a.libre, valor)]).map Prod.fst, d ∉ qs.map Prod.fst) ∧
      ∃ a2 l2 i, eliminarMinimo pasos a l
          = some ((ListaSensor.eliminarMinimo ⟨ps.map Prod.snd, l.tamanio⟩).1, a2, l2) ∧
        Representa a2 l2 (ps.eraseIdx i) ∧ Representa a2 otra qs ∧
        ∀ d ∈ (ps.eraseIdx i).map Prod.fst, d ∉ qs.map Prod.fst) := by
  refine ⟨?_, ?_, fun _ => rfl, ?_⟩
  · intro pasos hp
    obtain ⟨a2, l2, ps, hcop, hrep, hval, htam, hdir, hlib, hmarco⟩ :=
      copiar_en_vacia a otra qs pasos hq hp
    refine ⟨a2, l2, ps, hcop, hrep, hval, htam, ?_, ?_⟩
    · exact hq.se_conserva (fun d hd => hmarco d (hq.reservados d hd)) hlib
    · intro d hd hd2
      have h1 := hdir d hd
      have h2 := hq.reservados d hd2
      omega
  · intro esta ps0 pasos hesta hdisj hp0 hp
    obtain ⟨a1, hlim, hlib1, hnone, hmarco1⟩ := limpiar_representa a esta ps0 pasos hesta hp0
    have hq1 : Representa a1 otra qs := by
      refine hq.se_conserva ?_ (le_of_eq hlib1.symm)
      intro d hd
      exact hmarco1 d (fun hd0 => hdisj d hd0 hd)
    obtain ⟨a2, l2, ps, hcop, hrep, hval, htam, hdir, hlib, hmarco⟩ :=
      copiar_en_vacia a1 otra qs pasos hq1 hp
    refine ⟨a2, l2, ps, ?_, hrep, hval, htam, ?_, ?_, ?_⟩
    · simp only [asignar, hlim]
      exact hcop
    · exact hq1.se_conserva (fun d hd => hmarco d (hq1.reservados d hd)) hlib
    · intro d hd hd2
      have h1 := hdir d hd
      have h2 := hq1.reservados d hd2
      omega
    · intro d hd
      rw [hmarco d (by rw [hlib1]; exact hesta.reservados d hd)]
      exact hnone d hd
  · intro l ps pasos hl hdisj hp
    constructor
    · intro valor
      obtain ⟨a2, l2, hins, hrep, hlib, hmarco⟩ := insertar_representa a l ps valor pasos hl hp
      refine ⟨a2, l2, hins, hrep, ?_, ?_⟩
      · refine hq.se_conserva ?_ (by omega)
        intro d hd
        have := hq.reservados d hd
        exact hmarco d (fun hd0 => hdisj d hd0 hd) (by omega)
      · intro d hd hd2
        simp only [List.map_append, List.mem_append, List.map_cons, List.map_nil,
          List.mem_singleton] at hd
        rcases hd with hd | hd
        · exact hdisj d hd hd2
        · have := hq.reservados d hd2
          omega
    · obtain ⟨a2, l2, i, he, hrep, _, hlib, hmarco⟩ :=
        eliminarMinimo_representa a l ps pasos hl hp
      refine ⟨a2, l2, i, he, hrep, ?_, ?_⟩
      · refine hq.se_conserva ?_ (le_of_eq hlib.symm)
        intro d hd
        exact hmarco d (fun hd0 => hdisj d hd0 hd)
      · intro d hd hd2
        have hsub : d ∈ ps.map Prod.fst := by
          rw [map_eraseIdx] at hd
          exact List.mem_of_mem_eraseIdx hd
        exact hdisj d hsub hd2

/-- C13 on the list with the readings `4, 2` in the nodes at the addresses 0 and 1:
the copy is made of the nodes at 2 and 3 with the same readings; an `insertar` on the
copy leaves the source as it is, and an `eliminarMinimo` on the source leaves the
copy as it is. -/
theorem copia_y_asignacion_duplican_witness :
    (copia 2 almacenEjemplo listaEjemplo).bind (fun r => recorrer r.1 4 r.2.cabeza)
      = some [(2, 4), (3, 2)] ∧
    (copia 2 almacenEjemplo listaEjemplo).bind
        (fun r => (insertar 2 r.1 r.2 9).bind (fun r2 => recorrer r2.1 4 listaEjemplo.cabeza))
      = some [(0, 4), (1, 2)] ∧
    (copia 2 almacenEjemplo listaEjemplo).bind
        (fun r => (eliminarMinimo 2 r.1 listaEjemplo).bind
          (fun r2 => recorrer r2.2.1 4 r.2.cabeza))
      = some [(2, 4), (3, 2)] ∧
    ∃ a2 l2 ps, copia 2 almacenEjemplo listaEjemplo = some (a2, l2) ∧ Representa a2 l2 ps ∧
      ps.map Prod.snd = [((0 : Nat), (4 : Int32)), (1, 2)].map Prod.snd ∧
      l2.tamanio = listaEjemplo.tamanio ∧
      Representa a2 listaEjemplo [(0, 4), (1, 2)] ∧
      ∀ d ∈ ps.map Prod.fst, d ∉ [((0 : Nat), (4 : Int32)), (1, 2)].map Prod.fst :=
  ⟨by decide, by decide, by decide,
    (copia_y_asignacion_duplican almacenEjemplo listaEjemplo [(0, 4), (1, 2)]
      ⟨rfl, ⟨rfl, rfl, trivial⟩, by decide, by decide, rfl⟩).1 2 (by decide)⟩

end Enlazada

/-! ## Lookup among sensors of the same name -/

namespace ListaGestion

variable {F : Type}

theorem buscarDesde_eq_find (mem : Memoria F) (sensores : List Dir) (nombre : Cadena) :
    buscarDesde mem sensores nombre
      = sensores.find? (fun p => decide ((mem p).getNombre = nombre)) := by
  induction sensores with
  | nil => rfl
  | cons p resto ih =>
    by_cases hp : (mem p).getNombre = nombre
    · simp [buscarDesde, hp]
    · simp [buscarDesde, hp, ih]

/-- What the search loop returns is the first sensor of the chain with the name. -/
theorem buscarDesde_primero (mem : Memoria F) (sensores : List Dir) (nombre : Cadena)
    (s : Dir) (h : buscarDesde mem sensores nombre = some s) :
    ∃ antes despues, sensores = antes ++ s :: despues ∧ (mem s).getNombre = nombre ∧
      ∀ p ∈ antes, (mem p).getNombre ≠ nombre := by
  induction sensores with
  | nil => simp [buscarDesde] at h
  | cons p resto ih =>
    by_cases hp : (mem p).getNombre = nombre
    · simp only [buscarDesde, hp, if_true, Option.some.injEq] at h
      subst h
      exact ⟨[], resto, rfl, hp, fun q hq => absurd hq (List.not_mem_nil _)⟩
    · simp only [buscarDesde, hp, if_false] at h
      obtain ⟨antes, despues, hsplit, hs, hantes⟩ := ih h
      refine ⟨p :: antes, despues, by rw [hsplit]; rfl, hs, ?_⟩
      intro q hq
      rcases List.mem_cons.mp hq with rfl | hq
      · exact hp
      · exact hantes q hq

/-- A name that a sensor of the stretch `antes` has is found inside `antes`. -/
theorem buscarDesde_en_prefijo (mem : Memoria F) (antes resto : List Dir) (nombre : Cadena)
    (h : ∃ s ∈ antes, (mem s).getNombre = nombre) :
    ∃ r ∈ antes, buscarDesde mem (antes ++ resto) nombre = some r := by
  induction antes with
  | nil =>
    obtain ⟨s, hs, _⟩ := h
    exact absurd hs (List.not_mem_nil _)
  | cons p antes ih =>
    by_cases hp : (mem p).getNombre = nombre
    · exact ⟨p, List.mem_cons_self _ _, by simp [buscarDesde, hp]⟩
    · have hr : ∃ s ∈ antes, (mem s).getNombre = nombre := by
        obtain ⟨s, hs, hsn⟩ := h
        rcases List.mem_cons.mp hs with rfl | hs
        · exact absurd hsn hp
        · exact ⟨s, hs, hsn⟩
      obtain ⟨r, hr1, hr2⟩ := ih hr
      exact ⟨r, List.mem_cons_of_mem _ hr1, by simp [buscarDesde, hp, hr2]⟩

/-- C21. In a registry built by `insertar` calls, `buscar(nombre)` is the first
sensor in insertion order whose name equals `nombre`: whatever it returns has that
name and no sensor inserted before it has; and a sensor first inserted after a sensor
of the same name is returned for no name at all. -/
theorem buscar_devuelve_el_primero (mem : Memoria F) (sensores : List Dir) :
    (∀ nombre, buscar mem (construir sensores) nombre
      = sensores.find? (fun p => decide ((mem p).getNombre = nombre))) ∧
    (∀ nombre s, buscar mem (construir sensores) nombre = some s →
      ∃ antes despues, sensores = antes ++ s :: despues ∧ (mem s).getNombre = nombre ∧
        ∀ p ∈ antes, (mem p).getNombre ≠ nombre) ∧
    (∀ antes t despues, sensores = antes ++ t :: despues → t ∉ antes →
      (∃ s ∈ antes, (mem s).getNombre = (mem t).getNombre) →
      ∀ nombre, buscar mem (construir sensores) nombre ≠ some t) := by
  rw [construir_eq]
  refine ⟨?_, ?_, ?_⟩
  · intro nombre
    exact buscarDesde_eq_find mem sensores nombre
  · intro nombre s h
    exact buscarDesde_primero mem sensores nombre s h
  · intro antes t despues hsplit ht hhom nombre hb
    have hb2 : buscarDesde mem sensores nombre = some t := hb
    obtain ⟨_, _, _, hn, _⟩ := buscarDesde_primero mem sensores nombre t hb2
    rw [← hn] at hb2
    obtain ⟨r, hr1, hr2⟩ := buscarDesde_en_prefijo mem antes (t :: despues) _ hhom
    rw [← hsplit, hb2] at hr2
    cases hr2
    exact ht hr1

/-- C21 on the registry of two sensors named `A`, at the addresses 1 and 2: `buscar`
returns the sensor at 1 for the name `A`, and the sensor at 2 for no name. -/
theorem buscar_devuelve_el_primero_witness :
    ((2 : Dir) ∉ [(1 : Dir)] ∧
      ∃ s ∈ [(1 : Dir)], (memoriaHomonimos s).getNombre = (memoriaHomonimos 2).getNombre) ∧
    buscar memoriaHomonimos (construir [1, 2]) "A".toList = some 1 ∧
    ∀ nombre, buscar memoriaHomonimos (construir [1, 2]) nombre ≠ some 2 :=
  ⟨by decide, by decide,
    (buscar_devuelve_el_primero memoriaHomonimos [1, 2]).2.2 [1] 2 [] rfl
      (by decide) (by decide)⟩

end ListaGestion

/-! ## Removing the minimum of an empty list -/

namespace ListaSensor

variable {T : Type}

/-- C22. `eliminarMinimo` on an empty list returns `T(0)` and changes nothing: the
list returned is the list given, so it is still empty and, in a reachable state,
`getTamanio()` is still 0.  With the nodes in a store, the call returns at once: it
follows no pointer (no loop iteration is needed) and the store is as before. -/
theorem eliminarMinimo_en_lista_vacia [Lectura T] [LT T]
    [DecidableRel (fun a b : T => a < b)] :
    (∀ l : ListaSensor T, estaVacia l = true → eliminarMinimo l = (Lectura.cero, l)) ∧
    (∀ l : ListaSensor T, Alcanzable l → estaVacia l = true →
      (eliminarMinimo l).1 = Lectura.cero ∧ estaVacia (eliminarMinimo l).2 = true ∧
      getTamanio l = 0 ∧ getTamanio (eliminarMinimo l).2 = 0) ∧
    (∀ (a : Enlazada.Almacen T) (lp : Enlazada.Lista), lp.cabeza = none →
      Enlazada.eliminarMinimo 0 a lp = some (Lectura.cero, a, lp)) := by
  have vacia_igual : ∀ l : ListaSensor T, estaVacia l = true →
      eliminarMinimo l = (Lectura.cero, l) := by
    intro l hv
    have hn : l.nodos = [] := by simpa [estaVacia] using hv
    unfold eliminarMinimo
    rw [hn]
  refine ⟨vacia_igual, ?_, ?_⟩
  · intro l hl hv
    have hn : l.nodos = [] := by simpa [estaVacia] using hv
    have ht := hl.cuenta
    rw [hn] at ht
    rw [vacia_igual l hv]
    refine ⟨rfl, hv, ?_, ?_⟩ <;> simpa [getTamanio] using ht
  · intro a lp hc
    unfold Enlazada.eliminarMinimo
    rw [hc]

/-- C22 on the empty `int` list left by two removals: a third returns `0` and the
same list. -/
theorem eliminarMinimo_en_lista_vacia_witness :
    estaVacia listaTrasAsignar = true ∧
    eliminarMinimo listaTrasAsignar = (0, ⟨[], 0⟩) ∧
    eliminarMinimo listaTrasAsignar = (Lectura.cero, listaTrasAsignar) :=
  ⟨by decide, by decide,
    (@eliminarMinimo_en_lista_vacia Int32 _ _ _).1 listaTrasAsignar (by decide)⟩

end ListaSensor

/-! ## The name of a sensor -/

theorem ListaGestion.buscarDesde_por_nombres {F : Type} (mem otra : Memoria F)
    (sensores : List Dir) (nombre : Cadena)
    (h : ∀ p ∈ sensores, (mem p).getNombre = (otra p).getNombre) :
    ListaGestion.buscarDesde mem sensores nombre
      = ListaGestion.buscarDesde otra sensores nombre := by
  induction sensores with
  | nil => rfl
  | cons p resto ih =>
    have hp := h p (List.mem_cons_self _ _)
    have hr := ih (fun q hq => h q (List.mem_cons_of_mem _ hq))
    simp only [ListaGestion.buscarDesde, hp, hr]

theorem SensorTemperatura.procesarLectura_nombre {F : Type} [Lectura F] [LT F]
    [DecidableRel (fun a b : F => a < b)] (s : SensorTemperatura F) :
    (s.procesarLectura).1.getNombre = s.getNombre := by
  unfold SensorTemperatura.procesarLectura
  split
  · rfl
  · split <;> rfl

theorem SensorPresion.procesarLectura_nombre_presion (s : SensorPresion) :
    (s.procesarLectura).1.getNombre = s.getNombre := by
  unfold SensorPresion.procesarLectura
  split <;> rfl

/-- C23. The name of a sensor is the name given to the constructor cut to its first 49
characters: the name itself when it has at most 49.  Two sensors created with names
that agree on the first 49 characters have the same name, and `buscar` sees of the
sensors nothing but their names.  `agregarLectura` and `procesarLectura` keep the
name, `imprimirInfo` prints it and changes nothing, so the name of a sensor in any
reachable state has at most 49 characters. -/
theorem nombre_truncado_e_inmutable {F : Type} [Lectura F] [LT F]
    [DecidableRel (fun a b : F => a < b)] :
    (∀ nom : Cadena,
      (SensorTemperatura.crear nom : SensorTemperatura F).getNombre = nom.take 49 ∧
      (SensorPresion.crear nom).getNombre = nom.take 49) ∧
    (∀ nom : Cadena, nom.length ≤ 49 →
      (SensorTemperatura.crear nom : SensorTemperatura F).getNombre = nom ∧
      (SensorPresion.crear nom).getNombre = nom) ∧
    (∀ nom1 nom2 : Cadena, nom1.take 49 = nom2.take 49 →
      (Sensor.temperatura (SensorTemperatura.crear nom1) : Sensor F).getNombre
        = (Sensor.temperatura (SensorTemperatura.crear nom2) : Sensor F).getNombre ∧
      (Sensor.presion (SensorPresion.crear nom1) : Sensor F).getNombre
        = (Sensor.presion (SensorPresion.crear nom2) : Sensor F).getNombre ∧
      (Sensor.temperatura (SensorTemperatura.crear nom1) : Sensor F).getNombre
        = (Sensor.presion (SensorPresion.crear nom2) : Sensor F).getNombre) ∧
    (∀ (mem otra : Memoria F) (g : ListaGestion),
      (∀ p ∈ g.nodos, (mem p).getNombre = (otra p).getNombre) →
      ∀ nombre, g.buscar mem nombre = g.buscar otra nombre) ∧
    (∀ (s : SensorTemperatura F) (atof : Cadena → F) (valor : Cadena),
      (s.agregarLectura atof valor).getNombre = s.getNombre ∧
      (s.procesarLectura).1.getNombre = s.getNombre ∧
      s.imprimirInfo.1 = s.getNombre) ∧
    (∀ (s : SensorPresion) (atoi : Cadena → Int32) (valor : Cadena),
      (s.agregarLectura atoi valor).getNombre = s.getNombre ∧
      (s.procesarLectura).1.getNombre = s.getNombre ∧
      s.imprimirInfo.1 = s.getNombre) ∧
    (∀ s : SensorTemperatura F, SensorTemperatura.Alcanzable s → s.getNombre.length ≤ 49) ∧
    (∀ s : SensorPresion, SensorPresion.Alcanzable s → s.getNombre.length ≤ 49) := by
  have corto : ∀ nom : Cadena, nom.length ≤ 49 → nom.take 49 = nom :=
    fun nom h => List.take_of_length_le h
  have largo : ∀ nom : Cadena, (nom.take 49).length ≤ 49 := by
    intro nom
    rw [List.length_take]
    exact Nat.min_le_left _ _
  refine ⟨fun nom => ⟨rfl, rfl⟩, ?_, ?_, ?_, ?_, ?_, ?_, ?_⟩
  · intro nom h
    exact ⟨corto nom h, corto nom h⟩
  · intro nom1 nom2 h
    exact ⟨h, h, h⟩
  · intro mem otra g h nombre
    exact ListaGestion.buscarDesde_por_nombres mem otra g.nodos nombre h
  · intro s atof valor
    exact ⟨rfl, SensorTemperatura.procesarLectura_nombre s, rfl⟩
  · intro s atoi valor
    exact ⟨rfl, SensorPresion.procesarLectura_nombre_presion s, rfl⟩
  · intro s hs
    induction hs with
    | crear nom => exact largo nom
    | agregarLectura atof s valor _ ih => exact ih
    | procesarLectura s _ ih =>
      rw [SensorTemperatura.procesarLectura_nombre]
      exact ih
  · intro s hs
    induction hs with
    | crear nom => exact largo nom
    | agregarLectura atoi s valor _ ih => exact ih
    | procesarLectura s _ ih =>
      rw [SensorPresion.procesarLectura_nombre_presion]
      exact ih

/-- C23 on the name `T-001`, kept whole, and on two names of 50 characters that
differ in the last one only: both sensors get the same 49 characters as name, the
second is not found under it, and neither is found under its full name. -/
theorem nombre_truncado_e_inmutable_witness :
    ("T-001".toList.length ≤ 49 ∧ nombreLargoB ≠ nombreLargoC ∧
      nombreLargoB.take 49 = nombreLargoC.take 49) ∧
    (ListaGestion.construir [1, 2]).buscar memoriaNombresLargos (List.replicate 49 'x')
      = some 1 ∧
    (ListaGestion.construir [1, 2]).buscar memoriaNombresLargos nombreLargoC = none ∧
    ((SensorTemperatura.crear "T-001".toList : SensorTemperatura ℚ).getNombre
        = "T-001".toList ∧
      (SensorPresion.crear "T-001".toList).getNombre = "T-001".toList) ∧
    (Sensor.temperatura (SensorTemperatura.crear nombreLargoB) : Sensor ℚ).getNombre
      = (Sensor.presion (SensorPresion.crear nombreLargoC) : Sensor ℚ).getNombre :=
  ⟨by decide, by decide, by decide,
    (@nombre_truncado_e_inmutable ℚ _ _ _).2.1 "T-001".toList (by decide),
    ((@nombre_truncado_e_inmutable ℚ _ _ _).2.2.1 nombreLargoB nombreLargoC
      (by decide)).2.2⟩

end IoT
